import Mathlib

/-!
Shallow embedding of the fixed-partition memory / SRTF scheduling simulator
(repository `simulador-so`).  The embedding follows the current generation of
the sources: `src/src/core/gestor_memoria.py`, `src/core/planificador.py`,
`src/src/core/simulador.py`, together with the entity modules `proceso.py` and
`particion.py` (the two copies of the entity files are identical in behaviour).

Python objects are modelled by records; object identity is modelled by the
index of a process in the master list `procesos` and the index of a partition
in the list `particiones`.  The queues of the scheduler and the simulator hold
indices, the mutable cross references `Particion.proceso_asignado` and
`Proceso.particion_asignada` hold the index of the other object.  Machine
integers of Python are unbounded, they become `Int`.  Every mutating method
becomes a function returning the new state (paired with the Python return
value when the caller uses it).
-/

set_option linter.unusedVariables false

/-- Estados of a process, from `proceso.py` (`EstadoProceso`). -/
inductive EstadoProceso where
  | NUEVO
  | LISTO
  | LISTO_SUSPENDIDO
  | EJECUCION
  | TERMINADO
  | SIN_ARRIBAR
deriving DecidableEq, Repr

open EstadoProceso

/-- Mutable record of a process, from `proceso.py` (`Proceso.__init__`).
The string id is irrelevant to the engine's semantics (it is only printed);
identity is carried by the index in the master process list. -/
structure Proceso where
  tamano : Int
  tiempo_arribo : Int
  tiempo_irrupcion : Int
  tiempo_restante : Int
  estado : EstadoProceso
  tiempo_llegada_listo : Option Int
  tiempo_finalizacion : Option Int
  particion_asignada : Option Nat
  tiempo_espera_acumulado : Int
  ultimo_tiempo_espera_inicio : Option Int
deriving DecidableEq, Repr

/-- Constructor of `Proceso` (`Proceso.__init__`). -/
def crearProceso (tamano tiempo_arribo tiempo_irrupcion : Int) : Proceso :=
  { tamano := tamano
    tiempo_arribo := tiempo_arribo
    tiempo_irrupcion := tiempo_irrupcion
    tiempo_restante := tiempo_irrupcion
    estado := SIN_ARRIBAR
    tiempo_llegada_listo := none
    tiempo_finalizacion := none
    particion_asignada := none
    tiempo_espera_acumulado := 0
    ultimo_tiempo_espera_inicio := none }

/-- Fixed memory partition, from `particion.py` (`Particion.__init__`).
`proceso_asignado` holds the index of the occupying process. -/
structure Particion where
  id_particion : Nat
  direccion_inicio : Int
  tamano : Int
  proceso_asignado : Option Nat
  es_sistema_operativo : Bool
deriving DecidableEq, Repr

/-- Particion.esta_libre: free means no occupant and not the OS partition. -/
def Particion.esta_libre (part : Particion) : Bool :=
  part.proceso_asignado.isNone && !part.es_sistema_operativo

/-- Whole mutable state of the simulator: the master process list
(`Simulador.procesos`), the partition table (`GestorMemoria.particiones`),
the three queues and the running process of `Simulador`/`Planificador`,
and the clock.  Queues hold indices into `procesos`. -/
structure Sim where
  procesos : List Proceso
  particiones : List Particion
  cola_nuevos : List Nat
  cola_listos : List Nat
  cola_listos_suspendidos : List Nat
  proceso_ejecutando : Option Nat
  tiempo_actual : Int
deriving DecidableEq, Repr

/-- In-place update of the element at index `i` (Python attribute mutation on
the object stored at that index). -/
def modifica {α : Type} : List α → Nat → (α → α) → List α
  | [], _, _ => []
  | a :: l, 0, f => f a :: l
  | a :: l, n + 1, f => a :: modifica l n f

/-- Estado of the process at position `i` of a process list (out of range
reads a dummy). -/
def estadoL (procesos : List Proceso) (i : Nat) : EstadoProceso :=
  match procesos[i]? with
  | some p => p.estado
  | none => TERMINADO

/-- Estado of the process at index `i`. -/
def estadoDe (s : Sim) (i : Nat) : EstadoProceso :=
  estadoL s.procesos i

/-- Remaining time of the process at position `i` of a process list. -/
def restanteL (procesos : List Proceso) (i : Nat) : Int :=
  match procesos[i]? with
  | some p => p.tiempo_restante
  | none => 0

/-- Remaining time of the process at index `i`. -/
def restanteDe (s : Sim) (i : Nat) : Int :=
  restanteL s.procesos i

/-- Arrival time of the process at position `i` of a process list. -/
def arriboL (procesos : List Proceso) (i : Nat) : Int :=
  match procesos[i]? with
  | some p => p.tiempo_arribo
  | none => 0

/-- Arrival time of the process at index `i`. -/
def arriboDe (s : Sim) (i : Nat) : Int :=
  arriboL s.procesos i

/-- Burst time of the process at position `i` of a process list. -/
def irrupcionL (procesos : List Proceso) (i : Nat) : Int :=
  match procesos[i]? with
  | some p => p.tiempo_irrupcion
  | none => 0

/-- Burst time of the process at index `i`. -/
def irrupcionDe (s : Sim) (i : Nat) : Int :=
  irrupcionL s.procesos i

/-- Partition link (`particion_asignada`) of the process at position `i` of
a process list. -/
def particionL (procesos : List Proceso) (i : Nat) : Option Nat :=
  match procesos[i]? with
  | some p => p.particion_asignada
  | none => none

/-- Partition link of the process at index `i` (`particion_asignada`). -/
def particionDe (s : Sim) (i : Nat) : Option Nat :=
  particionL s.procesos i

/-- Occupant link (`proceso_asignado`) of the partition at position `j` of a
partition list. -/
def ocupanteL (particiones : List Particion) (j : Nat) : Option Nat :=
  match particiones[j]? with
  | some part => part.proceso_asignado
  | none => none

/-- Occupant link of the partition at index `j` (`proceso_asignado`). -/
def ocupanteDe (s : Sim) (j : Nat) : Option Nat :=
  ocupanteL s.particiones j

namespace GestorMemoria

/-- Constant `GestorMemoria.GRADO_MULTIPROGRAMACION_MAX`. -/
def GRADO_MULTIPROGRAMACION_MAX : Nat := 5

/-- Partition table built by `GestorMemoria._inicializar_particiones`:
OS 100K, large 250K, medium 150K, small 50K, ids 0..3. -/
def particionesFijas : List Particion :=
  [ { id_particion := 0, direccion_inicio := 0, tamano := 100,
      proceso_asignado := none, es_sistema_operativo := true }
  , { id_particion := 1, direccion_inicio := 100, tamano := 250,
      proceso_asignado := none, es_sistema_operativo := false }
  , { id_particion := 2, direccion_inicio := 350, tamano := 150,
      proceso_asignado := none, es_sistema_operativo := false }
  , { id_particion := 3, direccion_inicio := 500, tamano := 50,
      proceso_asignado := none, es_sistema_operativo := false } ]

/-- Inner accumulator update of `GestorMemoria.best_fit` for a qualifying
partition at position `idx` with waste `wp`: Python's
`if desperdicio < menor_desperdicio` (where an empty accumulator plays the
role of `menor_desperdicio = inf`). -/
def actualizaMejor (idx : Nat) (wp : Int) : Option (Nat × Int) → Option (Nat × Int)
  | none => some (idx, wp)
  | some (j, m) => if wp < m then some (idx, wp) else some (j, m)

/-- Accumulator loop of `GestorMemoria.best_fit`: walks the partition list
carrying the best candidate so far as `some (index, desperdicio)`. -/
def mejorDesde (proceso : Proceso) (idx : Nat) (mejor : Option (Nat × Int)) :
    List Particion → Option (Nat × Int)
  | [] => mejor
  | part :: resto =>
      mejorDesde proceso (idx + 1)
        (if part.esta_libre ∧ proceso.tamano ≤ part.tamano then
          actualizaMejor idx (part.tamano - proceso.tamano) mejor
        else mejor) resto

/-- GestorMemoria.best_fit: returns the index (in the partition list) of the
free partition of sufficient capacity with the least waste, first encountered
winning ties; `none` when no partition qualifies. -/
def best_fit (particiones : List Particion) (proceso : Proceso) : Option Nat :=
  (mejorDesde proceso 0 none particiones).map Prod.fst

/-- GestorMemoria.contar_procesos_en_memoria: occupied non-OS partitions. -/
def contar_procesos_en_memoria (s : Sim) : Nat :=
  (s.particiones.filter
    (fun part => !part.es_sistema_operativo && !part.proceso_asignado.isNone)).length

end GestorMemoria

namespace Particion

/-- Particion.asignar_proceso for the partition at index `j` and the process
at index `i`: refuses the OS partition, an occupied partition, and a process
larger than the capacity, otherwise sets both link fields. -/
def asignar_proceso (s : Sim) (j i : Nat) : Bool × Sim :=
  match s.particiones[j]?, s.procesos[i]? with
  | some part, some proceso =>
      if part.es_sistema_operativo then (false, s)
      else if !part.esta_libre then (false, s)
      else if part.tamano < proceso.tamano then (false, s)
      else
        (true,
          { s with
            particiones := modifica s.particiones j
              (fun p => { p with proceso_asignado := some i })
            procesos := modifica s.procesos i
              (fun p => { p with particion_asignada := some j }) })
  | _, _ => (false, s)

/-- Particion.liberar for the partition at index `j`: clears the occupant's
back link (when occupied) and the occupant field, returning the previous
occupant. -/
def liberar (s : Sim) (j : Nat) : Option Nat × Sim :=
  match s.particiones[j]? with
  | none => (none, s)
  | some part =>
      match part.proceso_asignado with
      | some i =>
          (some i,
            { s with
              procesos := modifica s.procesos i
                (fun p => { p with particion_asignada := none })
              particiones := modifica s.particiones j
                (fun p => { p with proceso_asignado := none }) })
      | none =>
          (none,
            { s with
              particiones := modifica s.particiones j
                (fun p => { p with proceso_asignado := none }) })

end Particion

namespace GestorMemoria

/-- GestorMemoria.asignar_proceso: fails when the occupied count has reached
the multiprogramming degree or Best-Fit finds nothing, otherwise delegates to
`Particion.asignar_proceso` on the chosen partition. -/
def asignar_proceso (s : Sim) (i : Nat) : Bool × Sim :=
  if GRADO_MULTIPROGRAMACION_MAX ≤ contar_procesos_en_memoria s then (false, s)
  else
    match s.procesos[i]? with
    | none => (false, s)
    | some proceso =>
        match best_fit s.particiones proceso with
        | none => (false, s)
        | some j => Particion.asignar_proceso s j i

/-- GestorMemoria.liberar_particion: releases the partition held by the
process at index `i`; `false` and no change when it holds none. -/
def liberar_particion (s : Sim) (i : Nat) : Bool × Sim :=
  match particionDe s i with
  | none => (false, s)
  | some j => (true, (Particion.liberar s j).2)

end GestorMemoria

/-- Proceso.actualizar_estado: pure update of one process record; registers
the ready-entry time, accumulates waiting on a Ready→Running transition, and
stamps the completion time on termination. -/
def actualizar_estado (p : Proceso) (nuevo : EstadoProceso) (t : Int) : Proceso :=
  let anterior := p.estado
  let p1 := { p with estado := nuevo }
  let p2 :=
    if nuevo = LISTO then
      { p1 with
        tiempo_llegada_listo :=
          match p1.tiempo_llegada_listo with
          | none => some t
          | some x => some x
        ultimo_tiempo_espera_inicio := some t }
    else p1
  let p3 :=
    if nuevo = EJECUCION ∧ anterior = LISTO then
      match p2.ultimo_tiempo_espera_inicio with
      | some u =>
          { p2 with
            tiempo_espera_acumulado := p2.tiempo_espera_acumulado + (t - u)
            ultimo_tiempo_espera_inicio := none }
      | none => p2
    else p2
  if nuevo = TERMINADO then { p3 with tiempo_finalizacion := some t } else p3

namespace Planificador

/-- Planificador._ordenar_cola_listos: stable sort of the ready queue by
remaining time (Python `list.sort` is stable; `insertionSort` with `≤` is the
same stable sort). -/
def ordenar_cola_listos (s : Sim) : Sim :=
  { s with
    cola_listos :=
      List.insertionSort (fun a b => restanteDe s a ≤ restanteDe s b) s.cola_listos }

/-- Planificador.agregar_listo: set the process Ready, append, re-sort. -/
def agregar_listo (s : Sim) (i : Nat) (t : Int) : Sim :=
  let s1 :=
    { s with procesos := modifica s.procesos i (fun p => actualizar_estado p LISTO t) }
  ordenar_cola_listos { s1 with cola_listos := s1.cola_listos ++ [i] }

/-- Planificador.agregar_suspendido: set the process ReadySuspended and
append it to the FIFO tail. -/
def agregar_suspendido (s : Sim) (i : Nat) (t : Int) : Sim :=
  { s with
    procesos := modifica s.procesos i (fun p => actualizar_estado p LISTO_SUSPENDIDO t)
    cola_listos_suspendidos := s.cola_listos_suspendidos ++ [i] }

/-- Planificador.seleccionar_siguiente: SRTF selection with preemption.
Returns the Python return value (the selected process) and the new state. -/
def seleccionar_siguiente (s : Sim) (t : Int) : Option Nat × Sim :=
  match s.proceso_ejecutando with
  | none =>
      match s.cola_listos with
      | [] => (none, s)
      | h :: resto =>
          let s1 := { s with cola_listos := resto, proceso_ejecutando := some h }
          (some h,
            { s1 with
              procesos := modifica s1.procesos h (fun p => actualizar_estado p EJECUCION t) })
  | some r =>
      match s.cola_listos with
      | [] => (some r, s)
      | cand :: _ =>
          if restanteDe s cand < restanteDe s r then
            let s1 :=
              { s with procesos := modifica s.procesos r (fun p => actualizar_estado p LISTO t) }
            let s2 := ordenar_cola_listos { s1 with cola_listos := s1.cola_listos ++ [r] }
            match s2.cola_listos with
            | [] => (none, s2)
            | h :: resto2 =>
                let s3 := { s2 with cola_listos := resto2, proceso_ejecutando := some h }
                (some h,
                  { s3 with
                    procesos := modifica s3.procesos h (fun p => actualizar_estado p EJECUCION t) })
          else (some r, s)

/-- Planificador.finalizar_proceso_actual: Terminated + completion stamp. -/
def finalizar_proceso_actual (s : Sim) (t : Int) : Option Nat × Sim :=
  match s.proceso_ejecutando with
  | none => (none, s)
  | some r =>
      (some r,
        { s with
          procesos := modifica s.procesos r (fun p => actualizar_estado p TERMINADO t)
          proceso_ejecutando := none })

end Planificador

/-- Proceso.calcular_tiempo_retorno: turnaround = completion − arrival. -/
def calcular_tiempo_retorno (p : Proceso) : Option Int :=
  match p.tiempo_finalizacion with
  | some f => some (f - p.tiempo_arribo)
  | none => none

/-- Proceso.calcular_tiempo_espera: wait = turnaround − burst. -/
def calcular_tiempo_espera (p : Proceso) : Option Int :=
  match calcular_tiempo_retorno p with
  | some r => some (r - p.tiempo_irrupcion)
  | none => none

theorem length_modifica {α : Type} (l : List α) (i : Nat) (f : α → α) :
    (modifica l i f).length = l.length := by
  induction l generalizing i with
  | nil => rfl
  | cons a l ih =>
      cases i with
      | zero => rfl
      | succ n => simpa [modifica] using ih n

theorem getElem?_modifica_ne {α : Type} (l : List α) (i j : Nat) (f : α → α)
    (h : i ≠ j) : (modifica l i f)[j]? = l[j]? := by
  induction l generalizing i j with
  | nil => rfl
  | cons a l ih =>
      cases i with
      | zero =>
          cases j with
          | zero => exact absurd rfl h
          | succ m => simp [modifica]
      | succ n =>
          cases j with
          | zero => simp [modifica]
          | succ m => simpa [modifica] using ih n m (by omega)

theorem getElem?_modifica_self {α : Type} (l : List α) (i : Nat) (f : α → α) :
    (modifica l i f)[i]? = l[i]?.map f := by
  induction l generalizing i with
  | nil => rfl
  | cons a l ih =>
      cases i with
      | zero => simp [modifica]
      | succ n => simpa [modifica] using ih n

/-- Frame lemma: `Particion.asignar_proceso` touches only `procesos` and
`particiones`; queues, running process and clock are unchanged. -/
theorem Particion.asignar_marco_part (s : Sim) (j i : Nat) :
    (Particion.asignar_proceso s j i).2.cola_nuevos = s.cola_nuevos ∧
    (Particion.asignar_proceso s j i).2.cola_listos = s.cola_listos ∧
    (Particion.asignar_proceso s j i).2.cola_listos_suspendidos = s.cola_listos_suspendidos ∧
    (Particion.asignar_proceso s j i).2.proceso_ejecutando = s.proceso_ejecutando ∧
    (Particion.asignar_proceso s j i).2.tiempo_actual = s.tiempo_actual := by
  unfold Particion.asignar_proceso
  repeat' split
  all_goals exact ⟨rfl, rfl, rfl, rfl, rfl⟩

/-- Frame lemma: `GestorMemoria.asignar_proceso` touches only `procesos` and
`particiones`. -/
theorem GestorMemoria.asignar_proceso_marco (s : Sim) (i : Nat) :
    (GestorMemoria.asignar_proceso s i).2.cola_nuevos = s.cola_nuevos ∧
    (GestorMemoria.asignar_proceso s i).2.cola_listos = s.cola_listos ∧
    (GestorMemoria.asignar_proceso s i).2.cola_listos_suspendidos = s.cola_listos_suspendidos ∧
    (GestorMemoria.asignar_proceso s i).2.proceso_ejecutando = s.proceso_ejecutando ∧
    (GestorMemoria.asignar_proceso s i).2.tiempo_actual = s.tiempo_actual := by
  unfold GestorMemoria.asignar_proceso
  split
  · exact ⟨rfl, rfl, rfl, rfl, rfl⟩
  · split
    · exact ⟨rfl, rfl, rfl, rfl, rfl⟩
    · split
      · exact ⟨rfl, rfl, rfl, rfl, rfl⟩
      · exact Particion.asignar_marco_part s _ i

/-- Frame lemma: `Planificador.agregar_listo` keeps the new and suspended
queues, the running process and the clock. -/
theorem Planificador.agregar_listo_marco (s : Sim) (i : Nat) (t : Int) :
    (Planificador.agregar_listo s i t).cola_nuevos = s.cola_nuevos ∧
    (Planificador.agregar_listo s i t).cola_listos_suspendidos = s.cola_listos_suspendidos ∧
    (Planificador.agregar_listo s i t).proceso_ejecutando = s.proceso_ejecutando ∧
    (Planificador.agregar_listo s i t).tiempo_actual = s.tiempo_actual ∧
    (Planificador.agregar_listo s i t).particiones = s.particiones := by
  unfold Planificador.agregar_listo Planificador.ordenar_cola_listos
  simp

/-- Frame lemma: `Planificador.agregar_suspendido` appends one element to the
suspended queue and keeps everything else except `procesos`. -/
theorem Planificador.agregar_suspendido_marco (s : Sim) (i : Nat) (t : Int) :
    (Planificador.agregar_suspendido s i t).cola_nuevos = s.cola_nuevos ∧
    (Planificador.agregar_suspendido s i t).cola_listos = s.cola_listos ∧
    (Planificador.agregar_suspendido s i t).cola_listos_suspendidos
      = s.cola_listos_suspendidos ++ [i] ∧
    (Planificador.agregar_suspendido s i t).proceso_ejecutando = s.proceso_ejecutando ∧
    (Planificador.agregar_suspendido s i t).tiempo_actual = s.tiempo_actual ∧
    (Planificador.agregar_suspendido s i t).particiones = s.particiones := by
  unfold Planificador.agregar_suspendido
  simp

namespace Simulador

/-- Simulador._calcular_grado_multiprogramacion_actual: processes in memory
plus suspended processes (the combined load of the admission invariant). -/
def _calcular_grado_multiprogramacion_actual (s : Sim) : Nat :=
  GestorMemoria.contar_procesos_en_memoria s + s.cola_listos_suspendidos.length

/-- Simulador._procesar_arribos, inner loop: walks the master list in order
and moves every not-yet-arrived process whose arrival time equals the clock
to the New state and the tail of `cola_nuevos`. -/
def procesar_arribos_aux (s : Sim) (arribados : List Nat) : List Nat → List Nat × Sim
  | [] => (arribados, s)
  | i :: resto =>
      if estadoDe s i = SIN_ARRIBAR ∧ arriboDe s i = s.tiempo_actual then
        procesar_arribos_aux
          { s with
            procesos := modifica s.procesos i (fun p => { p with estado := NUEVO })
            cola_nuevos := s.cola_nuevos ++ [i] }
          (arribados ++ [i]) resto
      else procesar_arribos_aux s arribados resto

/-- Simulador._procesar_arribos. -/
def _procesar_arribos (s : Sim) : List Nat × Sim :=
  procesar_arribos_aux s [] (List.range s.procesos.length)

/-- Sort key order of `cola_nuevos` used by
`_intentar_asignar_memoria_desde_colas`: Python tuple order on
`(tiempo_arribo, tiempo_irrupcion)`. -/
def claveLe (s : Sim) (a b : Nat) : Prop :=
  arriboDe s a < arriboDe s b ∨
    (arriboDe s a = arriboDe s b ∧ irrupcionDe s a ≤ irrupcionDe s b)

instance claveLe.decidable (s : Sim) : DecidableRel (claveLe s) := fun a b => by
  unfold claveLe
  exact inferInstance

/-- Result of `Simulador._intentar_asignar_memoria_desde_colas`.  The field
`atendidos` is ghost instrumentation: it records, in order, the queue heads
the loop examined (each examined head ends in `asignados` or `suspendidos`);
it is not part of the Python return value. -/
structure ResIntento where
  asignados : List Nat
  suspendidos : List Nat
  en_cola_por_grado : List Nat
  atendidos : List Nat
  st : Sim
deriving Repr

/-- Loop of `Simulador._intentar_asignar_memoria_desde_colas`: takes the
head of `cola_nuevos` while the combined load is below the limit; an admitted
head goes Ready, a head without a fitting partition goes suspended; on
reaching the limit the remaining processes stay in `cola_nuevos`. -/
def intentar_loop (s : Sim) (asignados suspendidos atendidos : List Nat) : ResIntento :=
  match h : s.cola_nuevos with
  | [] =>
      { asignados := asignados, suspendidos := suspendidos, en_cola_por_grado := []
        atendidos := atendidos, st := s }
  | proceso :: resto =>
      if GestorMemoria.GRADO_MULTIPROGRAMACION_MAX ≤ _calcular_grado_multiprogramacion_actual s then
        { asignados := asignados, suspendidos := suspendidos
          en_cola_por_grado := s.cola_nuevos, atendidos := atendidos, st := s }
      else
        if (GestorMemoria.asignar_proceso s proceso).1 then
          intentar_loop
            (Planificador.agregar_listo
              { (GestorMemoria.asignar_proceso s proceso).2 with cola_nuevos := resto }
              proceso s.tiempo_actual)
            (asignados ++ [proceso]) suspendidos (atendidos ++ [proceso])
        else
          intentar_loop
            (Planificador.agregar_suspendido
              { (GestorMemoria.asignar_proceso s proceso).2 with cola_nuevos := resto }
              proceso s.tiempo_actual)
            asignados (suspendidos ++ [proceso]) (atendidos ++ [proceso])
termination_by s.cola_nuevos.length
decreasing_by
  · rw [(Planificador.agregar_listo_marco _ _ _).1]
    simp [h]
  · rw [(Planificador.agregar_suspendido_marco _ _ _).1]
    simp [h]

/-- Simulador._intentar_asignar_memoria_desde_colas: sorts `cola_nuevos` by
`(tiempo_arribo, tiempo_irrupcion)` ascending (stable) and runs the loop. -/
def _intentar_asignar_memoria_desde_colas (s : Sim) : ResIntento :=
  intentar_loop
    { s with cola_nuevos := List.insertionSort (claveLe s) s.cola_nuevos } [] [] []

/-- Fallback scan of `Simulador._promover_suspendidos` over
`cola_listos_suspendidos[1:]`: returns the position (counted from `idx`) and
index of the first suspended process admitted by
`GestorMemoria.asignar_proceso`, with the state after that admission. -/
def buscar_promovible (s : Sim) (idx : Nat) : List Nat → Option (Nat × Nat × Sim)
  | [] => none
  | i :: resto =>
      if (GestorMemoria.asignar_proceso s i).1 then
        some (idx, i, (GestorMemoria.asignar_proceso s i).2)
      else buscar_promovible (GestorMemoria.asignar_proceso s i).2 (idx + 1) resto

theorem buscar_promovible_cota (cola : List Nat) :
    ∀ (s : Sim) (idx idx2 proc : Nat) (s2 : Sim),
    buscar_promovible s idx cola = some (idx2, proc, s2) →
    idx ≤ idx2 ∧ idx2 < idx + cola.length ∧
      s2.cola_listos_suspendidos = s.cola_listos_suspendidos := by
  induction cola with
  | nil => intro s idx idx2 proc s2 h; simp [buscar_promovible] at h
  | cons i resto ih =>
      intro s idx idx2 proc s2 h
      unfold buscar_promovible at h
      split at h
      · rw [Option.some.injEq, Prod.mk.injEq, Prod.mk.injEq] at h
        obtain ⟨h1, h2, h3⟩ := h
        subst h1
        subst h3
        refine ⟨Nat.le_refl _, by simp, ?_⟩
        exact (GestorMemoria.asignar_proceso_marco s i).2.2.1
      · obtain ⟨ha, hb, hc⟩ := ih _ _ _ _ _ h
        refine ⟨by omega, by simp; omega, ?_⟩
        rw [hc, (GestorMemoria.asignar_proceso_marco s i).2.2.1]

/-- Loop of `Simulador._promover_suspendidos`: while the combined load is
below the limit, promote the suspended FIFO head if it fits, otherwise the
first later suspended process that fits; stop when none fits. -/
def promover_loop (s : Sim) (promovidos : List Nat) : List Nat × Sim :=
  match h : s.cola_listos_suspendidos with
  | [] => (promovidos, s)
  | cand :: resto =>
      if GestorMemoria.GRADO_MULTIPROGRAMACION_MAX ≤ _calcular_grado_multiprogramacion_actual s then
        (promovidos, s)
      else
        if (GestorMemoria.asignar_proceso s cand).1 then
          promover_loop
            (Planificador.agregar_listo
              { (GestorMemoria.asignar_proceso s cand).2 with cola_listos_suspendidos := resto }
              cand s.tiempo_actual)
            (promovidos ++ [cand])
        else
          match h2 : buscar_promovible (GestorMemoria.asignar_proceso s cand).2 1 resto with
          | some (idx, proc, s2) =>
              promover_loop
                (Planificador.agregar_listo
                  { s2 with
                    cola_listos_suspendidos := s2.cola_listos_suspendidos.eraseIdx idx }
                  proc s.tiempo_actual)
                (promovidos ++ [proc])
          | none => (promovidos, (GestorMemoria.asignar_proceso s cand).2)
termination_by s.cola_listos_suspendidos.length
decreasing_by
  · rw [(Planificador.agregar_listo_marco _ _ _).2.1]
    simp [h]
  · rw [(Planificador.agregar_listo_marco _ _ _).2.1]
    have hc := buscar_promovible_cota resto _ _ _ _ _ h2
    obtain ⟨h1, hlt, hsusp⟩ := hc
    simp only [hsusp, (GestorMemoria.asignar_proceso_marco s cand).2.2.1, h]
    rw [List.length_eraseIdx, if_pos (by simp; omega)]
    simp only [h, List.length_cons]
    omega

/-- Simulador._promover_suspendidos. -/
def _promover_suspendidos (s : Sim) : List Nat × Sim :=
  promover_loop s []

/-- Python `min` over a nonempty list (`none` for the empty list). -/
def minimoL : List Int → Option Int
  | [] => none
  | x :: xs =>
      some (match minimoL xs with
            | none => x
            | some m => min x m)

/-- Candidate times of `Simulador._calcular_tiempo_siguiente_evento`: the
arrival times beyond the clock of not-yet-arrived processes, then the finish
time of the running process. -/
def candidatos (s : Sim) : List Int :=
  (((List.range s.procesos.length).filter
      (fun i => decide (estadoDe s i = SIN_ARRIBAR ∧ s.tiempo_actual < arriboDe s i))).map
    (fun i => arriboDe s i)) ++
  (match s.proceso_ejecutando with
   | some r => [s.tiempo_actual + restanteDe s r]
   | none => [])

/-- Simulador._calcular_tiempo_siguiente_evento. -/
def _calcular_tiempo_siguiente_evento (s : Sim) : Option Int :=
  minimoL (candidatos s)

/-- Simulador._hay_procesos_pendientes. -/
def _hay_procesos_pendientes (s : Sim) : Bool :=
  s.procesos.any (fun p => decide (p.estado ≠ TERMINADO))

/-- Arrival test of the main loop (`hay_arribos`). -/
def hayArribosEn (s : Sim) (t : Int) : Bool :=
  s.procesos.any (fun p => decide (p.estado = SIN_ARRIBAR ∧ p.tiempo_arribo = t))

/-- Time jump of the main loop: when a process is running and the clock is
behind the next event, subtract the elapsed span from its remaining time;
then move the clock. -/
def avanzar (s : Sim) (t : Int) : Sim :=
  let s1 :=
    match s.proceso_ejecutando with
    | some r =>
        if s.tiempo_actual < t then
          { s with
            procesos := modifica s.procesos r
              (fun p => { p with tiempo_restante := p.tiempo_restante - (t - s.tiempo_actual) }) }
        else s
    | none => s
  { s1 with tiempo_actual := t }

/-- Completion test of the main loop: `proceso_termina` together with the
re-check `proceso_actual.tiempo_restante <= 0` evaluated after the jump. -/
def hayFinalizacion (s : Sim) (t : Int) : Bool :=
  match s.proceso_ejecutando with
  | some r =>
      decide (s.tiempo_actual + restanteDe s r = t) && decide (restanteDe (avanzar s t) r ≤ 0)
  | none => false

/-- Completion block of the main loop: finish the running process, release
its partition, promote suspended processes, admit from the new queue, then
reselect. -/
def fase_terminacion (s : Sim) : Sim :=
  match Planificador.finalizar_proceso_actual s s.tiempo_actual with
  | (some term, s1) =>
      let s2 := (GestorMemoria.liberar_particion s1 term).2
      let s3 := (_promover_suspendidos s2).2
      let s4 := (_intentar_asignar_memoria_desde_colas s3).st
      (Planificador.seleccionar_siguiente s4 s4.tiempo_actual).2
  | (none, s1) => s1

/-- Arrival block of the main loop (also the arrival block run before the
loop for time 0): process arrivals, attempt admission, then reselect. -/
def fase_arribos (s : Sim) : Sim :=
  let s1 := (_procesar_arribos s).2
  let s2 := (_intentar_asignar_memoria_desde_colas s1).st
  (Planificador.seleccionar_siguiente s2 s2.tiempo_actual).2

/-- One iteration of the main loop of `Simulador.simular`: `none` when the
loop exits (everything terminated, or no next event).  Otherwise returns the
list of state snapshots shown during the iteration (after the completion
block and after the arrival block) and the state at the end of the
iteration. -/
def paso (s : Sim) : Option (List Sim × Sim) :=
  if !(_hay_procesos_pendientes s) then none
  else
    match _calcular_tiempo_siguiente_evento s with
    | none => none
    | some t =>
        let s1 := avanzar s t
        let s2 := if hayFinalizacion s t then fase_terminacion s1 else s1
        let s3 := if hayArribosEn s t then fase_arribos s2 else s2
        some ((if hayFinalizacion s t then [s2] else []) ++
              (if hayArribosEn s t then [s3] else []), s3)

/-- State built by `Simulador.__init__` + `cargar_procesos` from validated
input records `(tamano, tiempo_arribo, tiempo_irrupcion)`. -/
def cargar (entrada : List (Int × Int × Int)) : Sim :=
  { procesos := entrada.map (fun q => crearProceso q.1 q.2.1 q.2.2)
    particiones := GestorMemoria.particionesFijas
    cola_nuevos := []
    cola_listos := []
    cola_listos_suspendidos := []
    proceso_ejecutando := none
    tiempo_actual := 0 }

/-- Block of `Simulador.simular` run before the main loop: when some process
arrives at time 0, its arrivals are processed exactly like an arrival
event. -/
def arranque (s : Sim) : Sim :=
  if s.procesos.any (fun p => decide (p.estado = SIN_ARRIBAR ∧ p.tiempo_arribo = 0)) then
    fase_arribos s
  else s

/-- States reachable by `Simulador.simular` on input `entrada`: the state
after the pre-loop arrival block, and everything the main loop produces. -/
inductive Alcanzable (entrada : List (Int × Int × Int)) : Sim → Prop where
  | base : Alcanzable entrada (arranque (cargar entrada))
  | siguiente {s s' : Sim} {em : List Sim} :
      Alcanzable entrada s → paso s = some (em, s') → Alcanzable entrada s'

end Simulador


namespace GestorMemoria

/-- Qualifying partition for `best_fit`: present at position `k`, free, not
OS-reserved, and large enough for the process. -/
def Califica (particiones : List Particion) (proceso : Proceso) (k : Nat) : Prop :=
  ∃ part, particiones[k]? = some part ∧ part.proceso_asignado = none ∧
    part.es_sistema_operativo = false ∧ proceso.tamano ≤ part.tamano

/-- Waste (internal fragmentation) of putting the process in position `k`. -/
def desperdicioEn (particiones : List Particion) (proceso : Proceso) (k : Nat) : Int :=
  match particiones[k]? with
  | some part => part.tamano - proceso.tamano
  | none => 0

theorem esta_libre_iff (part : Particion) :
    part.esta_libre = true ↔
      part.proceso_asignado = none ∧ part.es_sistema_operativo = false := by
  unfold Particion.esta_libre
  cases h : part.proceso_asignado <;> cases h2 : part.es_sistema_operativo <;>
    simp [h, h2]

/-- Qualification phrased over the tail list being scanned. -/
def CalificaL (proceso : Proceso) (l : List Particion) (k : Nat) : Prop :=
  ∃ part, l[k]? = some part ∧ part.esta_libre = true ∧ proceso.tamano ≤ part.tamano

/-- Waste phrased over the tail list being scanned. -/
def despL (proceso : Proceso) (l : List Particion) (k : Nat) : Int :=
  match l[k]? with
  | some part => part.tamano - proceso.tamano
  | none => 0

theorem despL_cons_zero (proceso : Proceso) (part : Particion) (resto : List Particion) :
    despL proceso (part :: resto) 0 = part.tamano - proceso.tamano := by
  simp [despL]

theorem despL_cons_succ (proceso : Proceso) (part : Particion) (resto : List Particion)
    (k : Nat) : despL proceso (part :: resto) (k + 1) = despL proceso resto k := by
  simp [despL]

theorem CalificaL_cons_zero (proceso : Proceso) (part : Particion) (resto : List Particion) :
    CalificaL proceso (part :: resto) 0 ↔
      part.esta_libre = true ∧ proceso.tamano ≤ part.tamano := by
  unfold CalificaL
  simp

theorem CalificaL_cons_succ (proceso : Proceso) (part : Particion) (resto : List Particion)
    (k : Nat) : CalificaL proceso (part :: resto) (k + 1) ↔ CalificaL proceso resto k := by
  unfold CalificaL
  simp

theorem mejorDesde_cons (proceso : Proceso) (part : Particion)
    (resto : List Particion) (idx : Nat) (mejor : Option (Nat × Int)) :
    mejorDesde proceso idx mejor (part :: resto) =
      mejorDesde proceso (idx + 1)
        (if part.esta_libre ∧ proceso.tamano ≤ part.tamano then
          actualizaMejor idx (part.tamano - proceso.tamano) mejor
        else mejor) resto := by
  rfl

theorem mejorDesde_caracteriza (proceso : Proceso) (l : List Particion) :
    ∀ (idx : Nat) (mejor : Option (Nat × Int)),
    (mejorDesde proceso idx mejor l = none ↔
      (mejor = none ∧ ∀ k : Nat, ¬ CalificaL proceso l k)) ∧
    (∀ (j : Nat) (d : Int), mejorDesde proceso idx mejor l = some (j, d) →
      ((mejor = some (j, d) ∧ ∀ k : Nat, CalificaL proceso l k → d ≤ despL proceso l k) ∨
       (∃ k : Nat, CalificaL proceso l k ∧ d = despL proceso l k ∧ j = idx + k ∧
          (∀ k' : Nat, k' < k → CalificaL proceso l k' → d < despL proceso l k') ∧
          (∀ k' : Nat, CalificaL proceso l k' → d ≤ despL proceso l k') ∧
          (∀ (j0 : Nat) (d0 : Int), mejor = some (j0, d0) → d < d0)))) := by
  induction l with
  | nil =>
      intro idx mejor
      refine ⟨?_, ?_⟩
      · constructor
        · intro hnone
          refine ⟨hnone, ?_⟩
          intro k hk
          obtain ⟨part, hget, _⟩ := hk
          simp at hget
        · intro ⟨hm, _⟩
          simpa [mejorDesde] using hm
      · intro j d h
        refine Or.inl ⟨h, ?_⟩
        intro k hk
        obtain ⟨part, hget, _⟩ := hk
        simp at hget
  | cons part resto ih =>
      intro idx mejor
      by_cases hq : part.esta_libre = true ∧ proceso.tamano ≤ part.tamano
      · -- the head qualifies
        have hnq0 : CalificaL proceso (part :: resto) 0 :=
          (CalificaL_cons_zero proceso part resto).mpr hq
        rcases mejor with _ | ⟨j0, d0⟩
        · -- accumulator was empty: it becomes (idx, wp)
          have heq : mejorDesde proceso idx none (part :: resto)
              = mejorDesde proceso (idx + 1)
                  (some (idx, part.tamano - proceso.tamano)) resto := by
            rw [mejorDesde_cons, if_pos hq]
            rfl
          refine ⟨?_, ?_⟩
          · rw [heq]
            constructor
            · intro hnone
              exact absurd ((ih (idx + 1) _).1.mp hnone).1 (by simp)
            · intro ⟨hm, hall⟩
              exact absurd hnq0 (hall 0)
          · intro j d h
            rw [heq] at h
            rcases (ih (idx + 1) _).2 j d h with ⟨hacc, hresto⟩ | hr
            · rw [Option.some.injEq, Prod.mk.injEq] at hacc
              obtain ⟨hj, hd⟩ := hacc
              refine Or.inr ⟨0, hnq0, ?_, by omega, ?_, ?_, ?_⟩
              · rw [despL_cons_zero]; omega
              · intro k' hk' _; omega
              · intro k' hkc
                cases k' with
                | zero => rw [despL_cons_zero]; omega
                | succ m =>
                    rw [despL_cons_succ]
                    exact hresto m ((CalificaL_cons_succ proceso part resto m).mp hkc)
              · intro j1 d1 hc; cases hc
            · obtain ⟨k, hkq, hd, hj, hstrict, hle, hmstrict⟩ := hr
              have hlt0 : d < part.tamano - proceso.tamano := hmstrict idx _ rfl
              refine Or.inr ⟨k + 1, (CalificaL_cons_succ proceso part resto k).mpr hkq, ?_, by omega, ?_, ?_, ?_⟩
              · rw [despL_cons_succ]; exact hd
              · intro k' hklt hkc
                cases k' with
                | zero => rw [despL_cons_zero]; exact hlt0
                | succ m =>
                    rw [despL_cons_succ]
                    exact hstrict m (by omega) ((CalificaL_cons_succ proceso part resto m).mp hkc)
              · intro k' hkc
                cases k' with
                | zero => rw [despL_cons_zero]; omega
                | succ m =>
                    rw [despL_cons_succ]
                    exact hle m ((CalificaL_cons_succ proceso part resto m).mp hkc)
              · intro j1 d1 hc; cases hc
        · -- accumulator was (j0, d0)
          by_cases hlt : part.tamano - proceso.tamano < d0
          · have heq : mejorDesde proceso idx (some (j0, d0)) (part :: resto)
                = mejorDesde proceso (idx + 1)
                    (some (idx, part.tamano - proceso.tamano)) resto := by
              rw [mejorDesde_cons, if_pos hq]
              show mejorDesde proceso (idx + 1)
                (if part.tamano - proceso.tamano < d0 then
                  some (idx, part.tamano - proceso.tamano) else some (j0, d0)) resto = _
              rw [if_pos hlt]
            refine ⟨?_, ?_⟩
            · rw [heq]
              constructor
              · intro hnone
                exact absurd ((ih (idx + 1) _).1.mp hnone).1 (by simp)
              · intro ⟨hm, _⟩; cases hm
            · intro j d h
              rw [heq] at h
              rcases (ih (idx + 1) _).2 j d h with ⟨hacc, hresto⟩ | hr
              · rw [Option.some.injEq, Prod.mk.injEq] at hacc
                obtain ⟨hj, hd⟩ := hacc
                refine Or.inr ⟨0, hnq0, ?_, by omega, ?_, ?_, ?_⟩
                · rw [despL_cons_zero]; omega
                · intro k' hk' _; omega
                · intro k' hkc
                  cases k' with
                  | zero => rw [despL_cons_zero]; omega
                  | succ m =>
                      rw [despL_cons_succ]
                      exact hresto m ((CalificaL_cons_succ proceso part resto m).mp hkc)
                · intro j1 d1 hc
                  rw [Option.some.injEq, Prod.mk.injEq] at hc
                  omega
              · obtain ⟨k, hkq, hd, hj, hstrict, hle, hmstrict⟩ := hr
                have hlt0 : d < part.tamano - proceso.tamano := hmstrict idx _ rfl
                refine Or.inr ⟨k + 1, (CalificaL_cons_succ proceso part resto k).mpr hkq, ?_, by omega, ?_, ?_, ?_⟩
                · rw [despL_cons_succ]; exact hd
                · intro k' hklt hkc
                  cases k' with
                  | zero => rw [despL_cons_zero]; exact hlt0
                  | succ m =>
                      rw [despL_cons_succ]
                      exact hstrict m (by omega) ((CalificaL_cons_succ proceso part resto m).mp hkc)
                · intro k' hkc
                  cases k' with
                  | zero => rw [despL_cons_zero]; omega
                  | succ m =>
                      rw [despL_cons_succ]
                      exact hle m ((CalificaL_cons_succ proceso part resto m).mp hkc)
                · intro j1 d1 hc
                  rw [Option.some.injEq, Prod.mk.injEq] at hc
                  omega
          · have heq : mejorDesde proceso idx (some (j0, d0)) (part :: resto)
                = mejorDesde proceso (idx + 1) (some (j0, d0)) resto := by
              rw [mejorDesde_cons, if_pos hq]
              show mejorDesde proceso (idx + 1)
                (if part.tamano - proceso.tamano < d0 then
                  some (idx, part.tamano - proceso.tamano) else some (j0, d0)) resto = _
              rw [if_neg hlt]
            refine ⟨?_, ?_⟩
            · rw [heq]
              constructor
              · intro hnone
                exact absurd ((ih (idx + 1) _).1.mp hnone).1 (by simp)
              · intro ⟨hm, _⟩; cases hm
            · intro j d h
              rw [heq] at h
              rcases (ih (idx + 1) _).2 j d h with ⟨hacc, hresto⟩ | hr
              · rw [Option.some.injEq, Prod.mk.injEq] at hacc
                obtain ⟨hj, hd⟩ := hacc
                refine Or.inl ⟨by rw [hj, hd], ?_⟩
                intro k hkc
                cases k with
                | zero => rw [despL_cons_zero]; omega
                | succ m =>
                    rw [despL_cons_succ]
                    exact hresto m ((CalificaL_cons_succ proceso part resto m).mp hkc)
              · obtain ⟨k, hkq, hd, hj, hstrict, hle, hmstrict⟩ := hr
                have hlt0 : d < d0 := hmstrict j0 d0 rfl
                refine Or.inr ⟨k + 1, (CalificaL_cons_succ proceso part resto k).mpr hkq, ?_, by omega, ?_, ?_, ?_⟩
                · rw [despL_cons_succ]; exact hd
                · intro k' hklt hkc
                  cases k' with
                  | zero => rw [despL_cons_zero]; omega
                  | succ m =>
                      rw [despL_cons_succ]
                      exact hstrict m (by omega) ((CalificaL_cons_succ proceso part resto m).mp hkc)
                · intro k' hkc
                  cases k' with
                  | zero => rw [despL_cons_zero]; omega
                  | succ m =>
                      rw [despL_cons_succ]
                      exact hle m ((CalificaL_cons_succ proceso part resto m).mp hkc)
                · intro j1 d1 hc
                  rw [Option.some.injEq, Prod.mk.injEq] at hc
                  omega
      · -- the head does not qualify: accumulator and scan pass through
        have heq : mejorDesde proceso idx mejor (part :: resto)
            = mejorDesde proceso (idx + 1) mejor resto := by
          rw [mejorDesde_cons, if_neg hq]
        have hnq : ¬ CalificaL proceso (part :: resto) 0 := by
          rw [CalificaL_cons_zero]; exact hq
        refine ⟨?_, ?_⟩
        · rw [heq, (ih (idx + 1) mejor).1]
          constructor
          · intro ⟨hm, hall⟩
            refine ⟨hm, ?_⟩
            intro k
            cases k with
            | zero => exact hnq
            | succ m =>
                rw [CalificaL_cons_succ]
                exact hall m
          · intro ⟨hm, hall⟩
            exact ⟨hm, fun k hc => hall (k + 1) ((CalificaL_cons_succ proceso part resto k).mpr hc)⟩
        · intro j d h
          rw [heq] at h
          rcases (ih (idx + 1) mejor).2 j d h with ⟨hacc, hresto⟩ | hr
          · refine Or.inl ⟨hacc, ?_⟩
            intro k hkc
            cases k with
            | zero => exact absurd hkc hnq
            | succ m =>
                rw [despL_cons_succ]
                exact hresto m ((CalificaL_cons_succ proceso part resto m).mp hkc)
          · obtain ⟨k, hkq, hd, hj, hstrict, hle, hmstrict⟩ := hr
            refine Or.inr ⟨k + 1, (CalificaL_cons_succ proceso part resto k).mpr hkq, ?_, by omega, ?_, ?_, hmstrict⟩
            · rw [despL_cons_succ]; exact hd
            · intro k' hklt hkc
              cases k' with
              | zero => exact absurd hkc hnq
              | succ m =>
                  rw [despL_cons_succ]
                  exact hstrict m (by omega) ((CalificaL_cons_succ proceso part resto m).mp hkc)
            · intro k' hkc
              cases k' with
              | zero => exact absurd hkc hnq
              | succ m =>
                  rw [despL_cons_succ]
                  exact hle m ((CalificaL_cons_succ proceso part resto m).mp hkc)

end GestorMemoria

namespace GestorMemoria

theorem Califica_iff (particiones : List Particion) (proceso : Proceso) (k : Nat) :
    Califica particiones proceso k ↔ CalificaL proceso particiones k := by
  unfold Califica CalificaL
  constructor
  · rintro ⟨part, h1, h2, h3, h4⟩
    exact ⟨part, h1, (esta_libre_iff part).mpr ⟨h2, h3⟩, h4⟩
  · rintro ⟨part, h1, h2, h3⟩
    obtain ⟨h4, h5⟩ := (esta_libre_iff part).mp h2
    exact ⟨part, h1, h4, h5, h3⟩

theorem desperdicioEn_eq (particiones : List Particion) (proceso : Proceso) (k : Nat) :
    desperdicioEn particiones proceso k = despL proceso particiones k := rfl

end GestorMemoria

/-- C2: for every partition list and every process, `best_fit` returns the
index of a partition that is free, not OS-reserved and large enough, of
minimal waste `capacity - size` among all such partitions, with ties broken
by the first (lowest-position, hence lowest-id) encountered in the scan; it
returns `none` exactly when no free non-OS partition is large enough.
Determinism/purity holds by construction: the embedding of `best_fit` is a
pure function of the partition list and the process. -/
theorem claim_C2 (particiones : List Particion) (proceso : Proceso) :
    (∀ j : Nat, GestorMemoria.best_fit particiones proceso = some j →
      GestorMemoria.Califica particiones proceso j ∧
      (∀ k : Nat, GestorMemoria.Califica particiones proceso k →
        GestorMemoria.desperdicioEn particiones proceso j ≤
          GestorMemoria.desperdicioEn particiones proceso k) ∧
      (∀ k : Nat, GestorMemoria.Califica particiones proceso k →
        GestorMemoria.desperdicioEn particiones proceso k =
          GestorMemoria.desperdicioEn particiones proceso j → j ≤ k)) ∧
    (GestorMemoria.best_fit particiones proceso = none ↔
      ∀ k : Nat, ¬ GestorMemoria.Califica particiones proceso k) := by
  have hc := GestorMemoria.mejorDesde_caracteriza proceso particiones 0 none
  constructor
  · intro j hj
    unfold GestorMemoria.best_fit at hj
    rw [Option.map_eq_some'] at hj
    obtain ⟨⟨j', d⟩, hmej, hfst⟩ := hj
    simp only at hfst
    rw [← hfst]
    rcases hc.2 j' d hmej with ⟨hacc, _⟩ | ⟨k, hkq, hd, hjk, hstrict, hle, _⟩
    · cases hacc
    · have hkj : k = j' := by omega
      subst hkj
      refine ⟨(GestorMemoria.Califica_iff particiones proceso k).mpr hkq, ?_, ?_⟩
      · intro k' hk'
        rw [GestorMemoria.desperdicioEn_eq, GestorMemoria.desperdicioEn_eq, ← hd]
        exact hle k' ((GestorMemoria.Califica_iff particiones proceso k').mp hk')
      · intro k' hk' heqd
        by_contra hlt
        have h1 : k' < k := by omega
        have h2 := hstrict k' h1 ((GestorMemoria.Califica_iff particiones proceso k').mp hk')
        rw [GestorMemoria.desperdicioEn_eq, GestorMemoria.desperdicioEn_eq] at heqd
        omega
  · unfold GestorMemoria.best_fit
    rw [Option.map_eq_none']
    rw [hc.1]
    constructor
    · intro ⟨_, hall⟩ k hk
      exact hall k ((GestorMemoria.Califica_iff particiones proceso k).mp hk)
    · intro hall
      exact ⟨rfl, fun k hk =>
        hall k ((GestorMemoria.Califica_iff particiones proceso k).mpr hk)⟩

/-- Witness for C2 at the fixed partition table and the process of spec
scenario A (size 60): Best-Fit selects position 2, the 150 KB partition. -/
theorem claim_C2_witness :
    GestorMemoria.Califica GestorMemoria.particionesFijas (crearProceso 60 0 4) 2 :=
  ((claim_C2 GestorMemoria.particionesFijas (crearProceso 60 0 4)).1 2 rfl).1

namespace GestorMemoria

theorem best_fit_califica (particiones : List Particion) (proceso : Proceso) (j : Nat)
    (h : best_fit particiones proceso = some j) : CalificaL proceso particiones j := by
  unfold best_fit at h
  rw [Option.map_eq_some'] at h
  obtain ⟨⟨j', d⟩, hmej, hfst⟩ := h
  simp only at hfst
  rcases (mejorDesde_caracteriza proceso particiones 0 none).2 j' d hmej with ⟨hacc, _⟩ | ⟨k, hkq, _, hjk, _, _, _⟩
  · cases hacc
  · have : k = j := by omega
    subst this
    exact hkq

/-- Characterization of `GestorMemoria.asignar_proceso` (used by the claims
on atomicity and on the dead multiprogramming guard): a `false` return leaves
the state untouched and is caused by the degree guard or by Best-Fit finding
nothing; a `true` return performs exactly the two link assignments on the
chosen partition and the process. -/
theorem asignar_caracteriza (s : Sim) (i : Nat) (p : Proceso)
    (hp : s.procesos[i]? = some p) :
    ((asignar_proceso s i).1 = false →
      (asignar_proceso s i).2 = s ∧
      (GRADO_MULTIPROGRAMACION_MAX ≤ contar_procesos_en_memoria s ∨
        best_fit s.particiones p = none)) ∧
    ((asignar_proceso s i).1 = true →
      ∃ j : Nat, best_fit s.particiones p = some j ∧
        (asignar_proceso s i).2 =
          { s with
            particiones := modifica s.particiones j
              (fun part => { part with proceso_asignado := some i })
            procesos := modifica s.procesos i
              (fun q => { q with particion_asignada := some j }) }) := by
  unfold asignar_proceso
  by_cases hg : GRADO_MULTIPROGRAMACION_MAX ≤ contar_procesos_en_memoria s
  · rw [if_pos hg]
    exact ⟨fun _ => ⟨rfl, Or.inl hg⟩, fun h => by cases h⟩
  · rw [if_neg hg]
    simp only [hp]
    cases hbf : best_fit s.particiones p with
    | none =>
        exact ⟨fun _ => ⟨rfl, Or.inr rfl⟩, fun h => by cases h⟩
    | some j =>
        obtain ⟨part, hpart, hlibre, hfit⟩ := best_fit_califica s.particiones p j hbf
        obtain ⟨hocup, hso⟩ := (esta_libre_iff part).mp hlibre
        unfold Particion.asignar_proceso
        simp only [hpart, hp]
        rw [if_neg (by simp [hso]), if_neg (by simp [hlibre]), if_neg (by omega)]
        constructor
        · intro h
          exact absurd h (by simp)
        · intro _
          refine ⟨j, rfl, ?_⟩
          rfl

end GestorMemoria

/-- C6: atomicity of admission.  With the process present at index `i`:
when `asignar_proceso` returns `false` the state is completely unchanged and
the failure is caused by the multiprogramming-degree guard or by `best_fit`
finding no partition; when it returns `true`, exactly the chosen partition's
occupant is set to the process, the process's `particion_asignada` is set to
that partition, every other partition and process is untouched, and the
process's `tiempo_restante` is untouched. -/
theorem claim_C6 (s : Sim) (i : Nat) (p : Proceso)
    (hp : s.procesos[i]? = some p) :
    ((GestorMemoria.asignar_proceso s i).1 = false →
      (GestorMemoria.asignar_proceso s i).2 = s ∧
      (GestorMemoria.GRADO_MULTIPROGRAMACION_MAX ≤
          GestorMemoria.contar_procesos_en_memoria s ∨
        GestorMemoria.best_fit s.particiones p = none)) ∧
    ((GestorMemoria.asignar_proceso s i).1 = true →
      ∃ j : Nat, GestorMemoria.best_fit s.particiones p = some j ∧
        ocupanteDe (GestorMemoria.asignar_proceso s i).2 j = some i ∧
        particionDe (GestorMemoria.asignar_proceso s i).2 i = some j ∧
        restanteDe (GestorMemoria.asignar_proceso s i).2 i = restanteDe s i ∧
        (∀ j' : Nat, j' ≠ j →
          (GestorMemoria.asignar_proceso s i).2.particiones[j']? = s.particiones[j']?) ∧
        (∀ i' : Nat, i' ≠ i →
          (GestorMemoria.asignar_proceso s i).2.procesos[i']? = s.procesos[i']?)) := by
  obtain ⟨hfalso, hverdad⟩ := GestorMemoria.asignar_caracteriza s i p hp
  refine ⟨hfalso, ?_⟩
  intro h
  obtain ⟨j, hbf, hst⟩ := hverdad h
  refine ⟨j, hbf, ?_, ?_, ?_, ?_, ?_⟩
  · rw [hst]
    unfold ocupanteDe ocupanteL
    simp only [getElem?_modifica_self]
    obtain ⟨part, hpart, _, _⟩ := GestorMemoria.best_fit_califica s.particiones p j hbf
    rw [hpart]
    rfl
  · rw [hst]
    unfold particionDe particionL
    simp only [getElem?_modifica_self, hp]
    rfl
  · rw [hst]
    unfold restanteDe restanteL
    simp only [getElem?_modifica_self, hp]
    rfl
  · intro j' hj'
    rw [hst]
    exact getElem?_modifica_ne s.particiones j j' _ (fun hc => hj' hc.symm)
  · intro i' hi'
    rw [hst]
    exact getElem?_modifica_ne s.procesos i i' _ (fun hc => hi' hc.symm)

/-- Witness for C6: in the freshly loaded scenario-A state the admission of
process 0 succeeds, linking it to partition 2 and touching nothing else. -/
theorem claim_C6_witness :
    ∃ j : Nat,
      GestorMemoria.best_fit (Simulador.cargar [(60, 0, 4)]).particiones
        (crearProceso 60 0 4) = some j ∧
      ocupanteDe (GestorMemoria.asignar_proceso (Simulador.cargar [(60, 0, 4)]) 0).2 j = some 0 ∧
      particionDe (GestorMemoria.asignar_proceso (Simulador.cargar [(60, 0, 4)]) 0).2 0 = some j ∧
      restanteDe (GestorMemoria.asignar_proceso (Simulador.cargar [(60, 0, 4)]) 0).2 0 =
        restanteDe (Simulador.cargar [(60, 0, 4)]) 0 ∧
      (∀ j' : Nat, j' ≠ j →
        (GestorMemoria.asignar_proceso (Simulador.cargar [(60, 0, 4)]) 0).2.particiones[j']? =
          (Simulador.cargar [(60, 0, 4)]).particiones[j']?) ∧
      (∀ i' : Nat, i' ≠ 0 →
        (GestorMemoria.asignar_proceso (Simulador.cargar [(60, 0, 4)]) 0).2.procesos[i']? =
          (Simulador.cargar [(60, 0, 4)]).procesos[i']?) :=
  (claim_C6 (Simulador.cargar [(60, 0, 4)]) 0 (crearProceso 60 0 4) rfl).2 rfl

theorem map_modifica {α β : Type} (l : List α) (i : Nat) (f : α → α) (g : α → β)
    (h : ∀ x, g (f x) = g x) : (modifica l i f).map g = l.map g := by
  induction l generalizing i with
  | nil => rfl
  | cons a l ih =>
      cases i with
      | zero => simp [modifica, h]
      | succ n => simp [modifica, ih n]

/-- Shape of the partition table: the OS flags, read off in order.  The fixed
table of `_inicializar_particiones` has shape `[true, false, false, false]`:
exactly one OS partition followed by three allocatable ones. -/
def formaSO (s : Sim) : List Bool :=
  s.particiones.map Particion.es_sistema_operativo

theorem filter_ocupadas_cota (l : List Particion)
    (h : l.map Particion.es_sistema_operativo = [true, false, false, false]) :
    (l.filter
      (fun part => !part.es_sistema_operativo && !part.proceso_asignado.isNone)).length ≤ 3 := by
  cases l with
  | nil => simp at h
  | cons p0 l0 =>
  cases l0 with
  | nil => simp at h
  | cons p1 l1 =>
  cases l1 with
  | nil => simp at h
  | cons p2 l2 =>
  cases l2 with
  | nil => simp at h
  | cons p3 l3 =>
  simp only [List.map_cons, List.cons.injEq] at h
  obtain ⟨h0, h1, h2, h3, h4⟩ := h
  have hl3 : l3 = [] := by
    cases l3 with
    | nil => rfl
    | cons a b => simp at h4
  subst hl3
  rw [List.filter_cons_of_neg (by simp [h0])]
  have hle := List.length_filter_le
    (fun part => !part.es_sistema_operativo && !part.proceso_asignado.isNone) [p1, p2, p3]
  simpa using hle

theorem contar_cota (s : Sim)
    (h : formaSO s = [true, false, false, false]) :
    GestorMemoria.contar_procesos_en_memoria s ≤ 3 := by
  unfold GestorMemoria.contar_procesos_en_memoria
  exact filter_ocupadas_cota s.particiones h

/-- C10: the fixed partition table has exactly three non-OS partitions, so
the occupied count never exceeds 3 and stays strictly below the
multiprogramming degree 5: the degree guard in `asignar_proceso` is dead.
Consequently, for a state of this table shape, `asignar_proceso` fails
exactly when `best_fit` finds no partition (the chosen partition never
rejects the process), and both `asignar_proceso` and `liberar_particion`
preserve the table shape (so the bound holds in every reachable allocator
state). -/
theorem claim_C10 (s : Sim) (i : Nat) (p : Proceso)
    (hforma : formaSO s = [true, false, false, false])
    (hp : s.procesos[i]? = some p) :
    GestorMemoria.contar_procesos_en_memoria s ≤ 3 ∧
    GestorMemoria.contar_procesos_en_memoria s <
      GestorMemoria.GRADO_MULTIPROGRAMACION_MAX ∧
    ((GestorMemoria.asignar_proceso s i).1 = false ↔
      GestorMemoria.best_fit s.particiones p = none) ∧
    formaSO (GestorMemoria.asignar_proceso s i).2 = [true, false, false, false] ∧
    formaSO (GestorMemoria.liberar_particion s i).2 = [true, false, false, false] := by
  have hcota := contar_cota s hforma
  have hlt : GestorMemoria.contar_procesos_en_memoria s <
      GestorMemoria.GRADO_MULTIPROGRAMACION_MAX := by
    unfold GestorMemoria.GRADO_MULTIPROGRAMACION_MAX
    omega
  obtain ⟨hfalso, hverdad⟩ := GestorMemoria.asignar_caracteriza s i p hp
  refine ⟨hcota, hlt, ⟨?_, ?_⟩, ?_, ?_⟩
  · intro h
    rcases (hfalso h).2 with hg | hbf
    · omega
    · exact hbf
  · intro hbf
    cases hres : (GestorMemoria.asignar_proceso s i).1 with
    | false => rfl
    | true =>
        obtain ⟨j, hj, _⟩ := hverdad hres
        rw [hbf] at hj
        cases hj
  · cases hres : (GestorMemoria.asignar_proceso s i).1 with
    | false => rw [(hfalso hres).1]; exact hforma
    | true =>
        obtain ⟨j, _, hst⟩ := hverdad hres
        rw [hst]
        unfold formaSO at hforma ⊢
        simp only
        refine (map_modifica _ _ _ _ ?_).trans hforma
        intro x
        rfl
  · unfold GestorMemoria.liberar_particion
    cases hpd : particionDe s i with
    | none => exact hforma
    | some j =>
        simp only
        unfold Particion.liberar
        cases hget : s.particiones[j]? with
        | none => exact hforma
        | some part =>
            simp only
            cases hocc : part.proceso_asignado with
            | some k =>
                simp only
                unfold formaSO at hforma ⊢
                simp only
                refine (map_modifica _ _ _ _ ?_).trans hforma
                intro x
                rfl
            | none =>
                simp only
                unfold formaSO at hforma ⊢
                simp only
                refine (map_modifica _ _ _ _ ?_).trans hforma
                intro x
                rfl

/-- Witness for C10 at the freshly loaded scenario-A state. -/
theorem claim_C10_witness :
    GestorMemoria.contar_procesos_en_memoria (Simulador.cargar [(60, 0, 4)]) ≤ 3 :=
  (claim_C10 (Simulador.cargar [(60, 0, 4)]) 0 (crearProceso 60 0 4) rfl rfl).1

theorem ocupanteL_modifica_self (l : List Particion) (j : Nat) (f : Particion → Particion) :
    ocupanteL (modifica l j f) j =
      (match l[j]? with
       | some part => (f part).proceso_asignado
       | none => none) := by
  unfold ocupanteL
  rw [getElem?_modifica_self]
  cases l[j]? <;> rfl

theorem ocupanteL_modifica_ne (l : List Particion) (j jx : Nat) (f : Particion → Particion)
    (h : jx ≠ j) : ocupanteL (modifica l j f) jx = ocupanteL l jx := by
  unfold ocupanteL
  rw [getElem?_modifica_ne _ _ _ _ (fun hc => h hc.symm)]

theorem particionL_modifica_self (l : List Proceso) (i : Nat) (f : Proceso → Proceso) :
    particionL (modifica l i f) i =
      (match l[i]? with
       | some p => (f p).particion_asignada
       | none => none) := by
  unfold particionL
  rw [getElem?_modifica_self]
  cases l[i]? <;> rfl

theorem particionL_modifica_ne (l : List Proceso) (i ix : Nat) (f : Proceso → Proceso)
    (h : ix ≠ i) : particionL (modifica l i f) ix = particionL l ix := by
  unfold particionL
  rw [getElem?_modifica_ne _ _ _ _ (fun hc => h hc.symm)]

/-- Bidirectional link invariant between partitions and processes: partition
`j` records process `i` as occupant exactly when process `i` records
partition `j` as its assigned partition. -/
def EnlacesCoherentes (s : Sim) : Prop :=
  ∀ (i j : Nat), ocupanteDe s j = some i ↔ particionDe s i = some j

theorem coherente_liberar (s : Sim) (hco : EnlacesCoherentes s) (j : Nat) :
    EnlacesCoherentes (Particion.liberar s j).2 := by
  unfold EnlacesCoherentes ocupanteDe particionDe at hco ⊢
  unfold Particion.liberar
  cases hget : s.particiones[j]? with
  | none => exact hco
  | some part =>
      simp only
      cases hocc : part.proceso_asignado with
      | none =>
          simp only
          intro i' j'
          by_cases hj' : j' = j
          · rw [hj', ocupanteL_modifica_self, hget]
            simp only
            constructor
            · intro h; cases h
            · intro h
              have h2 := (hco i' j).mpr h
              unfold ocupanteL at h2
              rw [hget] at h2
              simp only at h2
              rw [hocc] at h2
              cases h2
          · rw [ocupanteL_modifica_ne _ _ _ _ hj']
            exact hco i' j'
      | some k =>
          simp only
          intro i' j'
          have hkj : particionL s.procesos k = some j := by
            apply (hco k j).mp
            simp [ocupanteL, hget, hocc]
          by_cases hi' : i' = k
          · rw [hi', particionL_modifica_self]
            by_cases hj' : j' = j
            · rw [hj', ocupanteL_modifica_self, hget]
              simp only
              constructor
              · intro h; cases h
              · intro h
                cases hpk : s.procesos[k]? <;> rw [hpk] at h <;> simp at h
            · rw [ocupanteL_modifica_ne _ _ _ _ hj']
              constructor
              · intro h
                have h2 := (hco k j').mp h
                rw [hkj] at h2
                rw [Option.some.injEq] at h2
                exact absurd h2.symm hj'
              · intro h
                cases hpk : s.procesos[k]? <;> rw [hpk] at h <;> simp at h
          · rw [particionL_modifica_ne _ _ _ _ hi']
            by_cases hj' : j' = j
            · rw [hj', ocupanteL_modifica_self, hget]
              simp only
              constructor
              · intro h; cases h
              · intro h
                have h2 := (hco i' j).mpr h
                unfold ocupanteL at h2
                rw [hget] at h2
                simp only at h2
                rw [hocc, Option.some.injEq] at h2
                exact absurd h2.symm hi'
            · rw [ocupanteL_modifica_ne _ _ _ _ hj']
              exact hco i' j'

theorem coherente_asignar_particion (s : Sim) (hco : EnlacesCoherentes s)
    (j i : Nat) (hnone : particionDe s i = none) :
    EnlacesCoherentes (Particion.asignar_proceso s j i).2 := by
  unfold EnlacesCoherentes ocupanteDe particionDe at hco ⊢
  unfold particionDe at hnone
  unfold Particion.asignar_proceso
  cases hget : s.particiones[j]? with
  | none => exact hco
  | some part =>
      cases hp : s.procesos[i]? with
      | none => exact hco
      | some proceso =>
          simp only
          by_cases hso : part.es_sistema_operativo = true
          · rw [if_pos hso]; exact hco
          · rw [if_neg hso]
            by_cases hlib : part.esta_libre = true
            · rw [if_neg (by simp [hlib])]
              by_cases htam : part.tamano < proceso.tamano
              · rw [if_pos htam]; exact hco
              · rw [if_neg htam]
                simp only
                have hocc : part.proceso_asignado = none :=
                  ((GestorMemoria.esta_libre_iff part).mp hlib).1
                intro i' j'
                by_cases hj' : j' = j
                · rw [hj', ocupanteL_modifica_self, hget]
                  simp only
                  by_cases hi' : i' = i
                  · rw [hi', particionL_modifica_self, hp]
                    simp only
                  · rw [particionL_modifica_ne _ _ _ _ hi']
                    constructor
                    · intro h
                      rw [Option.some.injEq] at h
                      exact absurd h.symm hi'
                    · intro h
                      have h2 := (hco i' j).mpr h
                      unfold ocupanteL at h2
                      rw [hget] at h2
                      simp only at h2
                      rw [hocc] at h2
                      cases h2
                · rw [ocupanteL_modifica_ne _ _ _ _ hj']
                  by_cases hi' : i' = i
                  · rw [hi', particionL_modifica_self, hp]
                    simp only
                    constructor
                    · intro h
                      have h2 := (hco i j').mp h
                      rw [hnone] at h2
                      cases h2
                    · intro h
                      rw [Option.some.injEq] at h
                      exact absurd h.symm hj'
                  · rw [particionL_modifica_ne _ _ _ _ hi']
                    exact hco i' j'
            · rw [if_pos (by simp only [Bool.not_eq_true] at hlib; simp [hlib])]
              exact hco

theorem coherente_asignar_gestor (s : Sim) (hco : EnlacesCoherentes s)
    (i : Nat) (hnone : particionDe s i = none) :
    EnlacesCoherentes (GestorMemoria.asignar_proceso s i).2 := by
  unfold GestorMemoria.asignar_proceso
  by_cases hg : GestorMemoria.GRADO_MULTIPROGRAMACION_MAX ≤
      GestorMemoria.contar_procesos_en_memoria s
  · rw [if_pos hg]; exact hco
  · rw [if_neg hg]
    split
    · exact hco
    · split
      · exact hco
      · exact coherente_asignar_particion s hco _ i hnone

theorem coherente_liberar_gestor (s : Sim) (hco : EnlacesCoherentes s) (i : Nat) :
    EnlacesCoherentes (GestorMemoria.liberar_particion s i).2 := by
  unfold GestorMemoria.liberar_particion
  cases hpd : particionDe s i with
  | none => exact hco
  | some j => exact coherente_liberar s hco j

/-- Link-coherent state in which process 0 already occupies partition 3:
used to refute the unguarded claim that the assignment operations preserve
the link invariant from every coherent state. -/
def sEnlace : Sim :=
  { procesos :=
      [ { tamano := 40, tiempo_arribo := 0, tiempo_irrupcion := 3, tiempo_restante := 3,
          estado := LISTO, tiempo_llegada_listo := some 0, tiempo_finalizacion := none,
          particion_asignada := some 3, tiempo_espera_acumulado := 0,
          ultimo_tiempo_espera_inicio := some 0 } ]
    particiones :=
      [ { id_particion := 0, direccion_inicio := 0, tamano := 100,
          proceso_asignado := none, es_sistema_operativo := true }
      , { id_particion := 1, direccion_inicio := 100, tamano := 250,
          proceso_asignado := none, es_sistema_operativo := false }
      , { id_particion := 2, direccion_inicio := 350, tamano := 150,
          proceso_asignado := none, es_sistema_operativo := false }
      , { id_particion := 3, direccion_inicio := 500, tamano := 50,
          proceso_asignado := some 0, es_sistema_operativo := false } ]
    cola_nuevos := []
    cola_listos := [0]
    cola_listos_suspendidos := []
    proceso_ejecutando := none
    tiempo_actual := 0 }

theorem sEnlace_coherente : EnlacesCoherentes sEnlace := by
  intro i j
  rcases j with _ | _ | _ | _ | j <;> rcases i with _ | i <;>
    simp [ocupanteDe, ocupanteL, particionDe, particionL, sEnlace]

/-- C9 is refuted as stated: in the link-coherent state `sEnlace` the process
already holds partition 3, and `Particion.asignar_proceso` happily assigns it
partition 2 as well (it only checks the partition side), leaving partition 3
still pointing at the process while the process points at partition 2 — the
biconditional link invariant is broken after the operation. -/
theorem claim_C9_counterexample :
    EnlacesCoherentes sEnlace ∧
    (Particion.asignar_proceso sEnlace 2 0).1 = true ∧
    ¬ EnlacesCoherentes (Particion.asignar_proceso sEnlace 2 0).2 := by
  refine ⟨sEnlace_coherente, by decide, ?_⟩
  intro hco
  have h1 : ocupanteDe (Particion.asignar_proceso sEnlace 2 0).2 3 = some 0 := by decide
  have h2 := (hco 0 3).mp h1
  exact absurd h2 (by decide)

/-- C9 (amended): in any state satisfying the bidirectional link invariant,
`Particion.liberar` and `GestorMemoria.liberar_particion` preserve the
invariant unconditionally, `liberar` clears both ends of an occupied link,
and releasing a process holding no partition returns `false` changing
nothing; the assignment operations `Particion.asignar_proceso` and
`GestorMemoria.asignar_proceso` preserve the invariant provided the process
being placed holds no partition (without that proviso the claim fails, see
the counterexample). -/
theorem claim_C9 (s : Sim) (hco : EnlacesCoherentes s) :
    (∀ j i : Nat, particionDe s i = none →
      EnlacesCoherentes (Particion.asignar_proceso s j i).2) ∧
    (∀ j : Nat, EnlacesCoherentes (Particion.liberar s j).2) ∧
    (∀ j k : Nat, ocupanteDe s j = some k →
      ocupanteDe (Particion.liberar s j).2 j = none ∧
      particionDe (Particion.liberar s j).2 k = none) ∧
    (∀ i : Nat, particionDe s i = none →
      EnlacesCoherentes (GestorMemoria.asignar_proceso s i).2) ∧
    (∀ i : Nat, EnlacesCoherentes (GestorMemoria.liberar_particion s i).2) ∧
    (∀ i : Nat, particionDe s i = none →
      GestorMemoria.liberar_particion s i = (false, s)) := by
  refine ⟨fun j i hnone => coherente_asignar_particion s hco j i hnone,
    fun j => coherente_liberar s hco j, ?_,
    fun i hnone => coherente_asignar_gestor s hco i hnone,
    fun i => coherente_liberar_gestor s hco i, ?_⟩
  · intro j k hocu
    have hpart : ∃ part, s.particiones[j]? = some part ∧ part.proceso_asignado = some k := by
      unfold ocupanteDe ocupanteL at hocu
      cases hget : s.particiones[j]? with
      | none => rw [hget] at hocu; cases hocu
      | some part =>
          rw [hget] at hocu
          simp only at hocu
          exact ⟨part, rfl, hocu⟩
    obtain ⟨part, hget, hocc⟩ := hpart
    unfold Particion.liberar
    rw [hget]
    simp only
    rw [hocc]
    simp only
    constructor
    · unfold ocupanteDe
      rw [ocupanteL_modifica_self, hget]
    · unfold particionDe
      rw [particionL_modifica_self]
      cases s.procesos[k]? <;> rfl
  · intro i hnone
    unfold GestorMemoria.liberar_particion
    rw [hnone]

/-- Witness for C9 at the freshly loaded (fully unlinked, hence coherent)
scenario-A state: releasing the partition of a process that holds none
returns `false` and changes nothing. -/
theorem claim_C9_witness :
    GestorMemoria.liberar_particion (Simulador.cargar [(60, 0, 4)]) 0 =
      (false, Simulador.cargar [(60, 0, 4)]) :=
  (claim_C9 (Simulador.cargar [(60, 0, 4)])
    (by
      intro i j
      constructor
      · intro h
        exfalso
        rcases j with _ | _ | _ | _ | j <;>
          simp [ocupanteDe, ocupanteL, Simulador.cargar,
            GestorMemoria.particionesFijas] at h
      · intro h
        exfalso
        rcases i with _ | i <;>
          simp [particionDe, particionL, Simulador.cargar, crearProceso] at h)).2.2.2.2.2
    0 rfl

theorem actualizar_estado_restante (p : Proceso) (e : EstadoProceso) (t : Int) :
    (actualizar_estado p e t).tiempo_restante = p.tiempo_restante := by
  simp only [actualizar_estado]
  repeat' split
  all_goals rfl

theorem actualizar_estado_arribo (p : Proceso) (e : EstadoProceso) (t : Int) :
    (actualizar_estado p e t).tiempo_arribo = p.tiempo_arribo := by
  simp only [actualizar_estado]
  repeat' split
  all_goals rfl

theorem actualizar_estado_irrupcion (p : Proceso) (e : EstadoProceso) (t : Int) :
    (actualizar_estado p e t).tiempo_irrupcion = p.tiempo_irrupcion := by
  simp only [actualizar_estado]
  repeat' split
  all_goals rfl

theorem actualizar_estado_tamano (p : Proceso) (e : EstadoProceso) (t : Int) :
    (actualizar_estado p e t).tamano = p.tamano := by
  simp only [actualizar_estado]
  repeat' split
  all_goals rfl

theorem actualizar_estado_particion (p : Proceso) (e : EstadoProceso) (t : Int) :
    (actualizar_estado p e t).particion_asignada = p.particion_asignada := by
  simp only [actualizar_estado]
  repeat' split
  all_goals rfl

theorem actualizar_estado_estado (p : Proceso) (e : EstadoProceso) (t : Int) :
    (actualizar_estado p e t).estado = e := by
  simp only [actualizar_estado]
  repeat' split
  all_goals rfl

theorem actualizar_estado_finalizacion (p : Proceso) (e : EstadoProceso) (t : Int)
    (h : e ≠ TERMINADO) :
    (actualizar_estado p e t).tiempo_finalizacion = p.tiempo_finalizacion := by
  simp only [actualizar_estado]
  repeat' split
  all_goals first | rfl | exact absurd (by assumption) h

theorem actualizar_estado_terminado (p : Proceso) (t : Int) :
    (actualizar_estado p TERMINADO t).tiempo_finalizacion = some t := by
  simp only [actualizar_estado]
  repeat' split
  all_goals first | rfl | simp_all

theorem actualizar_estado_listo_ultimo (p : Proceso) (t : Int) :
    (actualizar_estado p LISTO t).ultimo_tiempo_espera_inicio = some t := by
  simp only [actualizar_estado]
  repeat' split
  all_goals first | rfl | simp_all

theorem restanteL_modifica (l : List Proceso) (i : Nat) (f : Proceso → Proceso)
    (hf : ∀ p, (f p).tiempo_restante = p.tiempo_restante) (x : Nat) :
    restanteL (modifica l i f) x = restanteL l x := by
  by_cases hx : x = i
  · subst hx
    unfold restanteL
    rw [getElem?_modifica_self]
    cases l[x]? with
    | none => rfl
    | some p => simp [hf p]
  · unfold restanteL
    rw [getElem?_modifica_ne _ _ _ _ (fun hc => hx hc.symm)]

theorem arriboL_modifica (l : List Proceso) (i : Nat) (f : Proceso → Proceso)
    (hf : ∀ p, (f p).tiempo_arribo = p.tiempo_arribo) (x : Nat) :
    arriboL (modifica l i f) x = arriboL l x := by
  by_cases hx : x = i
  · subst hx
    unfold arriboL
    rw [getElem?_modifica_self]
    cases l[x]? with
    | none => rfl
    | some p => simp [hf p]
  · unfold arriboL
    rw [getElem?_modifica_ne _ _ _ _ (fun hc => hx hc.symm)]

theorem irrupcionL_modifica (l : List Proceso) (i : Nat) (f : Proceso → Proceso)
    (hf : ∀ p, (f p).tiempo_irrupcion = p.tiempo_irrupcion) (x : Nat) :
    irrupcionL (modifica l i f) x = irrupcionL l x := by
  by_cases hx : x = i
  · subst hx
    unfold irrupcionL
    rw [getElem?_modifica_self]
    cases l[x]? with
    | none => rfl
    | some p => simp [hf p]
  · unfold irrupcionL
    rw [getElem?_modifica_ne _ _ _ _ (fun hc => hx hc.symm)]

theorem estadoL_modifica_ne (l : List Proceso) (i x : Nat) (f : Proceso → Proceso)
    (h : x ≠ i) : estadoL (modifica l i f) x = estadoL l x := by
  unfold estadoL
  rw [getElem?_modifica_ne _ _ _ _ (fun hc => h hc.symm)]

theorem estadoL_modifica_self (l : List Proceso) (i : Nat) (f : Proceso → Proceso)
    (p : Proceso) (hp : l[i]? = some p) :
    estadoL (modifica l i f) i = (f p).estado := by
  unfold estadoL
  rw [getElem?_modifica_self, hp]
  rfl

theorem orderedInsert_congr {α : Type} (r1 r2 : α → α → Prop)
    [DecidableRel r1] [DecidableRel r2] (h : ∀ a b, r1 a b ↔ r2 a b) (a : α) :
    ∀ l : List α, List.orderedInsert r1 a l = List.orderedInsert r2 a l
  | [] => rfl
  | b :: L => by
      unfold List.orderedInsert
      by_cases hr : r1 a b
      · rw [if_pos hr, if_pos ((h a b).mp hr)]
      · rw [if_neg hr, if_neg (fun hc => hr ((h a b).mpr hc)),
          orderedInsert_congr r1 r2 h a L]

theorem insertionSort_congr {α : Type} (r1 r2 : α → α → Prop)
    [DecidableRel r1] [DecidableRel r2] (h : ∀ a b, r1 a b ↔ r2 a b) :
    ∀ l : List α, List.insertionSort r1 l = List.insertionSort r2 l
  | [] => rfl
  | a :: l => by
      show List.orderedInsert r1 a (List.insertionSort r1 l)
        = List.orderedInsert r2 a (List.insertionSort r2 l)
      rw [insertionSort_congr r1 r2 h l, orderedInsert_congr r1 r2 h]

theorem insertionSort_cons_min {α : Type} (r : α → α → Prop) [DecidableRel r]
    (a : α) (l : List α) (h : ∀ b ∈ l, r a b) :
    List.insertionSort r (a :: l) = a :: List.insertionSort r l := by
  show List.orderedInsert r a (List.insertionSort r l) = _
  cases hs : List.insertionSort r l with
  | nil => rfl
  | cons b L =>
      have hb : b ∈ l := by
        refine (List.perm_insertionSort r l).mem_iff.mp ?_
        rw [hs]
        exact List.mem_cons_self b L
      unfold List.orderedInsert
      rw [if_pos (h b hb)]

theorem ordenar_eq (s0 s' : Sim) (h : ∀ x, restanteDe s' x = restanteDe s0 x) :
    Planificador.ordenar_cola_listos s' =
      { s' with cola_listos := (List.insertionSort
          (fun a b => restanteDe s0 a ≤ restanteDe s0 b) s'.cola_listos) } := by
  unfold Planificador.ordenar_cola_listos
  rw [insertionSort_congr (fun a b => restanteDe s' a ≤ restanteDe s' b)
    (fun a b => restanteDe s0 a ≤ restanteDe s0 b) (fun a b => by simp only [h a, h b])
    s'.cola_listos]

/-- C3: SRTF preemption rule of `Planificador.seleccionar_siguiente`.  With a
running process and a non-empty ready queue it preempts exactly when the
queue head's remaining time is strictly smaller than the running one's
(equal remaining times leave the state untouched); on preemption the former
running process is set back to Ready with its wait-window start reset to
`now` and re-inserted into the stably re-sorted ready queue, and the former
head becomes Running; with nothing running, the head is popped and set
Running. -/
theorem claim_C3 (s : Sim) (t : Int) :
    (∀ h resto, s.proceso_ejecutando = none → s.cola_listos = h :: resto →
      (Planificador.seleccionar_siguiente s t).1 = some h ∧
      (Planificador.seleccionar_siguiente s t).2.proceso_ejecutando = some h ∧
      (Planificador.seleccionar_siguiente s t).2.cola_listos = resto ∧
      (∀ p, s.procesos[h]? = some p →
        estadoDe (Planificador.seleccionar_siguiente s t).2 h = EJECUCION)) ∧
    (∀ r cand resto, s.proceso_ejecutando = some r → s.cola_listos = cand :: resto →
      restanteDe s r ≤ restanteDe s cand →
      Planificador.seleccionar_siguiente s t = (some r, s)) ∧
    (∀ r cand resto, s.proceso_ejecutando = some r → s.cola_listos = cand :: resto →
      List.Pairwise (fun a b => restanteDe s a ≤ restanteDe s b) s.cola_listos →
      restanteDe s cand < restanteDe s r →
      (Planificador.seleccionar_siguiente s t).1 = some cand ∧
      (Planificador.seleccionar_siguiente s t).2.proceso_ejecutando = some cand ∧
      (∀ p, s.procesos[cand]? = some p →
        estadoDe (Planificador.seleccionar_siguiente s t).2 cand = EJECUCION) ∧
      (∀ p, s.procesos[r]? = some p →
        ∃ q, (Planificador.seleccionar_siguiente s t).2.procesos[r]? = some q ∧
          q.estado = LISTO ∧ q.ultimo_tiempo_espera_inicio = some t ∧
          q.tiempo_restante = p.tiempo_restante) ∧
      (Planificador.seleccionar_siguiente s t).2.cola_listos =
        List.insertionSort (fun a b => restanteDe s a ≤ restanteDe s b) (resto ++ [r])) := by
  refine ⟨?_, ?_, ?_⟩
  · -- nothing running: the head is dispatched
    intro h resto hr hcola
    have hsel : Planificador.seleccionar_siguiente s t =
        (some h,
          { s with
            procesos := modifica s.procesos h (fun p => actualizar_estado p EJECUCION t)
            cola_listos := resto
            proceso_ejecutando := some h }) := by
      unfold Planificador.seleccionar_siguiente
      simp only [hr, hcola]
    rw [hsel]
    refine ⟨rfl, rfl, rfl, ?_⟩
    intro p hp
    unfold estadoDe
    simp only
    rw [estadoL_modifica_self s.procesos h _ p hp, actualizar_estado_estado]
  · -- running with no strictly smaller head: unchanged
    intro r cand resto hr hcola hle
    unfold Planificador.seleccionar_siguiente
    simp only [hr, hcola]
    rw [if_neg (by omega)]
  · -- preemption
    intro r cand resto hr hcola hsort hlt
    have hne : cand ≠ r := by
      intro hc
      rw [hc] at hlt
      omega
    rw [hcola] at hsort
    have hhead := (List.pairwise_cons.mp hsort).1
    have hmemb : ∀ b ∈ resto ++ [r], restanteDe s cand ≤ restanteDe s b := by
      intro b hb
      rcases List.mem_append.mp hb with hb | hb
      · exact hhead b hb
      · rw [List.mem_singleton.mp hb]
        omega
    have hsel : Planificador.seleccionar_siguiente s t =
        (some cand,
          { s with
            procesos := modifica
              (modifica s.procesos r (fun p => actualizar_estado p LISTO t)) cand
              (fun p => actualizar_estado p EJECUCION t)
            cola_listos := List.insertionSort
              (fun a b => restanteDe s a ≤ restanteDe s b) (resto ++ [r])
            proceso_ejecutando := some cand }) := by
      unfold Planificador.seleccionar_siguiente
      simp only [hr, hcola]
      rw [if_pos hlt]
      rw [ordenar_eq s]
      · simp only [List.cons_append]
        rw [insertionSort_cons_min (fun a b => restanteDe s a ≤ restanteDe s b)
          cand (resto ++ [r]) hmemb]
      · intro x
        unfold restanteDe
        simp only
        exact restanteL_modifica s.procesos r _
          (fun p => actualizar_estado_restante p LISTO t) x
    rw [hsel]
    refine ⟨rfl, rfl, ?_, ?_, rfl⟩
    · intro p hp
      unfold estadoDe
      simp only
      have hp2 : (modifica s.procesos r (fun p => actualizar_estado p LISTO t))[cand]?
          = some p := by
        rw [getElem?_modifica_ne _ _ _ _ (fun hc => hne hc.symm), hp]
      rw [estadoL_modifica_self _ cand _ p hp2, actualizar_estado_estado]
    · intro p hp
      refine ⟨actualizar_estado p LISTO t, ?_, actualizar_estado_estado p LISTO t,
        actualizar_estado_listo_ultimo p t, actualizar_estado_restante p LISTO t⟩
      simp only
      rw [getElem?_modifica_ne _ _ _ _ hne, getElem?_modifica_self, hp]
      rfl

/-- Scheduler state of spec scenario D at clock 3: process 0 runs with 7
remaining, process 1 just became Ready with its full burst of 2. -/
def sPreempcion : Sim :=
  { procesos :=
      [ { tamano := 30, tiempo_arribo := 0, tiempo_irrupcion := 10, tiempo_restante := 7,
          estado := EJECUCION, tiempo_llegada_listo := some 0, tiempo_finalizacion := none,
          particion_asignada := some 2, tiempo_espera_acumulado := 0,
          ultimo_tiempo_espera_inicio := none }
      , { tamano := 20, tiempo_arribo := 3, tiempo_irrupcion := 2, tiempo_restante := 2,
          estado := LISTO, tiempo_llegada_listo := some 3, tiempo_finalizacion := none,
          particion_asignada := some 3, tiempo_espera_acumulado := 0,
          ultimo_tiempo_espera_inicio := some 3 } ]
    particiones := GestorMemoria.particionesFijas
    cola_nuevos := []
    cola_listos := [1]
    cola_listos_suspendidos := []
    proceso_ejecutando := some 0
    tiempo_actual := 3 }

/-- Witness for C3 at the scenario-D preemption instant: the newly ready
process 1 (remaining 2) preempts the running process 0 (remaining 7). -/
theorem claim_C3_witness :
    (Planificador.seleccionar_siguiente sPreempcion 3).1 = some 1 :=
  ((claim_C3 sPreempcion 3).2.2 0 1 [] rfl rfl (by decide) (by decide)).1

namespace Simulador

theorem intentar_loop_atendidos :
    ∀ (n : Nat) (s : Sim), s.cola_nuevos.length ≤ n → ∀ asig susp aten : List Nat,
      ∃ k, (intentar_loop s asig susp aten).atendidos = aten ++ s.cola_nuevos.take k := by
  intro n
  induction n with
  | zero =>
      intro s hlen asig susp aten
      have hq : s.cola_nuevos = [] := List.length_eq_zero.mp (Nat.le_zero.mp hlen)
      refine ⟨0, ?_⟩
      unfold intentar_loop
      split
      · simp
      · rename_i proceso resto heq
        rw [hq] at heq
        cases heq
  | succ n ih =>
      intro s hlen asig susp aten
      unfold intentar_loop
      split
      · exact ⟨0, by simp⟩
      · rename_i proceso resto heq
        split
        · exact ⟨0, by simp⟩
        · have hlen2 : resto.length ≤ n := by
            rw [heq] at hlen
            simpa using hlen
          split
          · obtain ⟨k, hk⟩ := ih
              (Planificador.agregar_listo
                { (GestorMemoria.asignar_proceso s proceso).2 with cola_nuevos := resto }
                proceso s.tiempo_actual)
              (by rw [(Planificador.agregar_listo_marco _ _ _).1]; exact hlen2)
              (asig ++ [proceso]) susp (aten ++ [proceso])
            refine ⟨k + 1, ?_⟩
            rw [hk, (Planificador.agregar_listo_marco _ _ _).1]
            rw [heq]
            simp [List.take_succ_cons]
          · obtain ⟨k, hk⟩ := ih
              (Planificador.agregar_suspendido
                { (GestorMemoria.asignar_proceso s proceso).2 with cola_nuevos := resto }
                proceso s.tiempo_actual)
              (by rw [(Planificador.agregar_suspendido_marco _ _ _).1]; exact hlen2)
              asig (susp ++ [proceso]) (aten ++ [proceso])
            refine ⟨k + 1, ?_⟩
            rw [hk, (Planificador.agregar_suspendido_marco _ _ _).1]
            rw [heq]
            simp [List.take_succ_cons]

theorem claveLe_total (s : Sim) (a b : Nat) : claveLe s a b ∨ claveLe s b a := by
  unfold claveLe
  omega

theorem claveLe_trans (s : Sim) (a b c : Nat) :
    claveLe s a b → claveLe s b c → claveLe s a c := by
  unfold claveLe
  omega

end Simulador

/-- C5: admission ordering.  Whenever the engine attempts admission from the
new queue (`_intentar_asignar_memoria_desde_colas`), the sequence of
processes it examines (`atendidos`, the heads taken from the queue in order)
is ascending in the Python tuple order on
`(tiempo_arribo, tiempo_irrupcion)`: a later-arriving process, or an
equally-timed one with a longer burst, is never attempted before an
earlier-arriving or shorter-burst one. -/
theorem claim_C5 (s : Sim) :
    List.Pairwise (Simulador.claveLe s)
      (Simulador._intentar_asignar_memoria_desde_colas s).atendidos ∧
    (∀ a b : Nat, Simulador.claveLe s a b ↔
      (arriboDe s a < arriboDe s b ∨
        (arriboDe s a = arriboDe s b ∧ irrupcionDe s a ≤ irrupcionDe s b))) := by
  constructor
  · unfold Simulador._intentar_asignar_memoria_desde_colas
    obtain ⟨k, hk⟩ := Simulador.intentar_loop_atendidos
      { s with cola_nuevos := List.insertionSort (Simulador.claveLe s) s.cola_nuevos }.cola_nuevos.length
      { s with cola_nuevos := List.insertionSort (Simulador.claveLe s) s.cola_nuevos }
      (Nat.le_refl _) [] [] []
    rw [hk]
    simp only [List.nil_append]
    haveI hT : IsTotal Nat (Simulador.claveLe s) := ⟨Simulador.claveLe_total s⟩
    haveI hR : IsTrans Nat (Simulador.claveLe s) :=
      ⟨fun a b c => Simulador.claveLe_trans s a b c⟩
    have hsorted : List.Pairwise (Simulador.claveLe s)
        (List.insertionSort (Simulador.claveLe s) s.cola_nuevos) :=
      List.sorted_insertionSort (Simulador.claveLe s) s.cola_nuevos
    exact List.Pairwise.sublist (List.take_sublist _ _) hsorted
  · intro a b
    exact Iff.rfl

namespace Particion

theorem asignar_cases_part (s : Sim) (j i : Nat) :
    (asignar_proceso s j i).1 = true ∨ (asignar_proceso s j i).2 = s := by
  unfold asignar_proceso
  repeat' split
  all_goals simp

end Particion

namespace GestorMemoria

theorem asignar_cases (s : Sim) (i : Nat) :
    (asignar_proceso s i).1 = true ∨ (asignar_proceso s i).2 = s := by
  unfold asignar_proceso
  split
  · simp
  · split
    · simp
    · split
      · simp
      · exact Particion.asignar_cases_part s _ i

theorem asignar_falso (s : Sim) (i : Nat)
    (h : (asignar_proceso s i).1 = false) : (asignar_proceso s i).2 = s := by
  rcases asignar_cases s i with hc | hc
  · rw [hc] at h
    cases h
  · exact hc

end GestorMemoria

namespace Simulador

theorem buscar_promovible_find :
    ∀ (cola : List Nat) (s : Sim) (idx : Nat),
    (∀ idx2 proc s2, buscar_promovible s idx cola = some (idx2, proc, s2) →
      List.find? (fun i => (GestorMemoria.asignar_proceso s i).1) cola = some proc ∧
      s2 = (GestorMemoria.asignar_proceso s proc).2) ∧
    (buscar_promovible s idx cola = none →
      List.find? (fun i => (GestorMemoria.asignar_proceso s i).1) cola = none ∧
      (∀ i ∈ cola, (GestorMemoria.asignar_proceso s i).1 = false)) := by
  intro cola
  induction cola with
  | nil =>
      intro s idx
      exact ⟨fun idx2 proc s2 h => by simp [buscar_promovible] at h,
        fun _ => ⟨rfl, fun i hi => absurd hi (List.not_mem_nil i)⟩⟩
  | cons i resto ih =>
      intro s idx
      constructor
      · intro idx2 proc s2 h
        unfold buscar_promovible at h
        split at h
        · rename_i htrue
          rw [Option.some.injEq, Prod.mk.injEq, Prod.mk.injEq] at h
          obtain ⟨h1, h2, h3⟩ := h
          subst h2
          refine ⟨List.find?_cons_of_pos _ htrue, h3.symm⟩
        · rename_i hfalse
          have hfb : (GestorMemoria.asignar_proceso s i).1 = false := by
            cases hb : (GestorMemoria.asignar_proceso s i).1 with
            | true => exact absurd hb hfalse
            | false => rfl
          have hs : (GestorMemoria.asignar_proceso s i).2 = s :=
            GestorMemoria.asignar_falso s i hfb
          rw [hs] at h
          obtain ⟨hf, hst⟩ := (ih s (idx + 1)).1 idx2 proc s2 h
          refine ⟨?_, hst⟩
          rw [List.find?_cons_of_neg _ (by simp [hfb]), hf]
      · intro h
        unfold buscar_promovible at h
        split at h
        · cases h
        · rename_i hfalse
          have hfb : (GestorMemoria.asignar_proceso s i).1 = false := by
            cases hb : (GestorMemoria.asignar_proceso s i).1 with
            | true => exact absurd hb hfalse
            | false => rfl
          have hs : (GestorMemoria.asignar_proceso s i).2 = s :=
            GestorMemoria.asignar_falso s i hfb
          rw [hs] at h
          obtain ⟨hf, hall⟩ := (ih s (idx + 1)).2 h
          refine ⟨?_, ?_⟩
          · rw [List.find?_cons_of_neg _ (by simp [hfb]), hf]
          · intro x hx
            rcases List.mem_cons.mp hx with hx | hx
            · rw [hx]; exact hfb
            · exact hall x hx

theorem promover_loop_acc :
    ∀ (n : Nat) (s : Sim), s.cola_listos_suspendidos.length ≤ n → ∀ proms : List Nat,
      (promover_loop s proms).1 = proms ++ (promover_loop s []).1 := by
  intro n
  induction n with
  | zero =>
      intro s hlen proms
      have hq : s.cola_listos_suspendidos = [] :=
        List.length_eq_zero.mp (Nat.le_zero.mp hlen)
      unfold promover_loop
      split
      · simp
      · rename_i cand resto heq
        rw [hq] at heq
        cases heq
  | succ n ih =>
      intro s hlen proms
      unfold promover_loop
      split
      · simp
      · rename_i cand resto heq
        have hlen2 : resto.length ≤ n := by
          rw [heq] at hlen
          simpa using hlen
        split
        · simp
        · split
          · rw [ih _ (by rw [(Planificador.agregar_listo_marco _ _ _).2.1]; exact hlen2)
              (proms ++ [cand]),
              ih _ (by rw [(Planificador.agregar_listo_marco _ _ _).2.1]; exact hlen2)
              ([] ++ [cand])]
            simp
          · split
            · rename_i idx proc s2 hbusca
              have hcota := buscar_promovible_cota resto _ 1 idx proc s2 hbusca
              have hlen3 : (s2.cola_listos_suspendidos.eraseIdx idx).length ≤ n := by
                rw [hcota.2.2, (GestorMemoria.asignar_proceso_marco s cand).2.2.1, heq]
                rw [List.length_eraseIdx, if_pos (by simp; omega)]
                simp
                omega
              rw [ih _ (by rw [(Planificador.agregar_listo_marco _ _ _).2.1]; exact hlen3)
                (proms ++ [proc]),
                ih _ (by rw [(Planificador.agregar_listo_marco _ _ _).2.1]; exact hlen3)
                ([] ++ [proc])]
              simp
            · simp

end Simulador

namespace Simulador

theorem promover_loop_post :
    ∀ (n : Nat) (s : Sim), s.cola_listos_suspendidos.length ≤ n → ∀ proms : List Nat,
      (promover_loop s proms).2.cola_listos_suspendidos = [] ∨
      GestorMemoria.GRADO_MULTIPROGRAMACION_MAX ≤
        _calcular_grado_multiprogramacion_actual (promover_loop s proms).2 ∨
      ∀ i ∈ (promover_loop s proms).2.cola_listos_suspendidos,
        (GestorMemoria.asignar_proceso (promover_loop s proms).2 i).1 = false := by
  intro n
  induction n with
  | zero =>
      intro s hlen proms
      have hq : s.cola_listos_suspendidos = [] :=
        List.length_eq_zero.mp (Nat.le_zero.mp hlen)
      unfold promover_loop
      split
      · exact Or.inl hq
      · rename_i cand resto heq
        rw [hq] at heq
        cases heq
  | succ n ih =>
      intro s hlen proms
      unfold promover_loop
      split
      · rename_i heq
        exact Or.inl heq
      · rename_i cand resto heq
        have hlen2 : resto.length ≤ n := by
          rw [heq] at hlen
          simpa using hlen
        split
        · rename_i hg
          exact Or.inr (Or.inl hg)
        · rename_i hg
          split
          · exact ih _ (by rw [(Planificador.agregar_listo_marco _ _ _).2.1]; exact hlen2) _
          · rename_i hfalse
            have hfb : (GestorMemoria.asignar_proceso s cand).1 = false := by
              cases hb : (GestorMemoria.asignar_proceso s cand).1 with
              | true => exact absurd hb hfalse
              | false => rfl
            have hs : (GestorMemoria.asignar_proceso s cand).2 = s :=
              GestorMemoria.asignar_falso s cand hfb
            split
            · rename_i idx proc s2 hbusca
              have hcota := buscar_promovible_cota resto _ 1 idx proc s2 hbusca
              have hlen3 : (s2.cola_listos_suspendidos.eraseIdx idx).length ≤ n := by
                rw [hcota.2.2, (GestorMemoria.asignar_proceso_marco s cand).2.2.1, heq]
                rw [List.length_eraseIdx, if_pos (by simp; omega)]
                simp
                omega
              exact ih _ (by rw [(Planificador.agregar_listo_marco _ _ _).2.1]; exact hlen3) _
            · rename_i hbusca
              rw [hs] at hbusca
              obtain ⟨_, hall⟩ := (buscar_promovible_find resto s 1).2 hbusca
              refine Or.inr (Or.inr ?_)
              intro x hx
              simp only [hs] at hx ⊢
              rw [heq] at hx
              rcases List.mem_cons.mp hx with hx | hx
              · rw [hx]; exact hfb
              · exact hall x hx

end Simulador

/-- C7: promotion with fallback scan.  After `_promover_suspendidos` returns,
no further promotion is possible: the suspended queue is empty, or the
combined load has reached the limit, or no suspended process can be admitted
(`asignar_proceso` fails on every one).  Moreover, in a round starting below
the load limit with a non-empty suspended queue, the process promoted first
is exactly the first process in FIFO order whose admission succeeds (the
head, or the first later one found by the forward scan); when none succeeds
the function returns no promotions and leaves the state unchanged. -/
theorem claim_C7 (s : Sim) :
    ((Simulador._promover_suspendidos s).2.cola_listos_suspendidos = [] ∨
      GestorMemoria.GRADO_MULTIPROGRAMACION_MAX ≤
        Simulador._calcular_grado_multiprogramacion_actual
          (Simulador._promover_suspendidos s).2 ∨
      ∀ i ∈ (Simulador._promover_suspendidos s).2.cola_listos_suspendidos,
        (GestorMemoria.asignar_proceso (Simulador._promover_suspendidos s).2 i).1 = false) ∧
    (∀ cand resto, s.cola_listos_suspendidos = cand :: resto →
      Simulador._calcular_grado_multiprogramacion_actual s <
        GestorMemoria.GRADO_MULTIPROGRAMACION_MAX →
      (∀ p, List.find? (fun i => (GestorMemoria.asignar_proceso s i).1)
          s.cola_listos_suspendidos = some p →
        (Simulador._promover_suspendidos s).1.head? = some p) ∧
      (List.find? (fun i => (GestorMemoria.asignar_proceso s i).1)
          s.cola_listos_suspendidos = none →
        Simulador._promover_suspendidos s = ([], s))) := by
  constructor
  · exact Simulador.promover_loop_post s.cola_listos_suspendidos.length s (Nat.le_refl _) []
  · intro cand resto heq hlt
    constructor
    · intro p hfind
      unfold Simulador._promover_suspendidos
      unfold Simulador.promover_loop
      split
      · rename_i heq2
        simp [heq] at heq2
      · rename_i cand2 resto2 heq2
        rw [heq] at heq2
        rw [List.cons.injEq] at heq2
        obtain ⟨hc2, hr2⟩ := heq2
        subst hc2
        subst hr2
        split
        · omega
        · split
          · rename_i htrue
            rw [heq] at hfind
            have hfc : List.find? (fun i => (GestorMemoria.asignar_proceso s i).1)
                (cand :: resto) = some cand := List.find?_cons_of_pos resto htrue
            rw [hfc, Option.some.injEq] at hfind
            subst hfind
            rw [Simulador.promover_loop_acc _ _ (Nat.le_refl _) ([] ++ [cand])]
            simp
          · rename_i hfalse
            have hfb : (GestorMemoria.asignar_proceso s cand).1 = false := by
              cases hb : (GestorMemoria.asignar_proceso s cand).1 with
              | true => exact absurd hb hfalse
              | false => rfl
            have hs : (GestorMemoria.asignar_proceso s cand).2 = s :=
              GestorMemoria.asignar_falso s cand hfb
            rw [heq] at hfind
            have hfc : List.find? (fun i => (GestorMemoria.asignar_proceso s i).1)
                (cand :: resto)
                = List.find? (fun i => (GestorMemoria.asignar_proceso s i).1) resto :=
              List.find?_cons_of_neg resto (by simp [hfb])
            rw [hfc] at hfind
            split
            · rename_i idx proc s2 hbusca
              rw [hs] at hbusca
              obtain ⟨hf2, _⟩ := (Simulador.buscar_promovible_find resto s 1).1 idx proc s2 hbusca
              rw [hf2, Option.some.injEq] at hfind
              subst hfind
              rw [Simulador.promover_loop_acc _ _ (Nat.le_refl _) ([] ++ [proc])]
              simp
            · rename_i hbusca
              rw [hs] at hbusca
              obtain ⟨hf2, _⟩ := (Simulador.buscar_promovible_find resto s 1).2 hbusca
              rw [hf2] at hfind
              cases hfind
    · intro hnone
      unfold Simulador._promover_suspendidos
      unfold Simulador.promover_loop
      split
      · rename_i heq2
        simp [heq] at heq2
      · rename_i cand2 resto2 heq2
        rw [heq] at heq2
        rw [List.cons.injEq] at heq2
        obtain ⟨hc2, hr2⟩ := heq2
        subst hc2
        subst hr2
        split
        · omega
        · split
          · rename_i htrue
            rw [heq] at hnone
            have hfc : List.find? (fun i => (GestorMemoria.asignar_proceso s i).1)
                (cand :: resto) = some cand := List.find?_cons_of_pos resto htrue
            rw [hfc] at hnone
            cases hnone
          · rename_i hfalse
            have hfb : (GestorMemoria.asignar_proceso s cand).1 = false := by
              cases hb : (GestorMemoria.asignar_proceso s cand).1 with
              | true => exact absurd hb hfalse
              | false => rfl
            have hs : (GestorMemoria.asignar_proceso s cand).2 = s :=
              GestorMemoria.asignar_falso s cand hfb
            rw [heq] at hnone
            have hfc : List.find? (fun i => (GestorMemoria.asignar_proceso s i).1)
                (cand :: resto)
                = List.find? (fun i => (GestorMemoria.asignar_proceso s i).1) resto :=
              List.find?_cons_of_neg resto (by simp [hfb])
            rw [hfc] at hnone
            split
            · rename_i idx proc s2 hbusca
              rw [hs] at hbusca
              obtain ⟨hf2, _⟩ := (Simulador.buscar_promovible_find resto s 1).1 idx proc s2 hbusca
              rw [hf2] at hnone
              cases hnone
            · rw [hs]

/-- State with one suspended process and all partitions free, as after a
termination freed the memory: used to witness the promotion claim. -/
def sSuspension : Sim :=
  { procesos :=
      [ { tamano := 40, tiempo_arribo := 0, tiempo_irrupcion := 3, tiempo_restante := 3,
          estado := LISTO_SUSPENDIDO, tiempo_llegada_listo := none, tiempo_finalizacion := none,
          particion_asignada := none, tiempo_espera_acumulado := 0,
          ultimo_tiempo_espera_inicio := none } ]
    particiones := GestorMemoria.particionesFijas
    cola_nuevos := []
    cola_listos := []
    cola_listos_suspendidos := [0]
    proceso_ejecutando := none
    tiempo_actual := 3 }

/-- Witness for C7: with one suspended process and free memory, the round
promotes exactly that process first. -/
theorem claim_C7_witness :
    (Simulador._promover_suspendidos sSuspension).1.head? = some 0 :=
  ((claim_C7 sSuspension).2 0 [] rfl (by decide)).1 0 (by decide)

/-- Process lists with identical per-position remaining, burst and arrival
times (the fields the time-accounting invariants depend on). -/
def perfilL (l l' : List Proceso) : Prop :=
  ∀ x : Nat, restanteL l' x = restanteL l x ∧ irrupcionL l' x = irrupcionL l x ∧
    arriboL l' x = arriboL l x

theorem perfilL_refl (l : List Proceso) : perfilL l l := fun x => ⟨rfl, rfl, rfl⟩

theorem perfilL_trans {l1 l2 l3 : List Proceso} (h1 : perfilL l1 l2) (h2 : perfilL l2 l3) :
    perfilL l1 l3 := by
  intro x
  obtain ⟨a1, b1, c1⟩ := h1 x
  obtain ⟨a2, b2, c2⟩ := h2 x
  exact ⟨a2.trans a1, b2.trans b1, c2.trans c1⟩

theorem perfilL_modifica (l : List Proceso) (i : Nat) (f : Proceso → Proceso)
    (hf : ∀ p, (f p).tiempo_restante = p.tiempo_restante ∧
      (f p).tiempo_irrupcion = p.tiempo_irrupcion ∧
      (f p).tiempo_arribo = p.tiempo_arribo) : perfilL l (modifica l i f) :=
  fun x => ⟨restanteL_modifica _ _ _ (fun p => (hf p).1) x,
    irrupcionL_modifica _ _ _ (fun p => (hf p).2.1) x,
    arriboL_modifica _ _ _ (fun p => (hf p).2.2) x⟩

/-- States with identical time profiles. -/
def PerfilIgual (s s' : Sim) : Prop := perfilL s.procesos s'.procesos

theorem perfil_campos {s s' : Sim} (h : PerfilIgual s s') (x : Nat) :
    restanteDe s' x = restanteDe s x ∧ irrupcionDe s' x = irrupcionDe s x ∧
      arriboDe s' x = arriboDe s x := h x

theorem perfil_refl (s : Sim) : PerfilIgual s s := perfilL_refl _

theorem perfil_trans {s1 s2 s3 : Sim} (h1 : PerfilIgual s1 s2) (h2 : PerfilIgual s2 s3) :
    PerfilIgual s1 s3 := perfilL_trans h1 h2

theorem perfil_actualizar (p : Proceso) (e : EstadoProceso) (t : Int) :
    (actualizar_estado p e t).tiempo_restante = p.tiempo_restante ∧
    (actualizar_estado p e t).tiempo_irrupcion = p.tiempo_irrupcion ∧
    (actualizar_estado p e t).tiempo_arribo = p.tiempo_arribo :=
  ⟨actualizar_estado_restante p e t, actualizar_estado_irrupcion p e t,
    actualizar_estado_arribo p e t⟩

theorem perfil_agregar_listo (s : Sim) (i : Nat) (t : Int) :
    PerfilIgual s (Planificador.agregar_listo s i t) :=
  perfilL_modifica s.procesos i _ (fun p => perfil_actualizar p LISTO t)

theorem perfil_agregar_suspendido (s : Sim) (i : Nat) (t : Int) :
    PerfilIgual s (Planificador.agregar_suspendido s i t) :=
  perfilL_modifica s.procesos i _ (fun p => perfil_actualizar p LISTO_SUSPENDIDO t)

theorem perfil_asignar (s : Sim) (i : Nat) :
    PerfilIgual s (GestorMemoria.asignar_proceso s i).2 := by
  unfold GestorMemoria.asignar_proceso Particion.asignar_proceso
  repeat' split
  all_goals first
    | exact perfil_refl s
    | exact perfilL_modifica s.procesos i _ (fun p => ⟨rfl, rfl, rfl⟩)

theorem perfil_liberar_part (s : Sim) (j : Nat) :
    PerfilIgual s (Particion.liberar s j).2 := by
  unfold Particion.liberar
  split
  · exact perfil_refl s
  · split
    · exact perfilL_modifica s.procesos _ _ (fun p => ⟨rfl, rfl, rfl⟩)
    · exact perfilL_refl s.procesos

theorem perfil_liberar_gestor (s : Sim) (i : Nat) :
    PerfilIgual s (GestorMemoria.liberar_particion s i).2 := by
  unfold GestorMemoria.liberar_particion
  split
  · exact perfil_refl s
  · exact perfil_liberar_part s _

theorem perfil_finalizar (s : Sim) (t : Int) :
    PerfilIgual s (Planificador.finalizar_proceso_actual s t).2 := by
  unfold Planificador.finalizar_proceso_actual
  split
  · exact perfil_refl s
  · exact perfilL_modifica s.procesos _ _ (fun p => perfil_actualizar p TERMINADO t)

theorem perfil_seleccionar (s : Sim) (t : Int) :
    PerfilIgual s (Planificador.seleccionar_siguiente s t).2 := by
  unfold Planificador.seleccionar_siguiente
  split
  · split
    · exact perfil_refl s
    · exact perfilL_modifica s.procesos _ _ (fun p => perfil_actualizar p EJECUCION t)
  · split
    · exact perfil_refl s
    · split
      · dsimp only
        split
        · exact perfilL_modifica s.procesos _ _ (fun p => perfil_actualizar p LISTO t)
        · exact perfilL_trans
            (perfilL_modifica s.procesos _ _ (fun p => perfil_actualizar p LISTO t))
            (perfilL_modifica _ _ _ (fun p => perfil_actualizar p EJECUCION t))
      · exact perfil_refl s
namespace Simulador

theorem perfil_procesar_aux (cola : List Nat) :
    ∀ (s : Sim) (arr : List Nat), PerfilIgual s (procesar_arribos_aux s arr cola).2 := by
  induction cola with
  | nil => intro s arr; exact perfil_refl s
  | cons i resto ih =>
      intro s arr
      unfold procesar_arribos_aux
      split
      · have h1 : PerfilIgual s
            { s with
              procesos := modifica s.procesos i (fun p => { p with estado := NUEVO })
              cola_nuevos := s.cola_nuevos ++ [i] } :=
          perfilL_modifica s.procesos i _ (fun p => ⟨rfl, rfl, rfl⟩)
        exact perfil_trans h1 (ih _ _)
      · exact ih s arr

theorem perfil_procesar (s : Sim) : PerfilIgual s (_procesar_arribos s).2 :=
  perfil_procesar_aux _ s []

theorem perfil_intentar_loop :
    ∀ (n : Nat) (s : Sim), s.cola_nuevos.length ≤ n → ∀ asig susp aten : List Nat,
      PerfilIgual s (intentar_loop s asig susp aten).st := by
  intro n
  induction n with
  | zero =>
      intro s hlen asig susp aten
      have hq : s.cola_nuevos = [] := List.length_eq_zero.mp (Nat.le_zero.mp hlen)
      unfold intentar_loop
      split
      · exact perfil_refl s
      · rename_i proceso resto heq
        rw [hq] at heq
        cases heq
  | succ n ih =>
      intro s hlen asig susp aten
      unfold intentar_loop
      split
      · exact perfil_refl s
      · rename_i proceso resto heq
        split
        · exact perfil_refl s
        · have hlen2 : resto.length ≤ n := by
            rw [heq] at hlen
            simpa using hlen
          split
          · refine perfil_trans
              (perfil_trans (perfil_asignar s proceso)
                (perfil_agregar_listo _ proceso s.tiempo_actual))
              (ih _ ?_ _ _ _)
            rw [(Planificador.agregar_listo_marco _ _ _).1]
            exact hlen2
          · refine perfil_trans
              (perfil_trans (perfil_asignar s proceso)
                (perfil_agregar_suspendido _ proceso s.tiempo_actual))
              (ih _ ?_ _ _ _)
            rw [(Planificador.agregar_suspendido_marco _ _ _).1]
            exact hlen2

theorem perfil_intentar (s : Sim) :
    PerfilIgual s (_intentar_asignar_memoria_desde_colas s).st :=
  perfil_intentar_loop _ _ (Nat.le_refl _) [] [] []

theorem perfil_buscar (cola : List Nat) :
    ∀ (s : Sim) (idx idx2 proc : Nat) (s2 : Sim),
      buscar_promovible s idx cola = some (idx2, proc, s2) → PerfilIgual s s2 := by
  induction cola with
  | nil => intro s idx idx2 proc s2 h; simp [buscar_promovible] at h
  | cons i resto ih =>
      intro s idx idx2 proc s2 h
      unfold buscar_promovible at h
      split at h
      · rw [Option.some.injEq, Prod.mk.injEq, Prod.mk.injEq] at h
        obtain ⟨h1, h2, h3⟩ := h
        rw [← h3]
        exact perfil_asignar s i
      · exact perfil_trans (perfil_asignar s i) (ih _ _ _ _ _ h)

theorem perfil_promover_loop :
    ∀ (n : Nat) (s : Sim), s.cola_listos_suspendidos.length ≤ n → ∀ proms : List Nat,
      PerfilIgual s (promover_loop s proms).2 := by
  intro n
  induction n with
  | zero =>
      intro s hlen proms
      have hq : s.cola_listos_suspendidos = [] :=
        List.length_eq_zero.mp (Nat.le_zero.mp hlen)
      unfold promover_loop
      split
      · exact perfil_refl s
      · rename_i cand resto heq
        rw [hq] at heq
        cases heq
  | succ n ih =>
      intro s hlen proms
      unfold promover_loop
      split
      · exact perfil_refl s
      · rename_i cand resto heq
        have hlen2 : resto.length ≤ n := by
          rw [heq] at hlen
          simpa using hlen
        split
        · exact perfil_refl s
        · split
          · refine perfil_trans
              (perfil_trans (perfil_asignar s cand)
                (perfil_agregar_listo _ cand s.tiempo_actual))
              (ih _ ?_ _)
            rw [(Planificador.agregar_listo_marco _ _ _).2.1]
            exact hlen2
          · split
            · rename_i idx proc s2 hbusca
              have hcota := buscar_promovible_cota resto _ 1 idx proc s2 hbusca
              have hlen3 : (s2.cola_listos_suspendidos.eraseIdx idx).length ≤ n := by
                rw [hcota.2.2, (GestorMemoria.asignar_proceso_marco s cand).2.2.1, heq]
                rw [List.length_eraseIdx, if_pos (by simp; omega)]
                simp
                omega
              refine perfil_trans
                (perfil_trans (perfil_asignar s cand)
                  (perfil_trans (perfil_buscar resto _ _ _ _ _ hbusca)
                    (perfil_agregar_listo _ proc s.tiempo_actual)))
                (ih _ ?_ _)
              rw [(Planificador.agregar_listo_marco _ _ _).2.1]
              exact hlen3
            · exact perfil_asignar s cand

theorem perfil_promover (s : Sim) : PerfilIgual s (_promover_suspendidos s).2 :=
  perfil_promover_loop _ _ (Nat.le_refl _) []

theorem perfil_fase_terminacion (s : Sim) : PerfilIgual s (fase_terminacion s) := by
  unfold fase_terminacion
  split
  · rename_i term s1 heq
    have h1 : PerfilIgual s s1 := by
      have hf := perfil_finalizar s s.tiempo_actual
      rw [heq] at hf
      exact hf
    exact perfil_trans h1
      (perfil_trans (perfil_liberar_gestor s1 term)
        (perfil_trans (perfil_promover _)
          (perfil_trans (perfil_intentar _) (perfil_seleccionar _ _))))
  · rename_i s1 heq
    have hf := perfil_finalizar s s.tiempo_actual
    rw [heq] at hf
    exact hf

theorem perfil_fase_arribos (s : Sim) : PerfilIgual s (fase_arribos s) :=
  perfil_trans (perfil_procesar s)
    (perfil_trans (perfil_intentar _) (perfil_seleccionar _ _))

end Simulador
theorem minimoL_le :
    ∀ (l : List Int) (m : Int), Simulador.minimoL l = some m → ∀ x ∈ l, m ≤ x := by
  intro l
  induction l with
  | nil => intro m hm; simp [Simulador.minimoL] at hm
  | cons a xs ih =>
      intro m hm x hx
      unfold Simulador.minimoL at hm
      rw [Option.some.injEq] at hm
      cases hmx : Simulador.minimoL xs with
      | none =>
          rw [hmx] at hm
          have hm2 : a = m := hm
          cases xs with
          | nil =>
              simp only [List.mem_singleton] at hx
              omega
          | cons y ys => simp [Simulador.minimoL] at hmx
      | some m2 =>
          rw [hmx] at hm
          have hm2 : min a m2 = m := hm
          rcases List.mem_cons.mp hx with h | h
          · omega
          · have := ih m2 hmx x h
            omega

namespace Simulador

theorem siguiente_cota (s : Sim) (r : Nat) (t : Int)
    (hr : s.proceso_ejecutando = some r)
    (ht : _calcular_tiempo_siguiente_evento s = some t) :
    t ≤ s.tiempo_actual + restanteDe s r := by
  unfold _calcular_tiempo_siguiente_evento at ht
  refine minimoL_le _ _ ht _ ?_
  unfold candidatos
  rw [hr]
  exact List.mem_append_right _ (List.mem_singleton.mpr rfl)

theorem avanzar_restante_le (s : Sim) (t : Int) (x : Nat) :
    restanteDe (avanzar s t) x ≤ restanteDe s x ∧
      irrupcionDe (avanzar s t) x = irrupcionDe s x := by
  unfold avanzar
  cases hr : s.proceso_ejecutando with
  | none => exact ⟨le_refl _, rfl⟩
  | some r =>
      dsimp only
      split
      · rename_i hlt
        constructor
        · show restanteL (modifica s.procesos r _) x ≤ restanteL s.procesos x
          by_cases hxr : x = r
          · subst hxr
            unfold restanteL
            rw [getElem?_modifica_self]
            cases hp : s.procesos[x]? with
            | none => simp
            | some p =>
                simp only [Option.map_some']
                omega
          · unfold restanteL
            rw [getElem?_modifica_ne _ _ _ _ (fun he => hxr he.symm)]
        · exact irrupcionL_modifica s.procesos r
            (fun p => { p with tiempo_restante := p.tiempo_restante - (t - s.tiempo_actual) })
            (fun p => rfl) x
      · exact ⟨le_refl _, rfl⟩

theorem avanzar_restante_exacto (s : Sim) (t : Int) (r : Nat)
    (hr : s.proceso_ejecutando = some r) (hlt : s.tiempo_actual < t)
    (hrange : r < s.procesos.length) :
    restanteDe (avanzar s t) r = restanteDe s r - (t - s.tiempo_actual) := by
  unfold avanzar
  rw [hr]
  dsimp only
  rw [if_pos hlt]
  show restanteL (modifica s.procesos r _) r = _
  unfold restanteDe restanteL
  rw [getElem?_modifica_self]
  cases hp : s.procesos[r]? with
  | none =>
      rw [List.getElem?_eq_none_iff] at hp
      omega
  | some p => simp only [Option.map_some']

theorem avanzar_restante_lb (s : Sim) (t : Int) (x : Nat)
    (hcota : ∀ r, s.proceso_ejecutando = some r → t ≤ s.tiempo_actual + restanteDe s r)
    (h0 : 0 ≤ restanteDe s x) :
    0 ≤ restanteDe (avanzar s t) x := by
  unfold avanzar
  cases hr : s.proceso_ejecutando with
  | none => exact h0
  | some r =>
      dsimp only
      split
      · rename_i hlt
        show 0 ≤ restanteL (modifica s.procesos r _) x
        by_cases hxr : x = r
        · subst hxr
          have hc := hcota x hr
          unfold restanteDe restanteL at hc h0
          unfold restanteL
          rw [getElem?_modifica_self]
          cases hp : s.procesos[x]? with
          | none => simp
          | some p =>
              rw [hp] at hc h0
              simp only [Option.map_some'] at hc h0 ⊢
              omega
        · unfold restanteL
          rw [getElem?_modifica_ne _ _ _ _ (fun he => hxr he.symm)]
          exact h0
      · exact h0

end Simulador

/-- Per-process remaining-time bounds: `0 ≤ tiempo_restante ≤ tiempo_irrupcion`
at every position. -/
def InvRestante (s : Sim) : Prop :=
  ∀ i : Nat, 0 ≤ restanteDe s i ∧ restanteDe s i ≤ irrupcionDe s i

/-- Input records accepted by `LectorCSV`: positive size, nonnegative arrival
time, positive burst time. -/
def EntradaValida (entrada : List (Int × Int × Int)) : Prop :=
  ∀ q ∈ entrada, 0 < q.1 ∧ 0 ≤ q.2.1 ∧ 0 < q.2.2

instance EntradaValida.decidable (entrada : List (Int × Int × Int)) :
    Decidable (EntradaValida entrada) := by
  unfold EntradaValida
  exact inferInstance

theorem inv_perfil {s s' : Sim} (h : PerfilIgual s s') (hs : InvRestante s) :
    InvRestante s' := by
  intro i
  obtain ⟨a, b, c⟩ := perfil_campos h i
  rw [a, b]
  exact hs i

theorem inv_cargar (entrada : List (Int × Int × Int)) (hval : EntradaValida entrada) :
    InvRestante (Simulador.cargar entrada) := by
  intro i
  unfold Simulador.cargar restanteDe irrupcionDe restanteL irrupcionL
  simp only [List.getElem?_map]
  cases hq : entrada[i]? with
  | none => simp
  | some q =>
      have hmem : q ∈ entrada := List.getElem?_mem hq
      have := hval q hmem
      simp only [Option.map_some', crearProceso]
      omega

namespace Simulador

theorem paso_estructura (s : Sim) (em : List Sim) (s' : Sim)
    (h : paso s = some (em, s')) :
    ∃ t, _calcular_tiempo_siguiente_evento s = some t ∧
      PerfilIgual (avanzar s t) s' ∧ ∀ u ∈ em, PerfilIgual (avanzar s t) u := by
  unfold paso at h
  split at h
  · cases h
  · split at h
    · cases h
    · rename_i t hct
      simp only [Option.some.injEq, Prod.mk.injEq] at h
      obtain ⟨hem, hs'⟩ := h
      refine ⟨t, hct, ?_, ?_⟩
      · rw [← hs']
        cases hF : hayFinalizacion s t with
        | false =>
            cases hA : hayArribosEn s t with
            | false => exact perfil_refl _
            | true => exact perfil_fase_arribos _
        | true =>
            cases hA : hayArribosEn s t with
            | false => exact perfil_fase_terminacion _
            | true => exact perfil_trans (perfil_fase_terminacion _) (perfil_fase_arribos _)
      · intro u hu
        rw [← hem] at hu
        cases hF : hayFinalizacion s t with
        | false =>
            cases hA : hayArribosEn s t with
            | false =>
                rw [hF, hA] at hu
                simp at hu
            | true =>
                rw [hF, hA] at hu
                simp at hu
                subst hu
                exact perfil_fase_arribos _
        | true =>
            cases hA : hayArribosEn s t with
            | false =>
                rw [hF, hA] at hu
                simp at hu
                subst hu
                exact perfil_fase_terminacion _
            | true =>
                rw [hF, hA] at hu
                simp at hu
                rcases hu with hu | hu
                · subst hu
                  exact perfil_fase_terminacion _
                · subst hu
                  exact perfil_trans (perfil_fase_terminacion _) (perfil_fase_arribos _)

theorem inv_avanzar_evento (s : Sim) (t : Int)
    (hct : _calcular_tiempo_siguiente_evento s = some t) (hs : InvRestante s) :
    InvRestante (avanzar s t) := by
  intro i
  refine ⟨avanzar_restante_lb s t i (fun r hr => siguiente_cota s r t hr hct) (hs i).1, ?_⟩
  obtain ⟨hle, hirr⟩ := avanzar_restante_le s t i
  rw [hirr]
  exact le_trans hle (hs i).2

theorem inv_paso (s : Sim) (em : List Sim) (s' : Sim) (hs : InvRestante s)
    (h : paso s = some (em, s')) :
    InvRestante s' ∧ (∀ u ∈ em, InvRestante u) ∧
      ∀ i, restanteDe s' i ≤ restanteDe s i := by
  obtain ⟨t, hct, hp1, hp2⟩ := paso_estructura s em s' h
  have hava : InvRestante (avanzar s t) := inv_avanzar_evento s t hct hs
  refine ⟨inv_perfil hp1 hava, fun u hu => inv_perfil (hp2 u hu) hava, ?_⟩
  intro i
  rw [(perfil_campos hp1 i).1]
  exact (avanzar_restante_le s t i).1

theorem inv_alcanzable (entrada : List (Int × Int × Int))
    (hval : EntradaValida entrada) :
    ∀ s, Alcanzable entrada s → InvRestante s := by
  intro s h
  induction h with
  | base =>
      have h0 : InvRestante (cargar entrada) := inv_cargar entrada hval
      unfold arranque
      split
      · exact inv_perfil (perfil_fase_arribos _) h0
      · exact h0
  | siguiente halc hpaso ih => exact (inv_paso _ _ _ ih hpaso).1

end Simulador

/-- C4: remaining-time accounting.  From validated input (size > 0,
arrival ≥ 0, burst > 0), in every reachable state every process satisfies
`0 ≤ tiempo_restante ≤ tiempo_irrupcion`; the same bounds hold at every
snapshot emitted by a loop iteration; `tiempo_restante` never increases
across an iteration; the time jump subtracts exactly
`t − tiempo_actual` from the running process when the clock moves; and the
next event time never exceeds `tiempo_actual + tiempo_restante` of the
running process. -/
theorem claim_C4 (entrada : List (Int × Int × Int)) (s : Sim)
    (hval : EntradaValida entrada) (halc : Simulador.Alcanzable entrada s) :
    (∀ i, 0 ≤ restanteDe s i ∧ restanteDe s i ≤ irrupcionDe s i) ∧
    (∀ em s', Simulador.paso s = some (em, s') →
      (∀ i, restanteDe s' i ≤ restanteDe s i) ∧
      ∀ u ∈ em, ∀ i, 0 ≤ restanteDe u i ∧ restanteDe u i ≤ irrupcionDe u i) ∧
    (∀ r t, s.proceso_ejecutando = some r →
      Simulador._calcular_tiempo_siguiente_evento s = some t →
      t ≤ s.tiempo_actual + restanteDe s r ∧
      (s.tiempo_actual < t → r < s.procesos.length →
        restanteDe (Simulador.avanzar s t) r =
          restanteDe s r - (t - s.tiempo_actual))) := by
  have hinv := Simulador.inv_alcanzable entrada hval s halc
  refine ⟨hinv, ?_, ?_⟩
  · intro em s' hp
    obtain ⟨h1, h2, h3⟩ := Simulador.inv_paso s em s' hinv hp
    exact ⟨h3, fun u hu i => h2 u hu i⟩
  · intro r t hr hct
    exact ⟨Simulador.siguiente_cota s r t hr hct,
      fun hlt hrange => Simulador.avanzar_restante_exacto s t r hr hlt hrange⟩

/-- Input for the C4 witness. -/
def entradaC4 : List (Int × Int × Int) := [(100, 0, 5), (250, 2, 3)]

/-- Witness for C4 at a concrete validated input and the initial reachable
state. -/
theorem claim_C4_witness :
    EntradaValida entradaC4 ∧
      0 ≤ restanteDe (Simulador.arranque (Simulador.cargar entradaC4)) 0 ∧
      restanteDe (Simulador.arranque (Simulador.cargar entradaC4)) 0 ≤
        irrupcionDe (Simulador.arranque (Simulador.cargar entradaC4)) 0 :=
  ⟨by decide, (claim_C4 entradaC4 _ (by decide) Simulador.Alcanzable.base).1 0⟩
theorem filter_modifica_count {α : Type} (l : List α) (j : Nat) (f : α → α) (p : α → Bool)
    (a : α) (ha : l[j]? = some a) (hpa : p a = false) (hpf : p (f a) = true) :
    (List.filter p (modifica l j f)).length = (List.filter p l).length + 1 := by
  induction l generalizing j with
  | nil => simp at ha
  | cons b l ih =>
      cases j with
      | zero =>
          simp only [List.getElem?_cons_zero, Option.some.injEq] at ha
          subst ha
          show (List.filter p (f b :: l)).length = (List.filter p (b :: l)).length + 1
          rw [List.filter_cons, List.filter_cons, if_pos hpf, if_neg (by simp [hpa])]
          simp
      | succ n =>
          simp only [List.getElem?_cons_succ] at ha
          have ihn := ih n ha
          show (List.filter p (b :: modifica l n f)).length =
            (List.filter p (b :: l)).length + 1
          rw [List.filter_cons, List.filter_cons]
          split
          · simp only [List.length_cons]
            omega
          · exact ihn

theorem filter_modifica_le {α : Type} (l : List α) (j : Nat) (f : α → α) (p : α → Bool)
    (hf : ∀ a, p (f a) = true → p a = true) :
    (List.filter p (modifica l j f)).length ≤ (List.filter p l).length := by
  induction l generalizing j with
  | nil => exact Nat.le_refl _
  | cons b l ih =>
      cases j with
      | zero =>
          show (List.filter p (f b :: l)).length ≤ (List.filter p (b :: l)).length
          rw [List.filter_cons, List.filter_cons]
          split
          · rename_i hpf2
            rw [if_pos (hf b hpf2)]
            simp
          · split
            · rw [List.length_cons]
              exact Nat.le_succ _
            · exact Nat.le_refl _
      | succ n =>
          show (List.filter p (b :: modifica l n f)).length ≤
            (List.filter p (b :: l)).length
          rw [List.filter_cons, List.filter_cons]
          have ihn := ih n
          split
          · simp only [List.length_cons]
            omega
          · exact ihn

theorem carga_asignar_part (s : Sim) (j i : Nat)
    (h : (Particion.asignar_proceso s j i).1 = true) :
    GestorMemoria.contar_procesos_en_memoria (Particion.asignar_proceso s j i).2 =
      GestorMemoria.contar_procesos_en_memoria s + 1 := by
  unfold Particion.asignar_proceso at h ⊢
  cases hpart : s.particiones[j]? with
  | none => rw [hpart] at h; cases h
  | some part =>
      cases hproc : s.procesos[i]? with
      | none => rw [hpart, hproc] at h; cases h
      | some proceso =>
          rw [hpart, hproc] at h
          dsimp only at h ⊢
          split at h
          · cases h
          · split at h
            · cases h
            · split at h
              · cases h
              · rename_i hso hocc hfit
                rw [if_neg hso, if_neg hocc, if_neg hfit]
                show (List.filter _ (modifica s.particiones j _)).length = _
                refine filter_modifica_count s.particiones j _ _ part hpart ?_ ?_
                · have hl : part.esta_libre = true := by
                    cases hb : part.esta_libre
                    · rw [hb] at hocc
                      simp at hocc
                    · rfl
                  unfold Particion.esta_libre at hl
                  rw [Bool.and_eq_true] at hl
                  simp [hl.1]
                · simp only [Bool.not_eq_true] at hso
                  simp [hso]

theorem carga_asignar_exito (s : Sim) (i : Nat)
    (h : (GestorMemoria.asignar_proceso s i).1 = true) :
    GestorMemoria.contar_procesos_en_memoria (GestorMemoria.asignar_proceso s i).2 =
      GestorMemoria.contar_procesos_en_memoria s + 1 := by
  unfold GestorMemoria.asignar_proceso at h ⊢
  split at h
  · cases h
  · rename_i hgrado
    rw [if_neg hgrado]
    cases hpi : s.procesos[i]? with
    | none => rw [hpi] at h; cases h
    | some proceso =>
        rw [hpi] at h
        dsimp only at h ⊢
        cases hbf : GestorMemoria.best_fit s.particiones proceso with
        | none => rw [hbf] at h; cases h
        | some j =>
            rw [hbf] at h
            exact carga_asignar_part s j i h

theorem Particion.liberar_susp_part (s : Sim) (j : Nat) :
    (Particion.liberar s j).2.cola_listos_suspendidos = s.cola_listos_suspendidos := by
  unfold Particion.liberar
  repeat' split
  all_goals rfl

theorem GestorMemoria.liberar_susp (s : Sim) (i : Nat) :
    (GestorMemoria.liberar_particion s i).2.cola_listos_suspendidos =
      s.cola_listos_suspendidos := by
  unfold GestorMemoria.liberar_particion
  split
  · rfl
  · exact Particion.liberar_susp_part s _

theorem carga_liberar_part (s : Sim) (j : Nat) :
    GestorMemoria.contar_procesos_en_memoria (Particion.liberar s j).2 ≤
      GestorMemoria.contar_procesos_en_memoria s := by
  unfold Particion.liberar
  cases hpart : s.particiones[j]? with
  | none => exact Nat.le_refl _
  | some part =>
      dsimp only
      cases part.proceso_asignado with
      | some i =>
          dsimp only
          exact filter_modifica_le s.particiones j _ _ (fun a ha => by simp at ha)
      | none =>
          dsimp only
          exact filter_modifica_le s.particiones j _ _ (fun a ha => by simp at ha)

theorem carga_liberar_le (s : Sim) (i : Nat) :
    GestorMemoria.contar_procesos_en_memoria (GestorMemoria.liberar_particion s i).2 ≤
      GestorMemoria.contar_procesos_en_memoria s := by
  unfold GestorMemoria.liberar_particion
  cases particionDe s i with
  | none => exact Nat.le_refl _
  | some j => exact carga_liberar_part s j
namespace Simulador

theorem grado_congr {s s' : Sim} (hp : s'.particiones = s.particiones)
    (hsu : s'.cola_listos_suspendidos = s.cola_listos_suspendidos) :
    _calcular_grado_multiprogramacion_actual s' =
      _calcular_grado_multiprogramacion_actual s := by
  unfold _calcular_grado_multiprogramacion_actual GestorMemoria.contar_procesos_en_memoria
  rw [hp, hsu]

theorem grado_agregar_listo (s : Sim) (i : Nat) (t : Int) :
    _calcular_grado_multiprogramacion_actual (Planificador.agregar_listo s i t) =
      _calcular_grado_multiprogramacion_actual s := by
  have hm := Planificador.agregar_listo_marco s i t
  exact grado_congr hm.2.2.2.2 hm.2.1

theorem grado_agregar_suspendido (s : Sim) (i : Nat) (t : Int) :
    _calcular_grado_multiprogramacion_actual (Planificador.agregar_suspendido s i t) =
      _calcular_grado_multiprogramacion_actual s + 1 := by
  have hm := Planificador.agregar_suspendido_marco s i t
  unfold _calcular_grado_multiprogramacion_actual GestorMemoria.contar_procesos_en_memoria
  rw [hm.2.2.2.2.2, hm.2.2.1]
  simp
  omega

theorem grado_asignar_exito (s : Sim) (i : Nat)
    (h : (GestorMemoria.asignar_proceso s i).1 = true) :
    _calcular_grado_multiprogramacion_actual (GestorMemoria.asignar_proceso s i).2 =
      _calcular_grado_multiprogramacion_actual s + 1 := by
  unfold _calcular_grado_multiprogramacion_actual
  rw [carga_asignar_exito s i h, (GestorMemoria.asignar_proceso_marco s i).2.2.1]
  omega

theorem grado_liberar_le (s : Sim) (i : Nat) :
    _calcular_grado_multiprogramacion_actual (GestorMemoria.liberar_particion s i).2 ≤
      _calcular_grado_multiprogramacion_actual s := by
  unfold _calcular_grado_multiprogramacion_actual
  have h1 := carga_liberar_le s i
  rw [GestorMemoria.liberar_susp s i]
  omega

theorem grado_finalizar (s : Sim) (t : Int) :
    _calcular_grado_multiprogramacion_actual (Planificador.finalizar_proceso_actual s t).2 =
      _calcular_grado_multiprogramacion_actual s := by
  unfold Planificador.finalizar_proceso_actual
  split
  · rfl
  · rfl

theorem grado_seleccionar (s : Sim) (t : Int) :
    _calcular_grado_multiprogramacion_actual (Planificador.seleccionar_siguiente s t).2 =
      _calcular_grado_multiprogramacion_actual s := by
  unfold Planificador.seleccionar_siguiente
  split
  · split
    · rfl
    · rfl
  · split
    · rfl
    · split
      · dsimp only
        split
        · rfl
        · rfl
      · rfl

theorem grado_avanzar (s : Sim) (t : Int) :
    _calcular_grado_multiprogramacion_actual (avanzar s t) =
      _calcular_grado_multiprogramacion_actual s := by
  unfold avanzar
  cases s.proceso_ejecutando with
  | none => rfl
  | some r =>
      dsimp only
      split
      · rfl
      · rfl

theorem grado_procesar_aux (cola : List Nat) :
    ∀ (s : Sim) (arr : List Nat),
      _calcular_grado_multiprogramacion_actual (procesar_arribos_aux s arr cola).2 =
        _calcular_grado_multiprogramacion_actual s := by
  induction cola with
  | nil => intro s arr; rfl
  | cons i resto ih =>
      intro s arr
      unfold procesar_arribos_aux
      split
      · exact (ih _ _).trans rfl
      · exact ih s arr

theorem grado_procesar (s : Sim) :
    _calcular_grado_multiprogramacion_actual (_procesar_arribos s).2 =
      _calcular_grado_multiprogramacion_actual s :=
  grado_procesar_aux _ s []

theorem grado_intentar_loop :
    ∀ (n : Nat) (s : Sim), s.cola_nuevos.length ≤ n →
      _calcular_grado_multiprogramacion_actual s ≤ GestorMemoria.GRADO_MULTIPROGRAMACION_MAX →
      ∀ asig susp aten : List Nat,
      _calcular_grado_multiprogramacion_actual (intentar_loop s asig susp aten).st ≤
        GestorMemoria.GRADO_MULTIPROGRAMACION_MAX := by
  intro n
  induction n with
  | zero =>
      intro s hlen hcarga asig susp aten
      have hq : s.cola_nuevos = [] := List.length_eq_zero.mp (Nat.le_zero.mp hlen)
      unfold intentar_loop
      split
      · exact hcarga
      · rename_i proceso resto heq
        rw [hq] at heq
        cases heq
  | succ n ih =>
      intro s hlen hcarga asig susp aten
      unfold intentar_loop
      split
      · exact hcarga
      · rename_i proceso resto heq
        split
        · exact hcarga
        · rename_i hguard
          have hlen2 : resto.length ≤ n := by
            rw [heq] at hlen
            simpa using hlen
          split
          · rename_i hexito
            refine ih _ ?_ ?_ _ _ _
            · rw [(Planificador.agregar_listo_marco _ _ _).1]
              exact hlen2
            · rw [grado_agregar_listo]
              have h1 : _calcular_grado_multiprogramacion_actual
                  { (GestorMemoria.asignar_proceso s proceso).2 with cola_nuevos := resto } =
                  _calcular_grado_multiprogramacion_actual
                    (GestorMemoria.asignar_proceso s proceso).2 :=
                grado_congr rfl rfl
              rw [h1, grado_asignar_exito s proceso hexito]
              unfold GestorMemoria.GRADO_MULTIPROGRAMACION_MAX at hguard ⊢
              omega
          · rename_i hexito
            have hfalso : (GestorMemoria.asignar_proceso s proceso).2 = s := by
              refine GestorMemoria.asignar_falso s proceso ?_
              cases hb : (GestorMemoria.asignar_proceso s proceso).1
              · rfl
              · exact absurd hb hexito
            refine ih _ ?_ ?_ _ _ _
            · rw [(Planificador.agregar_suspendido_marco _ _ _).1]
              exact hlen2
            · rw [grado_agregar_suspendido]
              have h1 : _calcular_grado_multiprogramacion_actual
                  { (GestorMemoria.asignar_proceso s proceso).2 with cola_nuevos := resto } =
                  _calcular_grado_multiprogramacion_actual
                    (GestorMemoria.asignar_proceso s proceso).2 :=
                grado_congr rfl rfl
              rw [h1, hfalso]
              unfold GestorMemoria.GRADO_MULTIPROGRAMACION_MAX at hguard ⊢
              omega

theorem grado_intentar (s : Sim)
    (h : _calcular_grado_multiprogramacion_actual s ≤
      GestorMemoria.GRADO_MULTIPROGRAMACION_MAX) :
    _calcular_grado_multiprogramacion_actual
        (_intentar_asignar_memoria_desde_colas s).st ≤
      GestorMemoria.GRADO_MULTIPROGRAMACION_MAX := by
  unfold _intentar_asignar_memoria_desde_colas
  refine grado_intentar_loop _ _ (Nat.le_refl _) ?_ [] [] []
  exact (grado_congr rfl rfl).trans_le h

theorem carga_buscar (cola : List Nat) :
    ∀ (s : Sim) (idx idx2 proc : Nat) (s2 : Sim),
      buscar_promovible s idx cola = some (idx2, proc, s2) →
      GestorMemoria.contar_procesos_en_memoria s2 =
        GestorMemoria.contar_procesos_en_memoria s + 1 := by
  induction cola with
  | nil => intro s idx idx2 proc s2 h; simp [buscar_promovible] at h
  | cons i resto ih =>
      intro s idx idx2 proc s2 h
      unfold buscar_promovible at h
      split at h
      · rename_i hexi
        rw [Option.some.injEq, Prod.mk.injEq, Prod.mk.injEq] at h
        obtain ⟨h1, h2, h3⟩ := h
        rw [← h3]
        exact carga_asignar_exito s i hexi
      · rename_i hexi
        have hfalso : (GestorMemoria.asignar_proceso s i).2 = s := by
          refine GestorMemoria.asignar_falso s i ?_
          cases hb : (GestorMemoria.asignar_proceso s i).1
          · rfl
          · exact absurd hb hexi
        have hrec := ih _ _ _ _ _ h
        rw [hfalso] at hrec
        exact hrec

theorem grado_promover_loop :
    ∀ (n : Nat) (s : Sim), s.cola_listos_suspendidos.length ≤ n →
      _calcular_grado_multiprogramacion_actual s ≤ GestorMemoria.GRADO_MULTIPROGRAMACION_MAX →
      ∀ proms : List Nat,
      _calcular_grado_multiprogramacion_actual (promover_loop s proms).2 ≤
        GestorMemoria.GRADO_MULTIPROGRAMACION_MAX := by
  intro n
  induction n with
  | zero =>
      intro s hlen hcarga proms
      have hq : s.cola_listos_suspendidos = [] :=
        List.length_eq_zero.mp (Nat.le_zero.mp hlen)
      unfold promover_loop
      split
      · exact hcarga
      · rename_i cand resto heq
        rw [hq] at heq
        cases heq
  | succ n ih =>
      intro s hlen hcarga proms
      unfold promover_loop
      split
      · exact hcarga
      · rename_i cand resto heq
        have hlen2 : resto.length ≤ n := by
          rw [heq] at hlen
          simpa using hlen
        have hgradoeq : _calcular_grado_multiprogramacion_actual s =
            GestorMemoria.contar_procesos_en_memoria s + resto.length + 1 := by
          unfold _calcular_grado_multiprogramacion_actual
          rw [heq]
          simp only [List.length_cons]
          omega
        split
        · exact hcarga
        · split
          · rename_i hexito
            refine ih _ ?_ ?_ _
            · rw [(Planificador.agregar_listo_marco _ _ _).2.1]
              exact hlen2
            · rw [grado_agregar_listo]
              have h1 : _calcular_grado_multiprogramacion_actual
                  { (GestorMemoria.asignar_proceso s cand).2 with
                    cola_listos_suspendidos := resto } =
                  GestorMemoria.contar_procesos_en_memoria
                    (GestorMemoria.asignar_proceso s cand).2 + resto.length := by
                unfold _calcular_grado_multiprogramacion_actual
                rfl
              rw [h1, carga_asignar_exito s cand hexito]
              omega
          · rename_i hexito
            have hfalso : (GestorMemoria.asignar_proceso s cand).2 = s := by
              refine GestorMemoria.asignar_falso s cand ?_
              cases hb : (GestorMemoria.asignar_proceso s cand).1
              · rfl
              · exact absurd hb hexito
            split
            · rename_i idx proc s2 hbusca
              have hcota := buscar_promovible_cota resto _ 1 idx proc s2 hbusca
              have hsusp2 : s2.cola_listos_suspendidos = cand :: resto := by
                rw [hcota.2.2, hfalso, heq]
              have hcarga2 : GestorMemoria.contar_procesos_en_memoria s2 =
                  GestorMemoria.contar_procesos_en_memoria s + 1 := by
                have := carga_buscar resto _ _ _ _ _ hbusca
                rw [hfalso] at this
                exact this
              have hlen3 : (s2.cola_listos_suspendidos.eraseIdx idx).length ≤ n := by
                rw [hsusp2]
                rw [List.length_eraseIdx, if_pos (by simp; omega)]
                simp
                omega
              refine ih _ ?_ ?_ _
              · rw [(Planificador.agregar_listo_marco _ _ _).2.1]
                exact hlen3
              · rw [grado_agregar_listo]
                have h1 : _calcular_grado_multiprogramacion_actual
                    { s2 with
                      cola_listos_suspendidos := s2.cola_listos_suspendidos.eraseIdx idx } =
                    GestorMemoria.contar_procesos_en_memoria s2 +
                      (s2.cola_listos_suspendidos.eraseIdx idx).length := by
                  unfold _calcular_grado_multiprogramacion_actual
                  rfl
                rw [h1, hcarga2, hsusp2]
                rw [List.length_eraseIdx, if_pos (by simp; omega)]
                simp
                omega
            · rw [hfalso]
              exact hcarga

theorem grado_promover (s : Sim)
    (h : _calcular_grado_multiprogramacion_actual s ≤
      GestorMemoria.GRADO_MULTIPROGRAMACION_MAX) :
    _calcular_grado_multiprogramacion_actual (_promover_suspendidos s).2 ≤
      GestorMemoria.GRADO_MULTIPROGRAMACION_MAX :=
  grado_promover_loop _ _ (Nat.le_refl _) h []

theorem grado_fase_arribos (s : Sim)
    (h : _calcular_grado_multiprogramacion_actual s ≤
      GestorMemoria.GRADO_MULTIPROGRAMACION_MAX) :
    _calcular_grado_multiprogramacion_actual (fase_arribos s) ≤
      GestorMemoria.GRADO_MULTIPROGRAMACION_MAX := by
  unfold fase_arribos
  dsimp only
  rw [grado_seleccionar]
  refine grado_intentar _ ?_
  rw [grado_procesar]
  exact h

theorem grado_fase_terminacion (s : Sim)
    (h : _calcular_grado_multiprogramacion_actual s ≤
      GestorMemoria.GRADO_MULTIPROGRAMACION_MAX) :
    _calcular_grado_multiprogramacion_actual (fase_terminacion s) ≤
      GestorMemoria.GRADO_MULTIPROGRAMACION_MAX := by
  unfold fase_terminacion
  split
  · rename_i term s1 heq
    dsimp only
    rw [grado_seleccionar]
    refine grado_intentar _ ?_
    refine grado_promover _ ?_
    refine le_trans (grado_liberar_le s1 term) ?_
    have hf := grado_finalizar s s.tiempo_actual
    rw [heq] at hf
    exact hf.trans_le h
  · rename_i s1 heq
    have hf := grado_finalizar s s.tiempo_actual
    rw [heq] at hf
    exact hf.trans_le h

theorem grado_paso (s : Sim) (em : List Sim) (s' : Sim)
    (hs : _calcular_grado_multiprogramacion_actual s ≤
      GestorMemoria.GRADO_MULTIPROGRAMACION_MAX)
    (h : paso s = some (em, s')) :
    _calcular_grado_multiprogramacion_actual s' ≤
        GestorMemoria.GRADO_MULTIPROGRAMACION_MAX ∧
      ∀ u ∈ em, _calcular_grado_multiprogramacion_actual u ≤
        GestorMemoria.GRADO_MULTIPROGRAMACION_MAX := by
  unfold paso at h
  split at h
  · cases h
  · split at h
    · cases h
    · rename_i t hct
      simp only [Option.some.injEq, Prod.mk.injEq] at h
      obtain ⟨hem, hs1⟩ := h
      have hg1 : _calcular_grado_multiprogramacion_actual (avanzar s t) ≤
          GestorMemoria.GRADO_MULTIPROGRAMACION_MAX :=
        (grado_avanzar s t).trans_le hs
      constructor
      · rw [← hs1]
        cases hF : hayFinalizacion s t with
        | false =>
            cases hA : hayArribosEn s t with
            | false => exact hg1
            | true => exact grado_fase_arribos _ hg1
        | true =>
            cases hA : hayArribosEn s t with
            | false => exact grado_fase_terminacion _ hg1
            | true => exact grado_fase_arribos _ (grado_fase_terminacion _ hg1)
      · intro u hu
        rw [← hem] at hu
        cases hF : hayFinalizacion s t with
        | false =>
            cases hA : hayArribosEn s t with
            | false =>
                rw [hF, hA] at hu
                simp at hu
            | true =>
                rw [hF, hA] at hu
                simp at hu
                subst hu
                exact grado_fase_arribos _ hg1
        | true =>
            cases hA : hayArribosEn s t with
            | false =>
                rw [hF, hA] at hu
                simp at hu
                subst hu
                exact grado_fase_terminacion _ hg1
            | true =>
                rw [hF, hA] at hu
                simp at hu
                rcases hu with hu | hu
                · subst hu
                  exact grado_fase_terminacion _ hg1
                · subst hu
                  exact grado_fase_arribos _ (grado_fase_terminacion _ hg1)

theorem grado_alcanzable (entrada : List (Int × Int × Int)) :
    ∀ s, Alcanzable entrada s →
      _calcular_grado_multiprogramacion_actual s ≤
        GestorMemoria.GRADO_MULTIPROGRAMACION_MAX := by
  intro s h
  induction h with
  | base =>
      have h0 : _calcular_grado_multiprogramacion_actual (cargar entrada) = 0 := rfl
      unfold arranque
      split
      · refine grado_fase_arribos _ ?_
        rw [h0]
        exact Nat.zero_le _
      · rw [h0]
        exact Nat.zero_le _
  | siguiente halc hpaso ih => exact (grado_paso _ _ _ ih hpaso).1

theorem intentar_lleno (s : Sim)
    (h : GestorMemoria.GRADO_MULTIPROGRAMACION_MAX ≤
      _calcular_grado_multiprogramacion_actual s) :
    (_intentar_asignar_memoria_desde_colas s).st =
      { s with cola_nuevos := List.insertionSort (claveLe s) s.cola_nuevos } ∧
    (_intentar_asignar_memoria_desde_colas s).en_cola_por_grado =
      List.insertionSort (claveLe s) s.cola_nuevos ∧
    (_intentar_asignar_memoria_desde_colas s).asignados = [] ∧
    (_intentar_asignar_memoria_desde_colas s).suspendidos = [] := by
  unfold _intentar_asignar_memoria_desde_colas
  unfold intentar_loop
  split
  · rename_i heq
    exact ⟨rfl, heq.symm, rfl, rfl⟩
  · have hc : GestorMemoria.GRADO_MULTIPROGRAMACION_MAX ≤
        _calcular_grado_multiprogramacion_actual
          { s with cola_nuevos := List.insertionSort (claveLe s) s.cola_nuevos } :=
      le_of_le_of_eq h (grado_congr rfl rfl).symm
    rw [if_pos hc]
    exact ⟨rfl, rfl, rfl, rfl⟩

theorem promover_lleno (s : Sim)
    (h : GestorMemoria.GRADO_MULTIPROGRAMACION_MAX ≤
      _calcular_grado_multiprogramacion_actual s) :
    (_promover_suspendidos s).2 = s ∧ (_promover_suspendidos s).1 = [] := by
  unfold _promover_suspendidos
  unfold promover_loop
  split
  · exact ⟨rfl, rfl⟩
  · rw [if_pos h]
    exact ⟨rfl, rfl⟩

end Simulador

/-- C1: multiprogramming invariant.  In every state reachable by the engine
loop and at every emitted snapshot, the occupied non-OS partition count plus
the suspended-ready queue length is at most the multiprogramming degree 5;
and once the combined load has reached the limit, an admission round admits
and suspends nobody — it merely sorts `cola_nuevos`, leaving every arrival
queued there — and a promotion round promotes nobody and leaves the state
unchanged. -/
theorem claim_C1 (entrada : List (Int × Int × Int)) (s : Sim)
    (halc : Simulador.Alcanzable entrada s) :
    GestorMemoria.contar_procesos_en_memoria s + s.cola_listos_suspendidos.length ≤
      GestorMemoria.GRADO_MULTIPROGRAMACION_MAX ∧
    (∀ em s', Simulador.paso s = some (em, s') →
      ∀ u ∈ em,
        GestorMemoria.contar_procesos_en_memoria u + u.cola_listos_suspendidos.length ≤
          GestorMemoria.GRADO_MULTIPROGRAMACION_MAX) ∧
    (GestorMemoria.GRADO_MULTIPROGRAMACION_MAX ≤
        GestorMemoria.contar_procesos_en_memoria s + s.cola_listos_suspendidos.length →
      (Simulador._intentar_asignar_memoria_desde_colas s).asignados = [] ∧
      (Simulador._intentar_asignar_memoria_desde_colas s).suspendidos = [] ∧
      (Simulador._intentar_asignar_memoria_desde_colas s).st =
        { s with cola_nuevos := List.insertionSort (Simulador.claveLe s) s.cola_nuevos } ∧
      (Simulador._intentar_asignar_memoria_desde_colas s).en_cola_por_grado =
        List.insertionSort (Simulador.claveLe s) s.cola_nuevos ∧
      (Simulador._promover_suspendidos s).2 = s ∧
      (Simulador._promover_suspendidos s).1 = []) := by
  refine ⟨Simulador.grado_alcanzable entrada s halc, ?_, ?_⟩
  · intro em s' hp
    exact (Simulador.grado_paso s em s' (Simulador.grado_alcanzable entrada s halc) hp).2
  · intro hll
    obtain ⟨h1, h2, h3, h4⟩ := Simulador.intentar_lleno s hll
    obtain ⟨h5, h6⟩ := Simulador.promover_lleno s hll
    exact ⟨h3, h4, h1, h2, h5, h6⟩

/-- Input for the C1 witness. -/
def entradaC1 : List (Int × Int × Int) := [(60, 0, 4)]

/-- Witness for C1 at a concrete input and the initial reachable state. -/
theorem claim_C1_witness :
    GestorMemoria.contar_procesos_en_memoria
        (Simulador.arranque (Simulador.cargar entradaC1)) +
      (Simulador.arranque (Simulador.cargar entradaC1)).cola_listos_suspendidos.length ≤
      GestorMemoria.GRADO_MULTIPROGRAMACION_MAX :=
  (claim_C1 entradaC1 _ Simulador.Alcanzable.base).1
/-- Completion stamp (`tiempo_finalizacion`) of the process at position `i`
of a process list. -/
def finalizacionL (procesos : List Proceso) (i : Nat) : Option Int :=
  match procesos[i]? with
  | some p => p.tiempo_finalizacion
  | none => none

/-- Completion stamp of the process at index `i`. -/
def finalizacionDe (s : Sim) (i : Nat) : Option Int :=
  finalizacionL s.procesos i

theorem estadoL_modifica_todo (l : List Proceso) (i : Nat) (f : Proceso → Proceso)
    (hf : ∀ p, (f p).estado = p.estado) (x : Nat) :
    estadoL (modifica l i f) x = estadoL l x := by
  by_cases hxi : x = i
  · subst hxi
    unfold estadoL
    rw [getElem?_modifica_self]
    cases l[x]? with
    | none => rfl
    | some p => simp [hf p]
  · exact estadoL_modifica_ne l i x f hxi

theorem finalizacionL_modifica_todo (l : List Proceso) (i : Nat) (f : Proceso → Proceso)
    (hf : ∀ p, (f p).tiempo_finalizacion = p.tiempo_finalizacion) (x : Nat) :
    finalizacionL (modifica l i f) x = finalizacionL l x := by
  by_cases hxi : x = i
  · subst hxi
    unfold finalizacionL
    rw [getElem?_modifica_self]
    cases l[x]? with
    | none => rfl
    | some p => simp [hf p]
  · unfold finalizacionL
    rw [getElem?_modifica_ne _ _ _ _ (fun hc => hxi hc.symm)]

/-- Well-formedness and time-accounting invariant behind the turnaround/wait
bounds: queue members and the running process have arrived and are in range;
a not-yet-arrived process has its full burst left; an arrived process has
executed for at most `tiempo_actual - tiempo_arribo`; a terminated process
carries a completion stamp at least `tiempo_arribo + tiempo_irrupcion`. -/
def InvC8 (s : Sim) : Prop :=
  (∀ i ∈ s.cola_nuevos, estadoDe s i ≠ SIN_ARRIBAR ∧ i < s.procesos.length) ∧
  (∀ i ∈ s.cola_listos, estadoDe s i ≠ SIN_ARRIBAR ∧ i < s.procesos.length) ∧
  (∀ i ∈ s.cola_listos_suspendidos,
    estadoDe s i ≠ SIN_ARRIBAR ∧ i < s.procesos.length) ∧
  (∀ r, s.proceso_ejecutando = some r →
    estadoDe s r ≠ SIN_ARRIBAR ∧ r < s.procesos.length) ∧
  (∀ i, estadoDe s i = SIN_ARRIBAR → restanteDe s i = irrupcionDe s i) ∧
  (∀ i, i < s.procesos.length → estadoDe s i ≠ SIN_ARRIBAR →
    arriboDe s i + (irrupcionDe s i - restanteDe s i) ≤ s.tiempo_actual) ∧
  (∀ i, i < s.procesos.length → estadoDe s i = TERMINADO →
    ∃ f, finalizacionDe s i = some f ∧ arriboDe s i + irrupcionDe s i ≤ f)

/-- States agreeing on everything `InvC8` can see. -/
def MismoC8 (s s' : Sim) : Prop :=
  (∀ x, estadoDe s' x = estadoDe s x) ∧
  (∀ x, restanteDe s' x = restanteDe s x) ∧
  (∀ x, irrupcionDe s' x = irrupcionDe s x) ∧
  (∀ x, arriboDe s' x = arriboDe s x) ∧
  (∀ x, finalizacionDe s' x = finalizacionDe s x) ∧
  s'.procesos.length = s.procesos.length ∧
  s'.cola_nuevos = s.cola_nuevos ∧
  s'.cola_listos = s.cola_listos ∧
  s'.cola_listos_suspendidos = s.cola_listos_suspendidos ∧
  s'.proceso_ejecutando = s.proceso_ejecutando ∧
  s'.tiempo_actual = s.tiempo_actual

theorem mismoC8_refl (s : Sim) : MismoC8 s s :=
  ⟨fun _ => rfl, fun _ => rfl, fun _ => rfl, fun _ => rfl, fun _ => rfl,
    rfl, rfl, rfl, rfl, rfl, rfl⟩

theorem mismoC8_trans {s1 s2 s3 : Sim} (h1 : MismoC8 s1 s2) (h2 : MismoC8 s2 s3) :
    MismoC8 s1 s3 :=
  ⟨fun x => (h2.1 x).trans (h1.1 x),
   fun x => (h2.2.1 x).trans (h1.2.1 x),
   fun x => (h2.2.2.1 x).trans (h1.2.2.1 x),
   fun x => (h2.2.2.2.1 x).trans (h1.2.2.2.1 x),
   fun x => (h2.2.2.2.2.1 x).trans (h1.2.2.2.2.1 x),
   (h2.2.2.2.2.2.1).trans (h1.2.2.2.2.2.1),
   (h2.2.2.2.2.2.2.1).trans (h1.2.2.2.2.2.2.1),
   (h2.2.2.2.2.2.2.2.1).trans (h1.2.2.2.2.2.2.2.1),
   (h2.2.2.2.2.2.2.2.2.1).trans (h1.2.2.2.2.2.2.2.2.1),
   (h2.2.2.2.2.2.2.2.2.2.1).trans (h1.2.2.2.2.2.2.2.2.2.1),
   (h2.2.2.2.2.2.2.2.2.2.2).trans (h1.2.2.2.2.2.2.2.2.2.2)⟩

theorem mismoC8_cambia_enlace (s : Sim) (parts : List Particion) (i : Nat)
    (g : Proceso → Proceso)
    (hg : ∀ p, (g p).estado = p.estado ∧ (g p).tiempo_restante = p.tiempo_restante ∧
      (g p).tiempo_irrupcion = p.tiempo_irrupcion ∧
      (g p).tiempo_arribo = p.tiempo_arribo ∧
      (g p).tiempo_finalizacion = p.tiempo_finalizacion) :
    MismoC8 s { s with procesos := modifica s.procesos i g, particiones := parts } :=
  ⟨fun x => estadoL_modifica_todo s.procesos i g (fun p => (hg p).1) x,
   fun x => restanteL_modifica s.procesos i g (fun p => (hg p).2.1) x,
   fun x => irrupcionL_modifica s.procesos i g (fun p => (hg p).2.2.1) x,
   fun x => arriboL_modifica s.procesos i g (fun p => (hg p).2.2.2.1) x,
   fun x => finalizacionL_modifica_todo s.procesos i g (fun p => (hg p).2.2.2.2) x,
   length_modifica s.procesos i g, rfl, rfl, rfl, rfl, rfl⟩

theorem mismoC8_cambia_particiones (s : Sim) (parts : List Particion) :
    MismoC8 s { s with particiones := parts } :=
  ⟨fun _ => rfl, fun _ => rfl, fun _ => rfl, fun _ => rfl, fun _ => rfl,
    rfl, rfl, rfl, rfl, rfl, rfl⟩

theorem mismoC8_asignar_part (s : Sim) (j i : Nat) :
    MismoC8 s (Particion.asignar_proceso s j i).2 := by
  unfold Particion.asignar_proceso
  repeat' split
  all_goals first
    | exact mismoC8_refl s
    | exact mismoC8_cambia_enlace s _ i _ (fun p => ⟨rfl, rfl, rfl, rfl, rfl⟩)

theorem mismoC8_asignar (s : Sim) (i : Nat) :
    MismoC8 s (GestorMemoria.asignar_proceso s i).2 := by
  unfold GestorMemoria.asignar_proceso
  split
  · exact mismoC8_refl s
  · split
    · exact mismoC8_refl s
    · split
      · exact mismoC8_refl s
      · exact mismoC8_asignar_part s _ i

theorem mismoC8_liberar_part (s : Sim) (j : Nat) :
    MismoC8 s (Particion.liberar s j).2 := by
  unfold Particion.liberar
  split
  · exact mismoC8_refl s
  · split
    · exact mismoC8_cambia_enlace s _ _ _ (fun p => ⟨rfl, rfl, rfl, rfl, rfl⟩)
    · exact mismoC8_cambia_particiones s _

theorem mismoC8_liberar (s : Sim) (i : Nat) :
    MismoC8 s (GestorMemoria.liberar_particion s i).2 := by
  unfold GestorMemoria.liberar_particion
  split
  · exact mismoC8_refl s
  · exact mismoC8_liberar_part s _

theorem mismoC8_buscar (cola : List Nat) :
    ∀ (s : Sim) (idx idx2 proc : Nat) (s2 : Sim),
      Simulador.buscar_promovible s idx cola = some (idx2, proc, s2) →
      MismoC8 s s2 := by
  induction cola with
  | nil => intro s idx idx2 proc s2 h; simp [Simulador.buscar_promovible] at h
  | cons i resto ih =>
      intro s idx idx2 proc s2 h
      unfold Simulador.buscar_promovible at h
      split at h
      · rw [Option.some.injEq, Prod.mk.injEq, Prod.mk.injEq] at h
        obtain ⟨h1, h2, h3⟩ := h
        rw [← h3]
        exact mismoC8_asignar s i
      · exact mismoC8_trans (mismoC8_asignar s i) (ih _ _ _ _ _ h)

theorem buscar_mem (cola : List Nat) :
    ∀ (s : Sim) (idx idx2 proc : Nat) (s2 : Sim),
      Simulador.buscar_promovible s idx cola = some (idx2, proc, s2) →
      proc ∈ cola := by
  induction cola with
  | nil => intro s idx idx2 proc s2 h; simp [Simulador.buscar_promovible] at h
  | cons i resto ih =>
      intro s idx idx2 proc s2 h
      unfold Simulador.buscar_promovible at h
      split at h
      · rw [Option.some.injEq, Prod.mk.injEq, Prod.mk.injEq] at h
        obtain ⟨h1, h2, h3⟩ := h
        rw [← h2]
        exact List.mem_cons_self i resto
      · exact List.mem_cons_of_mem i (ih _ _ _ _ _ h)

theorem invC8_mismo {s s' : Sim} (hm : MismoC8 s s') (h : InvC8 s) : InvC8 s' := by
  obtain ⟨hest, hres, hirr, harr, hfin, hlen, hn, hl, hsu, hej, ht⟩ := hm
  obtain ⟨w1, w2, w3, w4, p2, p3, p4⟩ := h
  refine ⟨?_, ?_, ?_, ?_, ?_, ?_, ?_⟩
  · intro i hi
    rw [hn] at hi
    rw [hest i, hlen]
    exact w1 i hi
  · intro i hi
    rw [hl] at hi
    rw [hest i, hlen]
    exact w2 i hi
  · intro i hi
    rw [hsu] at hi
    rw [hest i, hlen]
    exact w3 i hi
  · intro r hr
    rw [hej] at hr
    rw [hest r, hlen]
    exact w4 r hr
  · intro i hi
    rw [hest i] at hi
    rw [hres i, hirr i]
    exact p2 i hi
  · intro i hilen hi
    rw [hest i] at hi
    rw [hlen] at hilen
    rw [harr i, hirr i, hres i, ht]
    exact p3 i hilen hi
  · intro i hilen hi
    rw [hest i] at hi
    rw [hlen] at hilen
    rw [hfin i, harr i, hirr i]
    exact p4 i hilen hi

theorem invC8_cola_nuevos (s : Sim) (q : List Nat) (h : InvC8 s)
    (hq : ∀ i ∈ q, i ∈ s.cola_nuevos) : InvC8 { s with cola_nuevos := q } :=
  ⟨fun i hi => h.1 i (hq i hi), h.2.1, h.2.2.1, h.2.2.2.1, h.2.2.2.2.1,
    h.2.2.2.2.2.1, h.2.2.2.2.2.2⟩

theorem invC8_susp (s : Sim) (q : List Nat) (h : InvC8 s)
    (hq : ∀ i ∈ q, i ∈ s.cola_listos_suspendidos) :
    InvC8 { s with cola_listos_suspendidos := q } :=
  ⟨h.1, h.2.1, fun i hi => h.2.2.1 i (hq i hi), h.2.2.2.1, h.2.2.2.2.1,
    h.2.2.2.2.2.1, h.2.2.2.2.2.2⟩
theorem escribe_estado (s : Sim) (i : Nat) (e : EstadoProceso) (t' : Int)
    (hlen : i < s.procesos.length) :
    (modifica s.procesos i (fun p => actualizar_estado p e t')).length
        = s.procesos.length ∧
    (∀ x, x ≠ i →
      estadoL (modifica s.procesos i (fun p => actualizar_estado p e t')) x
        = estadoDe s x) ∧
    estadoL (modifica s.procesos i (fun p => actualizar_estado p e t')) i = e ∧
    (∀ x, restanteL (modifica s.procesos i (fun p => actualizar_estado p e t')) x
        = restanteDe s x) ∧
    (∀ x, irrupcionL (modifica s.procesos i (fun p => actualizar_estado p e t')) x
        = irrupcionDe s x) ∧
    (∀ x, arriboL (modifica s.procesos i (fun p => actualizar_estado p e t')) x
        = arriboDe s x) ∧
    (∀ x, x ≠ i →
      finalizacionL (modifica s.procesos i (fun p => actualizar_estado p e t')) x
        = finalizacionDe s x) ∧
    (e ≠ TERMINADO →
      finalizacionL (modifica s.procesos i (fun p => actualizar_estado p e t')) i
        = finalizacionDe s i) ∧
    finalizacionL (modifica s.procesos i (fun p => actualizar_estado p TERMINADO t')) i
      = some t' := by
  have hp : s.procesos[i]? = some s.procesos[i] := List.getElem?_eq_getElem hlen
  refine ⟨length_modifica _ _ _, ?_, ?_, ?_, ?_, ?_, ?_, ?_, ?_⟩
  · intro x hx
    exact estadoL_modifica_ne _ _ _ _ hx
  · rw [estadoL_modifica_self _ _ _ _ hp]
    exact actualizar_estado_estado _ e t'
  · exact fun x => restanteL_modifica _ _ _ (fun p => actualizar_estado_restante p e t') x
  · exact fun x => irrupcionL_modifica _ _ _ (fun p => actualizar_estado_irrupcion p e t') x
  · exact fun x => arriboL_modifica _ _ _ (fun p => actualizar_estado_arribo p e t') x
  · intro x hx
    unfold finalizacionL finalizacionDe
    rw [getElem?_modifica_ne _ _ _ _ (fun hc => hx hc.symm)]
    rfl
  · intro hnt
    unfold finalizacionDe finalizacionL
    rw [getElem?_modifica_self, hp]
    show (actualizar_estado _ e t').tiempo_finalizacion = _
    rw [actualizar_estado_finalizacion _ e t' hnt]
  · unfold finalizacionL
    rw [getElem?_modifica_self, hp]
    show (actualizar_estado _ TERMINADO t').tiempo_finalizacion = _
    rw [actualizar_estado_terminado]

theorem invC8_escribe (s : Sim) (i : Nat) (e : EstadoProceso) (t' : Int)
    (h : InvC8 s) (hi : estadoDe s i ≠ SIN_ARRIBAR) (hlen : i < s.procesos.length)
    (hne : e ≠ SIN_ARRIBAR) (hnt : e ≠ TERMINADO) :
    InvC8 { s with
      procesos := modifica s.procesos i (fun p => actualizar_estado p e t') } := by
  obtain ⟨w1, w2, w3, w4, p2, p3, p4⟩ := h
  obtain ⟨eA, eB, eC, eD1, eD2, eD3, eE, eF, eG⟩ := escribe_estado s i e t' hlen
  have hnosin : ∀ x, estadoDe s x ≠ SIN_ARRIBAR →
      estadoL (modifica s.procesos i (fun p => actualizar_estado p e t')) x
        ≠ SIN_ARRIBAR := by
    intro x hx
    by_cases hxi : x = i
    · subst hxi
      rw [eC]
      exact hne
    · rw [eB x hxi]
      exact hx
  refine ⟨?_, ?_, ?_, ?_, ?_, ?_, ?_⟩
  · intro x hx
    exact ⟨hnosin x (w1 x hx).1, lt_of_lt_of_eq (w1 x hx).2 eA.symm⟩
  · intro x hx
    exact ⟨hnosin x (w2 x hx).1, lt_of_lt_of_eq (w2 x hx).2 eA.symm⟩
  · intro x hx
    exact ⟨hnosin x (w3 x hx).1, lt_of_lt_of_eq (w3 x hx).2 eA.symm⟩
  · intro r hr
    exact ⟨hnosin r (w4 r hr).1, lt_of_lt_of_eq (w4 r hr).2 eA.symm⟩
  · intro x hx
    have hx2 : estadoL (modifica s.procesos i (fun p => actualizar_estado p e t')) x
        = SIN_ARRIBAR := hx
    show restanteL (modifica s.procesos i (fun p => actualizar_estado p e t')) x
      = irrupcionL (modifica s.procesos i (fun p => actualizar_estado p e t')) x
    rw [eD1 x, eD2 x]
    by_cases hxi : x = i
    · subst hxi
      rw [eC] at hx2
      exact absurd hx2 hne
    · rw [eB x hxi] at hx2
      exact p2 x hx2
  · intro x hxlen hx
    have hx2 : estadoL (modifica s.procesos i (fun p => actualizar_estado p e t')) x
        ≠ SIN_ARRIBAR := hx
    have hxlen2 : x < s.procesos.length := lt_of_lt_of_eq hxlen eA
    show arriboL (modifica s.procesos i (fun p => actualizar_estado p e t')) x +
        (irrupcionL (modifica s.procesos i (fun p => actualizar_estado p e t')) x -
          restanteL (modifica s.procesos i (fun p => actualizar_estado p e t')) x)
      ≤ s.tiempo_actual
    rw [eD3 x, eD2 x, eD1 x]
    by_cases hxi : x = i
    · subst hxi
      exact p3 x hxlen2 hi
    · rw [eB x hxi] at hx2
      exact p3 x hxlen2 hx2
  · intro x hxlen hx
    have hx2 : estadoL (modifica s.procesos i (fun p => actualizar_estado p e t')) x
        = TERMINADO := hx
    have hxlen2 : x < s.procesos.length := lt_of_lt_of_eq hxlen eA
    by_cases hxi : x = i
    · subst hxi
      rw [eC] at hx2
      exact absurd hx2 hnt
    · rw [eB x hxi] at hx2
      obtain ⟨f, hf, hfge⟩ := p4 x hxlen2 hx2
      refine ⟨f, ?_, ?_⟩
      · show finalizacionL (modifica s.procesos i (fun p => actualizar_estado p e t')) x
          = some f
        rw [eE x hxi]
        exact hf
      · show arriboL (modifica s.procesos i (fun p => actualizar_estado p e t')) x +
            irrupcionL (modifica s.procesos i (fun p => actualizar_estado p e t')) x ≤ f
        rw [eD3 x, eD2 x]
        exact hfge

theorem invC8_cola_listos (s : Sim) (q : List Nat) (h : InvC8 s)
    (hq : ∀ i ∈ q, i ∈ s.cola_listos ∨
      (estadoDe s i ≠ SIN_ARRIBAR ∧ i < s.procesos.length)) :
    InvC8 { s with cola_listos := q } := by
  refine ⟨h.1, ?_, h.2.2.1, h.2.2.2.1, h.2.2.2.2.1, h.2.2.2.2.2.1, h.2.2.2.2.2.2⟩
  intro i hi
  rcases hq i hi with hm | hm
  · exact h.2.1 i hm
  · exact hm

theorem invC8_ejec (s : Sim) (ej : Option Nat) (h : InvC8 s)
    (hej : ∀ r, ej = some r →
      estadoDe s r ≠ SIN_ARRIBAR ∧ r < s.procesos.length) :
    InvC8 { s with proceso_ejecutando := ej } :=
  ⟨h.1, h.2.1, h.2.2.1, hej, h.2.2.2.2.1, h.2.2.2.2.2.1, h.2.2.2.2.2.2⟩
theorem invC8_susp_gen (s : Sim) (q : List Nat) (h : InvC8 s)
    (hq : ∀ i ∈ q, i ∈ s.cola_listos_suspendidos ∨
      (estadoDe s i ≠ SIN_ARRIBAR ∧ i < s.procesos.length)) :
    InvC8 { s with cola_listos_suspendidos := q } := by
  refine ⟨h.1, h.2.1, ?_, h.2.2.2.1, h.2.2.2.2.1, h.2.2.2.2.2.1, h.2.2.2.2.2.2⟩
  intro i hi
  rcases hq i hi with hm | hm
  · exact h.2.2.1 i hm
  · exact hm

theorem invC8_tiempo (s : Sim) (t : Int) (h : InvC8 s) (ht : s.tiempo_actual ≤ t) :
    InvC8 { s with tiempo_actual := t } :=
  ⟨h.1, h.2.1, h.2.2.1, h.2.2.2.1, h.2.2.2.2.1,
    fun i hl hi => le_trans (h.2.2.2.2.2.1 i hl hi) ht, h.2.2.2.2.2.2⟩

theorem invC8_agregar_listo (s : Sim) (i : Nat) (t : Int) (h : InvC8 s)
    (hi : estadoDe s i ≠ SIN_ARRIBAR) (hlen : i < s.procesos.length) :
    InvC8 (Planificador.agregar_listo s i t) := by
  unfold Planificador.agregar_listo Planificador.ordenar_cola_listos
  dsimp only
  have h1 := invC8_escribe s i LISTO t h hi hlen (by decide) (by decide)
  have he := escribe_estado s i LISTO t hlen
  refine invC8_cola_listos _ _ h1 ?_
  intro x hx
  rw [List.mem_insertionSort] at hx
  rcases List.mem_append.mp hx with hx | hx
  · exact Or.inl hx
  · rw [List.mem_singleton] at hx
    subst hx
    right
    constructor
    · show estadoL (modifica s.procesos x (fun p => actualizar_estado p LISTO t)) x
        ≠ SIN_ARRIBAR
      rw [he.2.2.1]
      decide
    · exact lt_of_lt_of_eq hlen he.1.symm

theorem invC8_agregar_suspendido (s : Sim) (i : Nat) (t : Int) (h : InvC8 s)
    (hi : estadoDe s i ≠ SIN_ARRIBAR) (hlen : i < s.procesos.length) :
    InvC8 (Planificador.agregar_suspendido s i t) := by
  unfold Planificador.agregar_suspendido
  have h1 := invC8_escribe s i LISTO_SUSPENDIDO t h hi hlen (by decide) (by decide)
  have he := escribe_estado s i LISTO_SUSPENDIDO t hlen
  refine invC8_susp_gen _ _ h1 ?_
  intro x hx
  rcases List.mem_append.mp hx with hx | hx
  · exact Or.inl hx
  · rw [List.mem_singleton] at hx
    subst hx
    right
    constructor
    · show estadoL (modifica s.procesos x
          (fun p => actualizar_estado p LISTO_SUSPENDIDO t)) x ≠ SIN_ARRIBAR
      rw [he.2.2.1]
      decide
    · exact lt_of_lt_of_eq hlen he.1.symm

theorem estado_escrito_ne_sin (s : Sim) (i : Nat) (e : EstadoProceso) (t' : Int)
    (hlen : i < s.procesos.length) (he : e ≠ SIN_ARRIBAR) :
    estadoL (modifica s.procesos i (fun p => actualizar_estado p e t')) i
      ≠ SIN_ARRIBAR := by
  rw [(escribe_estado s i e t' hlen).2.2.1]
  exact he

theorem invC8_ordenar (s : Sim) (h : InvC8 s) :
    InvC8 (Planificador.ordenar_cola_listos s) := by
  unfold Planificador.ordenar_cola_listos
  exact invC8_cola_listos s _ h (fun x hx => Or.inl ((List.mem_insertionSort _).mp hx))

theorem invC8_seleccionar (s : Sim) (t : Int) (h : InvC8 s) :
    InvC8 (Planificador.seleccionar_siguiente s t).2 := by
  unfold Planificador.seleccionar_siguiente
  split
  · split
    · exact h
    · rename_i hd resto hcola
      obtain ⟨hne, hlen⟩ := h.2.1 hd (hcola ▸ List.mem_cons_self hd resto)
      have h1 := invC8_escribe s hd EJECUCION t h hne hlen (by decide) (by decide)
      have h2 := invC8_cola_listos _ resto h1
        (fun x hx => Or.inl (hcola ▸ List.mem_cons_of_mem hd hx))
      refine invC8_ejec _ (some hd) h2 ?_
      intro r2 hr2
      rw [Option.some.injEq] at hr2
      rw [← hr2]
      exact ⟨estado_escrito_ne_sin s hd EJECUCION t hlen (by decide),
        lt_of_lt_of_eq hlen (length_modifica _ _ _).symm⟩
  · rename_i r hej
    split
    · exact h
    · split
      · rename_i cand resto hcola hlt
        dsimp only
        obtain ⟨hrne, hrlen⟩ := h.2.2.2.1 r hej
        have h1 := invC8_escribe s r LISTO t h hrne hrlen (by decide) (by decide)
        have h2 := invC8_cola_listos _ (s.cola_listos ++ [r]) h1 ?_
        · have h3 := invC8_ordenar _ h2
          split
          · exact h3
          · rename_i hd resto2 hcola2
            obtain ⟨hdne, hdlen⟩ :=
              h3.2.1 hd (hcola2.symm ▸ List.mem_cons_self hd resto2)
            have h4 := invC8_escribe _ hd EJECUCION t h3 hdne hdlen
              (by decide) (by decide)
            have h5 := invC8_cola_listos _ resto2 h4
              (fun x hx => Or.inl (hcola2.symm ▸ List.mem_cons_of_mem hd hx))
            refine invC8_ejec _ (some hd) h5 ?_
            intro r2 hr2
            rw [Option.some.injEq] at hr2
            rw [← hr2]
            exact ⟨estado_escrito_ne_sin _ hd EJECUCION t hdlen (by decide),
              lt_of_lt_of_eq hdlen (length_modifica _ _ _).symm⟩
        · intro x hx
          rcases List.mem_append.mp hx with hx | hx
          · exact Or.inl hx
          · rw [List.mem_singleton] at hx
            rw [hx]
            right
            exact ⟨estado_escrito_ne_sin s r LISTO t hrlen (by decide),
              lt_of_lt_of_eq hrlen (length_modifica _ _ _).symm⟩
      · exact h

theorem invC8_finalizar (s : Sim) (h : InvC8 s)
    (hrest : ∀ r, s.proceso_ejecutando = some r → restanteDe s r ≤ 0) :
    InvC8 (Planificador.finalizar_proceso_actual s s.tiempo_actual).2 := by
  unfold Planificador.finalizar_proceso_actual
  split
  · exact h
  · rename_i r hej
    obtain ⟨w1, w2, w3, w4, p2, p3, p4⟩ := h
    obtain ⟨hrne, hrlen⟩ := w4 r hej
    obtain ⟨eA, eB, eC, eD1, eD2, eD3, eE, eF, eG⟩ :=
      escribe_estado s r TERMINADO s.tiempo_actual hrlen
    have hnosin : ∀ x, estadoDe s x ≠ SIN_ARRIBAR →
        estadoL (modifica s.procesos r
          (fun p => actualizar_estado p TERMINADO s.tiempo_actual)) x ≠ SIN_ARRIBAR := by
      intro x hx
      by_cases hxr : x = r
      · subst hxr
        rw [eC]
        decide
      · rw [eB x hxr]
        exact hx
    refine ⟨?_, ?_, ?_, ?_, ?_, ?_, ?_⟩
    · intro x hx
      exact ⟨hnosin x (w1 x hx).1, lt_of_lt_of_eq (w1 x hx).2 eA.symm⟩
    · intro x hx
      exact ⟨hnosin x (w2 x hx).1, lt_of_lt_of_eq (w2 x hx).2 eA.symm⟩
    · intro x hx
      exact ⟨hnosin x (w3 x hx).1, lt_of_lt_of_eq (w3 x hx).2 eA.symm⟩
    · intro r2 hr2
      cases hr2
    · intro x hx
      have hx2 : estadoL (modifica s.procesos r
          (fun p => actualizar_estado p TERMINADO s.tiempo_actual)) x = SIN_ARRIBAR := hx
      show restanteL (modifica s.procesos r
          (fun p => actualizar_estado p TERMINADO s.tiempo_actual)) x
        = irrupcionL (modifica s.procesos r
          (fun p => actualizar_estado p TERMINADO s.tiempo_actual)) x
      rw [eD1 x, eD2 x]
      by_cases hxr : x = r
      · subst hxr
        rw [eC] at hx2
        cases hx2
      · rw [eB x hxr] at hx2
        exact p2 x hx2
    · intro x hxlen hx
      have hxlen2 : x < s.procesos.length := lt_of_lt_of_eq hxlen eA
      have hx2 : estadoL (modifica s.procesos r
          (fun p => actualizar_estado p TERMINADO s.tiempo_actual)) x ≠ SIN_ARRIBAR := hx
      show arriboL (modifica s.procesos r
            (fun p => actualizar_estado p TERMINADO s.tiempo_actual)) x +
          (irrupcionL (modifica s.procesos r
            (fun p => actualizar_estado p TERMINADO s.tiempo_actual)) x -
           restanteL (modifica s.procesos r
            (fun p => actualizar_estado p TERMINADO s.tiempo_actual)) x)
        ≤ s.tiempo_actual
      rw [eD3 x, eD2 x, eD1 x]
      by_cases hxr : x = r
      · subst hxr
        exact p3 x hxlen2 hrne
      · rw [eB x hxr] at hx2
        exact p3 x hxlen2 hx2
    · intro x hxlen hx
      have hxlen2 : x < s.procesos.length := lt_of_lt_of_eq hxlen eA
      have hx2 : estadoL (modifica s.procesos r
          (fun p => actualizar_estado p TERMINADO s.tiempo_actual)) x = TERMINADO := hx
      by_cases hxr : x = r
      · subst hxr
        refine ⟨s.tiempo_actual, eG, ?_⟩
        show arriboL (modifica s.procesos x
              (fun p => actualizar_estado p TERMINADO s.tiempo_actual)) x +
            irrupcionL (modifica s.procesos x
              (fun p => actualizar_estado p TERMINADO s.tiempo_actual)) x
          ≤ s.tiempo_actual
        rw [eD3 x, eD2 x]
        have hb := p3 x hxlen2 hrne
        have hr0 := hrest x hej
        omega
      · rw [eB x hxr] at hx2
        obtain ⟨f, hf, hfge⟩ := p4 x hxlen2 hx2
        refine ⟨f, ?_, ?_⟩
        · show finalizacionL (modifica s.procesos r
              (fun p => actualizar_estado p TERMINADO s.tiempo_actual)) x = some f
          rw [eE x hxr]
          exact hf
        · show arriboL (modifica s.procesos r
                (fun p => actualizar_estado p TERMINADO s.tiempo_actual)) x +
              irrupcionL (modifica s.procesos r
                (fun p => actualizar_estado p TERMINADO s.tiempo_actual)) x ≤ f
          rw [eD3 x, eD2 x]
          exact hfge
theorem invC8_resta (s : Sim) (r : Nat) (t : Int) (h : InvC8 s)
    (hej : s.proceso_ejecutando = some r) (hlt : s.tiempo_actual < t) :
    InvC8 { s with
      procesos := modifica s.procesos r
        (fun p => { p with tiempo_restante := p.tiempo_restante - (t - s.tiempo_actual) })
      proceso_ejecutando := some r
      tiempo_actual := t } := by
  obtain ⟨w1, w2, w3, w4, p2, p3, p4⟩ := h
  obtain ⟨hrne, hrlen⟩ := w4 r hej
  have hA := length_modifica s.procesos r
    (fun p => { p with tiempo_restante := p.tiempo_restante - (t - s.tiempo_actual) })
  have hEst := estadoL_modifica_todo s.procesos r
    (fun p => { p with tiempo_restante := p.tiempo_restante - (t - s.tiempo_actual) })
    (fun p => rfl)
  have hIrr := irrupcionL_modifica s.procesos r
    (fun p => { p with tiempo_restante := p.tiempo_restante - (t - s.tiempo_actual) })
    (fun p => rfl)
  have hArr := arriboL_modifica s.procesos r
    (fun p => { p with tiempo_restante := p.tiempo_restante - (t - s.tiempo_actual) })
    (fun p => rfl)
  have hFin := finalizacionL_modifica_todo s.procesos r
    (fun p => { p with tiempo_restante := p.tiempo_restante - (t - s.tiempo_actual) })
    (fun p => rfl)
  have hRne : ∀ x, x ≠ r → restanteL (modifica s.procesos r
      (fun p => { p with tiempo_restante := p.tiempo_restante - (t - s.tiempo_actual) })) x
      = restanteL s.procesos x := by
    intro x hx
    unfold restanteL
    rw [getElem?_modifica_ne _ _ _ _ (fun hc => hx hc.symm)]
  have hRr : restanteL (modifica s.procesos r
      (fun p => { p with tiempo_restante := p.tiempo_restante - (t - s.tiempo_actual) })) r
      = restanteL s.procesos r - (t - s.tiempo_actual) := by
    unfold restanteL
    rw [getElem?_modifica_self, List.getElem?_eq_getElem hrlen]
    simp only [Option.map_some']
  refine ⟨?_, ?_, ?_, ?_, ?_, ?_, ?_⟩
  · intro x hx
    exact ⟨fun hc => (w1 x hx).1 ((hEst x).symm.trans hc),
      lt_of_lt_of_eq (w1 x hx).2 hA.symm⟩
  · intro x hx
    exact ⟨fun hc => (w2 x hx).1 ((hEst x).symm.trans hc),
      lt_of_lt_of_eq (w2 x hx).2 hA.symm⟩
  · intro x hx
    exact ⟨fun hc => (w3 x hx).1 ((hEst x).symm.trans hc),
      lt_of_lt_of_eq (w3 x hx).2 hA.symm⟩
  · intro r2 hr2
    rw [Option.some.injEq] at hr2
    rw [← hr2]
    exact ⟨fun hc => hrne ((hEst r).symm.trans hc), lt_of_lt_of_eq hrlen hA.symm⟩
  · intro x hx
    have hx2 : estadoL (modifica s.procesos r
        (fun p => { p with tiempo_restante := p.tiempo_restante - (t - s.tiempo_actual) })) x
        = SIN_ARRIBAR := hx
    rw [hEst x] at hx2
    have hxr : x ≠ r := fun hc => hrne (hc ▸ hx2)
    show restanteL (modifica s.procesos r
        (fun p => { p with tiempo_restante := p.tiempo_restante - (t - s.tiempo_actual) })) x
      = irrupcionL (modifica s.procesos r
        (fun p => { p with tiempo_restante := p.tiempo_restante - (t - s.tiempo_actual) })) x
    rw [hRne x hxr, hIrr x]
    have hp2 : restanteL s.procesos x = irrupcionL s.procesos x := p2 x hx2
    exact hp2
  · intro x hxlen hx
    have hx2 : estadoL (modifica s.procesos r
        (fun p => { p with tiempo_restante := p.tiempo_restante - (t - s.tiempo_actual) })) x
        ≠ SIN_ARRIBAR := hx
    rw [hEst x] at hx2
    have hxlen2 : x < s.procesos.length := lt_of_lt_of_eq hxlen hA
    have hb : arriboL s.procesos x + (irrupcionL s.procesos x - restanteL s.procesos x)
        ≤ s.tiempo_actual := p3 x hxlen2 hx2
    show arriboL (modifica s.procesos r
          (fun p => { p with tiempo_restante := p.tiempo_restante - (t - s.tiempo_actual) })) x +
        (irrupcionL (modifica s.procesos r
          (fun p => { p with tiempo_restante := p.tiempo_restante - (t - s.tiempo_actual) })) x -
         restanteL (modifica s.procesos r
          (fun p => { p with tiempo_restante := p.tiempo_restante - (t - s.tiempo_actual) })) x)
      ≤ t
    rw [hArr x, hIrr x]
    by_cases hxr : x = r
    · subst hxr
      rw [hRr]
      omega
    · rw [hRne x hxr]
      omega
  · intro x hxlen hx
    have hx2 : estadoL (modifica s.procesos r
        (fun p => { p with tiempo_restante := p.tiempo_restante - (t - s.tiempo_actual) })) x
        = TERMINADO := hx
    rw [hEst x] at hx2
    have hxlen2 : x < s.procesos.length := lt_of_lt_of_eq hxlen hA
    obtain ⟨f, hf, hfge⟩ := p4 x hxlen2 hx2
    refine ⟨f, ?_, ?_⟩
    · show finalizacionL (modifica s.procesos r
          (fun p => { p with tiempo_restante := p.tiempo_restante - (t - s.tiempo_actual) })) x
        = some f
      rw [hFin x]
      exact hf
    · show arriboL (modifica s.procesos r
            (fun p => { p with tiempo_restante := p.tiempo_restante - (t - s.tiempo_actual) })) x +
          irrupcionL (modifica s.procesos r
            (fun p => { p with tiempo_restante := p.tiempo_restante - (t - s.tiempo_actual) })) x
        ≤ f
      rw [hArr x, hIrr x]
      exact hfge

theorem invC8_avanzar (s : Sim) (t : Int) (h : InvC8 s) (ht : s.tiempo_actual ≤ t) :
    InvC8 (Simulador.avanzar s t) := by
  unfold Simulador.avanzar
  cases hej : s.proceso_ejecutando with
  | none => exact invC8_tiempo s t h ht
  | some r =>
      dsimp only
      split
      · rename_i hlt
        exact invC8_resta s r t h hej hlt
      · exact invC8_tiempo s t h ht

theorem invC8_arribo (s : Sim) (i : Nat) (h : InvC8 s)
    (hsin : estadoDe s i = SIN_ARRIBAR) (harr : arriboDe s i = s.tiempo_actual) :
    InvC8 { s with
      procesos := modifica s.procesos i (fun p => { p with estado := NUEVO })
      cola_nuevos := s.cola_nuevos ++ [i] } := by
  obtain ⟨w1, w2, w3, w4, p2, p3, p4⟩ := h
  have hilen : i < s.procesos.length := by
    by_contra hc
    have hnone : s.procesos[i]? = none := List.getElem?_eq_none_iff.mpr (le_of_not_lt hc)
    unfold estadoDe estadoL at hsin
    rw [hnone] at hsin
    cases hsin
  have hp : s.procesos[i]? = some s.procesos[i] := List.getElem?_eq_getElem hilen
  have hA := length_modifica s.procesos i (fun p => { p with estado := NUEVO })
  have hEstNe : ∀ x, x ≠ i → estadoL (modifica s.procesos i
      (fun p => { p with estado := NUEVO })) x = estadoDe s x :=
    fun x hx => estadoL_modifica_ne s.procesos i x _ hx
  have hEstI : estadoL (modifica s.procesos i (fun p => { p with estado := NUEVO })) i
      = NUEVO := by
    rw [estadoL_modifica_self s.procesos i _ s.procesos[i] hp]
  have hRes := fun x => restanteL_modifica s.procesos i
    (fun p => { p with estado := NUEVO }) (fun p => rfl) x
  have hIrr := fun x => irrupcionL_modifica s.procesos i
    (fun p => { p with estado := NUEVO }) (fun p => rfl) x
  have hArr := fun x => arriboL_modifica s.procesos i
    (fun p => { p with estado := NUEVO }) (fun p => rfl) x
  have hFin := fun x => finalizacionL_modifica_todo s.procesos i
    (fun p => { p with estado := NUEVO }) (fun p => rfl) x
  have hnosin : ∀ x, estadoDe s x ≠ SIN_ARRIBAR →
      estadoL (modifica s.procesos i (fun p => { p with estado := NUEVO })) x
        ≠ SIN_ARRIBAR := by
    intro x hx
    by_cases hxi : x = i
    · subst hxi
      rw [hEstI]
      decide
    · rw [hEstNe x hxi]
      exact hx
  refine ⟨?_, ?_, ?_, ?_, ?_, ?_, ?_⟩
  · intro x hx
    rcases List.mem_append.mp hx with hx | hx
    · exact ⟨hnosin x (w1 x hx).1, lt_of_lt_of_eq (w1 x hx).2 hA.symm⟩
    · rw [List.mem_singleton] at hx
      subst hx
      refine ⟨?_, lt_of_lt_of_eq hilen hA.symm⟩
      show estadoL (modifica s.procesos x (fun p => { p with estado := NUEVO })) x
        ≠ SIN_ARRIBAR
      rw [hEstI]
      decide
  · intro x hx
    exact ⟨hnosin x (w2 x hx).1, lt_of_lt_of_eq (w2 x hx).2 hA.symm⟩
  · intro x hx
    exact ⟨hnosin x (w3 x hx).1, lt_of_lt_of_eq (w3 x hx).2 hA.symm⟩
  · intro r2 hr2
    exact ⟨hnosin r2 (w4 r2 hr2).1, lt_of_lt_of_eq (w4 r2 hr2).2 hA.symm⟩
  · intro x hx
    have hx2 : estadoL (modifica s.procesos i (fun p => { p with estado := NUEVO })) x
        = SIN_ARRIBAR := hx
    by_cases hxi : x = i
    · subst hxi
      rw [hEstI] at hx2
      cases hx2
    · rw [hEstNe x hxi] at hx2
      show restanteL (modifica s.procesos i (fun p => { p with estado := NUEVO })) x
        = irrupcionL (modifica s.procesos i (fun p => { p with estado := NUEVO })) x
      rw [hRes x, hIrr x]
      have hp2 : restanteL s.procesos x = irrupcionL s.procesos x := p2 x hx2
      exact hp2
  · intro x hxlen hx
    have hxlen2 : x < s.procesos.length := lt_of_lt_of_eq hxlen hA
    have hx2 : estadoL (modifica s.procesos i (fun p => { p with estado := NUEVO })) x
        ≠ SIN_ARRIBAR := hx
    show arriboL (modifica s.procesos i (fun p => { p with estado := NUEVO })) x +
        (irrupcionL (modifica s.procesos i (fun p => { p with estado := NUEVO })) x -
         restanteL (modifica s.procesos i (fun p => { p with estado := NUEVO })) x)
      ≤ s.tiempo_actual
    rw [hArr x, hIrr x, hRes x]
    by_cases hxi : x = i
    · subst hxi
      have hri : restanteL s.procesos x = irrupcionL s.procesos x := p2 x hsin
      have harr2 : arriboL s.procesos x = s.tiempo_actual := harr
      rw [hri, harr2]
      omega
    · rw [hEstNe x hxi] at hx2
      have hb : arriboL s.procesos x + (irrupcionL s.procesos x - restanteL s.procesos x)
          ≤ s.tiempo_actual := p3 x hxlen2 hx2
      exact hb
  · intro x hxlen hx
    have hxlen2 : x < s.procesos.length := lt_of_lt_of_eq hxlen hA
    have hx2 : estadoL (modifica s.procesos i (fun p => { p with estado := NUEVO })) x
        = TERMINADO := hx
    by_cases hxi : x = i
    · subst hxi
      rw [hEstI] at hx2
      cases hx2
    · rw [hEstNe x hxi] at hx2
      obtain ⟨f, hf, hfge⟩ := p4 x hxlen2 hx2
      refine ⟨f, ?_, ?_⟩
      · show finalizacionL (modifica s.procesos i (fun p => { p with estado := NUEVO })) x
          = some f
        rw [hFin x]
        exact hf
      · show arriboL (modifica s.procesos i (fun p => { p with estado := NUEVO })) x +
            irrupcionL (modifica s.procesos i (fun p => { p with estado := NUEVO })) x ≤ f
        rw [hArr x, hIrr x]
        exact hfge

theorem invC8_procesar_aux (cola : List Nat) :
    ∀ (s : Sim) (arr : List Nat), InvC8 s →
      InvC8 (Simulador.procesar_arribos_aux s arr cola).2 := by
  induction cola with
  | nil => intro s arr h; exact h
  | cons i resto ih =>
      intro s arr h
      unfold Simulador.procesar_arribos_aux
      split
      · rename_i hcond
        exact ih _ _ (invC8_arribo s i h hcond.1 hcond.2)
      · exact ih s arr h

theorem invC8_procesar (s : Sim) (h : InvC8 s) :
    InvC8 (Simulador._procesar_arribos s).2 :=
  invC8_procesar_aux _ s [] h
namespace Simulador

theorem invC8_intentar_loop :
    ∀ (n : Nat) (s : Sim), s.cola_nuevos.length ≤ n → InvC8 s →
      ∀ asig susp aten : List Nat, InvC8 (intentar_loop s asig susp aten).st := by
  intro n
  induction n with
  | zero =>
      intro s hlen h asig susp aten
      have hq : s.cola_nuevos = [] := List.length_eq_zero.mp (Nat.le_zero.mp hlen)
      unfold intentar_loop
      split
      · exact h
      · rename_i proceso resto heq
        rw [hq] at heq
        cases heq
  | succ n ih =>
      intro s hlen h asig susp aten
      unfold intentar_loop
      split
      · exact h
      · rename_i proceso resto heq
        split
        · exact h
        · obtain ⟨hpne, hplen⟩ :=
            h.1 proceso (heq ▸ List.mem_cons_self proceso resto)
          have hlen2 : resto.length ≤ n := by
            rw [heq] at hlen
            simpa using hlen
          split
          · have hm := mismoC8_asignar s proceso
            have h2 : InvC8 (GestorMemoria.asignar_proceso s proceso).2 :=
              invC8_mismo hm h
            have h3 : InvC8 { (GestorMemoria.asignar_proceso s proceso).2 with
                cola_nuevos := resto } := by
              refine invC8_cola_nuevos _ resto h2 ?_
              intro x hx
              rw [hm.2.2.2.2.2.2.1, heq]
              exact List.mem_cons_of_mem proceso hx
            refine ih _ ?_ ?_ _ _ _
            · rw [(Planificador.agregar_listo_marco _ _ _).1]
              exact hlen2
            · refine invC8_agregar_listo _ proceso _ h3 ?_ ?_
              · exact fun hc => hpne ((hm.1 proceso).symm.trans hc)
              · exact lt_of_lt_of_eq hplen (hm.2.2.2.2.2.1).symm
          · have hm := mismoC8_asignar s proceso
            have h2 : InvC8 (GestorMemoria.asignar_proceso s proceso).2 :=
              invC8_mismo hm h
            have h3 : InvC8 { (GestorMemoria.asignar_proceso s proceso).2 with
                cola_nuevos := resto } := by
              refine invC8_cola_nuevos _ resto h2 ?_
              intro x hx
              rw [hm.2.2.2.2.2.2.1, heq]
              exact List.mem_cons_of_mem proceso hx
            refine ih _ ?_ ?_ _ _ _
            · rw [(Planificador.agregar_suspendido_marco _ _ _).1]
              exact hlen2
            · refine invC8_agregar_suspendido _ proceso _ h3 ?_ ?_
              · exact fun hc => hpne ((hm.1 proceso).symm.trans hc)
              · exact lt_of_lt_of_eq hplen (hm.2.2.2.2.2.1).symm

theorem invC8_promover_loop :
    ∀ (n : Nat) (s : Sim), s.cola_listos_suspendidos.length ≤ n → InvC8 s →
      ∀ proms : List Nat, InvC8 (promover_loop s proms).2 := by
  intro n
  induction n with
  | zero =>
      intro s hlen h proms
      have hq : s.cola_listos_suspendidos = [] :=
        List.length_eq_zero.mp (Nat.le_zero.mp hlen)
      unfold promover_loop
      split
      · exact h
      · rename_i cand resto heq
        rw [hq] at heq
        cases heq
  | succ n ih =>
      intro s hlen h proms
      unfold promover_loop
      split
      · exact h
      · rename_i cand resto heq
        have hlen2 : resto.length ≤ n := by
          rw [heq] at hlen
          simpa using hlen
        obtain ⟨hcne, hclen⟩ :=
          h.2.2.1 cand (heq ▸ List.mem_cons_self cand resto)
        split
        · exact h
        · split
          · have hm := mismoC8_asignar s cand
            have h2 : InvC8 (GestorMemoria.asignar_proceso s cand).2 :=
              invC8_mismo hm h
            have h3 : InvC8 { (GestorMemoria.asignar_proceso s cand).2 with
                cola_listos_suspendidos := resto } := by
              refine invC8_susp _ resto h2 ?_
              intro x hx
              rw [hm.2.2.2.2.2.2.2.2.1, heq]
              exact List.mem_cons_of_mem cand hx
            refine ih _ ?_ ?_ _
            · rw [(Planificador.agregar_listo_marco _ _ _).2.1]
              exact hlen2
            · refine invC8_agregar_listo _ cand _ h3 ?_ ?_
              · exact fun hc => hcne ((hm.1 cand).symm.trans hc)
              · exact lt_of_lt_of_eq hclen (hm.2.2.2.2.2.1).symm
          · split
            · rename_i idx proc s2 hbusca
              have hcota := buscar_promovible_cota resto _ 1 idx proc s2 hbusca
              have hm := mismoC8_trans (mismoC8_asignar s cand)
                (mismoC8_buscar resto _ 1 idx proc s2 hbusca)
              have hproc : proc ∈ s.cola_listos_suspendidos := by
                rw [heq]
                exact List.mem_cons_of_mem cand (buscar_mem resto _ 1 idx proc s2 hbusca)
              obtain ⟨hqne, hqlen⟩ := h.2.2.1 proc hproc
              have h2 : InvC8 s2 := invC8_mismo hm h
              have h3 : InvC8 { s2 with
                  cola_listos_suspendidos := s2.cola_listos_suspendidos.eraseIdx idx } :=
                invC8_susp _ _ h2 (fun x hx => List.mem_of_mem_eraseIdx hx)
              have hlen3 : (s2.cola_listos_suspendidos.eraseIdx idx).length ≤ n := by
                rw [hcota.2.2, (GestorMemoria.asignar_proceso_marco s cand).2.2.1, heq]
                rw [List.length_eraseIdx, if_pos (by simp; omega)]
                simp
                omega
              refine ih _ ?_ ?_ _
              · rw [(Planificador.agregar_listo_marco _ _ _).2.1]
                exact hlen3
              · refine invC8_agregar_listo _ proc _ h3 ?_ ?_
                · exact fun hc => hqne ((hm.1 proc).symm.trans hc)
                · exact lt_of_lt_of_eq hqlen (hm.2.2.2.2.2.1).symm
            · exact invC8_mismo (mismoC8_asignar s cand) h

theorem invC8_intentar (s : Sim) (h : InvC8 s) :
    InvC8 (_intentar_asignar_memoria_desde_colas s).st := by
  unfold _intentar_asignar_memoria_desde_colas
  refine invC8_intentar_loop _ _ (Nat.le_refl _) ?_ [] [] []
  exact invC8_cola_nuevos s _ h (fun x hx => (List.mem_insertionSort _).mp hx)

theorem invC8_promover (s : Sim) (h : InvC8 s) :
    InvC8 (_promover_suspendidos s).2 :=
  invC8_promover_loop _ _ (Nat.le_refl _) h []

theorem invC8_fase_arribos (s : Sim) (h : InvC8 s) : InvC8 (fase_arribos s) := by
  unfold fase_arribos
  dsimp only
  exact invC8_seleccionar _ _ (invC8_intentar _ (invC8_procesar s h))

theorem invC8_fase_terminacion (s : Sim) (h : InvC8 s)
    (hrest : ∀ r, s.proceso_ejecutando = some r → restanteDe s r ≤ 0) :
    InvC8 (fase_terminacion s) := by
  unfold fase_terminacion
  split
  · rename_i term s1 heq
    dsimp only
    have h1 : InvC8 s1 := by
      have hfin := invC8_finalizar s h hrest
      rw [heq] at hfin
      exact hfin
    exact invC8_seleccionar _ _ (invC8_intentar _ (invC8_promover _
      (invC8_mismo (mismoC8_liberar s1 term) h1)))
  · rename_i s1 heq
    have hfin := invC8_finalizar s h hrest
    rw [heq] at hfin
    exact hfin

theorem minimoL_mem : ∀ (l : List Int) (m : Int), minimoL l = some m → m ∈ l := by
  intro l
  induction l with
  | nil => intro m hm; simp [minimoL] at hm
  | cons a xs ih =>
      intro m hm
      unfold minimoL at hm
      rw [Option.some.injEq] at hm
      cases hmx : minimoL xs with
      | none =>
          rw [hmx] at hm
          have hm2 : a = m := hm
          rw [← hm2]
          exact List.mem_cons_self a xs
      | some m2 =>
          rw [hmx] at hm
          have hm2 : min a m2 = m := hm
          rcases le_total a m2 with hle | hle
          · rw [min_eq_left hle] at hm2
            rw [← hm2]
            exact List.mem_cons_self a xs
          · rw [min_eq_right hle] at hm2
            rw [← hm2]
            exact List.mem_cons_of_mem a (ih m2 hmx)

theorem evento_ge (s : Sim) (t : Int)
    (hr0 : ∀ r, s.proceso_ejecutando = some r → 0 ≤ restanteDe s r)
    (hct : _calcular_tiempo_siguiente_evento s = some t) : s.tiempo_actual ≤ t := by
  unfold _calcular_tiempo_siguiente_evento at hct
  have hm := minimoL_mem (candidatos s) t hct
  unfold candidatos at hm
  rcases List.mem_append.mp hm with hm | hm
  · rw [List.mem_map] at hm
    obtain ⟨i, hi, hit⟩ := hm
    rw [List.mem_filter] at hi
    have hcond := of_decide_eq_true hi.2
    obtain ⟨_, hlt2⟩ := hcond
    omega
  · cases hej : s.proceso_ejecutando with
    | none =>
        rw [hej] at hm
        cases hm
    | some r =>
        rw [hej] at hm
        rw [List.mem_singleton] at hm
        have := hr0 r hej
        omega

theorem avanzar_ejec (s : Sim) (t : Int) :
    (avanzar s t).proceso_ejecutando = s.proceso_ejecutando := by
  unfold avanzar
  cases hej : s.proceso_ejecutando with
  | none => exact hej
  | some r =>
      dsimp only
      split
      · rfl
      · exact hej

theorem finalizacion_restante (s : Sim) (t : Int) (hF : hayFinalizacion s t = true) :
    ∀ r, (avanzar s t).proceso_ejecutando = some r →
      restanteDe (avanzar s t) r ≤ 0 := by
  intro r hr
  have hej : s.proceso_ejecutando = some r := (avanzar_ejec s t).symm.trans hr
  unfold hayFinalizacion at hF
  rw [hej] at hF
  simp only [Bool.and_eq_true, decide_eq_true_eq] at hF
  exact hF.2

theorem invC8_paso (s : Sim) (em : List Sim) (s' : Sim) (h : InvC8 s)
    (hr0 : ∀ r, s.proceso_ejecutando = some r → 0 ≤ restanteDe s r)
    (hp : paso s = some (em, s')) :
    InvC8 s' ∧ ∀ u ∈ em, InvC8 u := by
  unfold paso at hp
  split at hp
  · cases hp
  · split at hp
    · cases hp
    · rename_i t hct
      simp only [Option.some.injEq, Prod.mk.injEq] at hp
      obtain ⟨hem, hs1⟩ := hp
      have hte := evento_ge s t hr0 hct
      have h1 : InvC8 (avanzar s t) := invC8_avanzar s t h hte
      have h2 : ∀ hF : hayFinalizacion s t = true,
          InvC8 (fase_terminacion (avanzar s t)) :=
        fun hF => invC8_fase_terminacion _ h1 (finalizacion_restante s t hF)
      constructor
      · rw [← hs1]
        cases hF : hayFinalizacion s t with
        | false =>
            cases hA : hayArribosEn s t with
            | false => exact h1
            | true => exact invC8_fase_arribos _ h1
        | true =>
            cases hA : hayArribosEn s t with
            | false => exact h2 hF
            | true => exact invC8_fase_arribos _ (h2 hF)
      · intro u hu
        rw [← hem] at hu
        cases hF : hayFinalizacion s t with
        | false =>
            cases hA : hayArribosEn s t with
            | false =>
                rw [hF, hA] at hu
                simp at hu
            | true =>
                rw [hF, hA] at hu
                simp at hu
                subst hu
                exact invC8_fase_arribos _ h1
        | true =>
            cases hA : hayArribosEn s t with
            | false =>
                rw [hF, hA] at hu
                simp at hu
                subst hu
                exact h2 hF
            | true =>
                rw [hF, hA] at hu
                simp at hu
                rcases hu with hu | hu
                · subst hu
                  exact h2 hF
                · subst hu
                  exact invC8_fase_arribos _ (h2 hF)

theorem cargar_estado (entrada : List (Int × Int × Int)) (i : Nat)
    (hi : i < (cargar entrada).procesos.length) :
    estadoDe (cargar entrada) i = SIN_ARRIBAR := by
  show estadoL (cargar entrada).procesos i = SIN_ARRIBAR
  unfold estadoL
  rw [List.getElem?_eq_getElem hi]
  show ((cargar entrada).procesos[i]).estado = SIN_ARRIBAR
  unfold cargar
  dsimp only
  rw [List.getElem_map]
  rfl

theorem invC8_cargar (entrada : List (Int × Int × Int)) : InvC8 (cargar entrada) := by
  refine ⟨?_, ?_, ?_, ?_, ?_, ?_, ?_⟩
  · intro i hi
    cases hi
  · intro i hi
    cases hi
  · intro i hi
    cases hi
  · intro r hr
    cases hr
  · intro i hi
    show restanteL (cargar entrada).procesos i = irrupcionL (cargar entrada).procesos i
    unfold cargar
    dsimp only
    unfold restanteL irrupcionL
    simp only [List.getElem?_map]
    cases entrada[i]? with
    | none => rfl
    | some q => rfl
  · intro i hilen hi
    exact absurd (cargar_estado entrada i hilen) hi
  · intro i hilen hi
    rw [cargar_estado entrada i hilen] at hi
    cases hi

theorem invC8_alcanzable (entrada : List (Int × Int × Int))
    (hval : EntradaValida entrada) :
    ∀ s, Alcanzable entrada s → InvC8 s := by
  intro s h
  induction h with
  | base =>
      have h0 := invC8_cargar entrada
      unfold arranque
      split
      · exact invC8_fase_arribos _ h0
      · exact h0
  | siguiente halc hpaso ih =>
      have hrest := inv_alcanzable entrada hval _ halc
      exact (invC8_paso _ _ _ ih (fun r _ => (hrest r).1) hpaso).1

end Simulador
namespace Simulador

theorem intentar_loop_nil (s : Sim) (hq : s.cola_nuevos = [])
    (a b c : List Nat) :
    intentar_loop s a b c =
      { asignados := a, suspendidos := b, en_cola_por_grado := [],
        atendidos := c, st := s } := by
  unfold intentar_loop
  split
  · rfl
  · rename_i proceso resto heq
    rw [hq] at heq
    cases heq

theorem intentar_loop_exito (s : Sim) (proceso : Nat) (resto : List Nat)
    (hq : s.cola_nuevos = proceso :: resto)
    (hg : ¬ GestorMemoria.GRADO_MULTIPROGRAMACION_MAX ≤
      _calcular_grado_multiprogramacion_actual s)
    (hx : (GestorMemoria.asignar_proceso s proceso).1 = true)
    (a b c : List Nat) :
    intentar_loop s a b c =
      intentar_loop
        (Planificador.agregar_listo
          { (GestorMemoria.asignar_proceso s proceso).2 with cola_nuevos := resto }
          proceso s.tiempo_actual)
        (a ++ [proceso]) b (c ++ [proceso]) := by
  conv_lhs => unfold intentar_loop
  split
  · rename_i heq
    rw [hq] at heq
    cases heq
  · rename_i p2 r2 heq
    rw [hq, List.cons.injEq] at heq
    obtain ⟨hp2, hr2⟩ := heq
    subst hp2
    subst hr2
    rw [if_neg hg, if_pos hx]

theorem promover_loop_nil (s : Sim) (hq : s.cola_listos_suspendidos = [])
    (proms : List Nat) : promover_loop s proms = (proms, s) := by
  unfold promover_loop
  split
  · rfl
  · rename_i cand resto heq
    rw [hq] at heq
    cases heq

theorem intentar_nil (s : Sim) (hq : s.cola_nuevos = []) :
    _intentar_asignar_memoria_desde_colas s =
      { asignados := [], suspendidos := [], en_cola_por_grado := [],
        atendidos := [], st := { s with cola_nuevos := [] } } := by
  unfold _intentar_asignar_memoria_desde_colas
  rw [hq]
  exact intentar_loop_nil _ rfl [] [] []

end Simulador

def sAv : Sim :=
  { procesos := [{ tamano := 60,
                   tiempo_arribo := 0,
                   tiempo_irrupcion := 2,
                   tiempo_restante := 2,
                   estado := EstadoProceso.NUEVO,
                   tiempo_llegada_listo := none,
                   tiempo_finalizacion := none,
                   particion_asignada := none,
                   tiempo_espera_acumulado := 0,
                   ultimo_tiempo_espera_inicio := none }],
    particiones := [{ id_particion := 0,
                      direccion_inicio := 0,
                      tamano := 100,
                      proceso_asignado := none,
                      es_sistema_operativo := true },
                    { id_particion := 1,
                      direccion_inicio := 100,
                      tamano := 250,
                      proceso_asignado := none,
                      es_sistema_operativo := false },
                    { id_particion := 2,
                      direccion_inicio := 350,
                      tamano := 150,
                      proceso_asignado := none,
                      es_sistema_operativo := false },
                    { id_particion := 3,
                      direccion_inicio := 500,
                      tamano := 50,
                      proceso_asignado := none,
                      es_sistema_operativo := false }],
    cola_nuevos := [0],
    cola_listos := [],
    cola_listos_suspendidos := [],
    proceso_ejecutando := none,
    tiempo_actual := 0 }

def sBv : Sim :=
  { procesos := [{ tamano := 60,
                   tiempo_arribo := 0,
                   tiempo_irrupcion := 2,
                   tiempo_restante := 2,
                   estado := EstadoProceso.LISTO,
                   tiempo_llegada_listo := some 0,
                   tiempo_finalizacion := none,
                   particion_asignada := some 2,
                   tiempo_espera_acumulado := 0,
                   ultimo_tiempo_espera_inicio := some 0 }],
    particiones := [{ id_particion := 0,
                      direccion_inicio := 0,
                      tamano := 100,
                      proceso_asignado := none,
                      es_sistema_operativo := true },
                    { id_particion := 1,
                      direccion_inicio := 100,
                      tamano := 250,
                      proceso_asignado := none,
                      es_sistema_operativo := false },
                    { id_particion := 2,
                      direccion_inicio := 350,
                      tamano := 150,
                      proceso_asignado := some 0,
                      es_sistema_operativo := false },
                    { id_particion := 3,
                      direccion_inicio := 500,
                      tamano := 50,
                      proceso_asignado := none,
                      es_sistema_operativo := false }],
    cola_nuevos := [],
    cola_listos := [0],
    cola_listos_suspendidos := [],
    proceso_ejecutando := none,
    tiempo_actual := 0 }

def s0v : Sim :=
  { procesos := [{ tamano := 60,
                   tiempo_arribo := 0,
                   tiempo_irrupcion := 2,
                   tiempo_restante := 2,
                   estado := EstadoProceso.EJECUCION,
                   tiempo_llegada_listo := some 0,
                   tiempo_finalizacion := none,
                   particion_asignada := some 2,
                   tiempo_espera_acumulado := 0,
                   ultimo_tiempo_espera_inicio := none }],
    particiones := [{ id_particion := 0,
                      direccion_inicio := 0,
                      tamano := 100,
                      proceso_asignado := none,
                      es_sistema_operativo := true },
                    { id_particion := 1,
                      direccion_inicio := 100,
                      tamano := 250,
                      proceso_asignado := none,
                      es_sistema_operativo := false },
                    { id_particion := 2,
                      direccion_inicio := 350,
                      tamano := 150,
                      proceso_asignado := some 0,
                      es_sistema_operativo := false },
                    { id_particion := 3,
                      direccion_inicio := 500,
                      tamano := 50,
                      proceso_asignado := none,
                      es_sistema_operativo := false }],
    cola_nuevos := [],
    cola_listos := [],
    cola_listos_suspendidos := [],
    proceso_ejecutando := some 0,
    tiempo_actual := 0 }

def sCv : Sim :=
  { procesos := [{ tamano := 60,
                   tiempo_arribo := 0,
                   tiempo_irrupcion := 2,
                   tiempo_restante := 0,
                   estado := EstadoProceso.EJECUCION,
                   tiempo_llegada_listo := some 0,
                   tiempo_finalizacion := none,
                   particion_asignada := some 2,
                   tiempo_espera_acumulado := 0,
                   ultimo_tiempo_espera_inicio := none }],
    particiones := [{ id_particion := 0,
                      direccion_inicio := 0,
                      tamano := 100,
                      proceso_asignado := none,
                      es_sistema_operativo := true },
                    { id_particion := 1,
                      direccion_inicio := 100,
                      tamano := 250,
                      proceso_asignado := none,
                      es_sistema_operativo := false },
                    { id_particion := 2,
                      direccion_inicio := 350,
                      tamano := 150,
                      proceso_asignado := some 0,
                      es_sistema_operativo := false },
                    { id_particion := 3,
                      direccion_inicio := 500,
                      tamano := 50,
                      proceso_asignado := none,
                      es_sistema_operativo := false }],
    cola_nuevos := [],
    cola_listos := [],
    cola_listos_suspendidos := [],
    proceso_ejecutando := some 0,
    tiempo_actual := 2 }



def sDv : Sim :=
  { procesos := [{ tamano := 60,
                   tiempo_arribo := 0,
                   tiempo_irrupcion := 2,
                   tiempo_restante := 0,
                   estado := EstadoProceso.TERMINADO,
                   tiempo_llegada_listo := some 0,
                   tiempo_finalizacion := some 2,
                   particion_asignada := some 2,
                   tiempo_espera_acumulado := 0,
                   ultimo_tiempo_espera_inicio := none }],
    particiones := [{ id_particion := 0,
                      direccion_inicio := 0,
                      tamano := 100,
                      proceso_asignado := none,
                      es_sistema_operativo := true },
                    { id_particion := 1,
                      direccion_inicio := 100,
                      tamano := 250,
                      proceso_asignado := none,
                      es_sistema_operativo := false },
                    { id_particion := 2,
                      direccion_inicio := 350,
                      tamano := 150,
                      proceso_asignado := some 0,
                      es_sistema_operativo := false },
                    { id_particion := 3,
                      direccion_inicio := 500,
                      tamano := 50,
                      proceso_asignado := none,
                      es_sistema_operativo := false }],
    cola_nuevos := [],
    cola_listos := [],
    cola_listos_suspendidos := [],
    proceso_ejecutando := none,
    tiempo_actual := 2 }

def sEv : Sim :=
  { procesos := [{ tamano := 60,
                   tiempo_arribo := 0,
                   tiempo_irrupcion := 2,
                   tiempo_restante := 0,
                   estado := EstadoProceso.TERMINADO,
                   tiempo_llegada_listo := some 0,
                   tiempo_finalizacion := some 2,
                   particion_asignada := none,
                   tiempo_espera_acumulado := 0,
                   ultimo_tiempo_espera_inicio := none }],
    particiones := [{ id_particion := 0,
                      direccion_inicio := 0,
                      tamano := 100,
                      proceso_asignado := none,
                      es_sistema_operativo := true },
                    { id_particion := 1,
                      direccion_inicio := 100,
                      tamano := 250,
                      proceso_asignado := none,
                      es_sistema_operativo := false },
                    { id_particion := 2,
                      direccion_inicio := 350,
                      tamano := 150,
                      proceso_asignado := none,
                      es_sistema_operativo := false },
                    { id_particion := 3,
                      direccion_inicio := 500,
                      tamano := 50,
                      proceso_asignado := none,
                      es_sistema_operativo := false }],
    cola_nuevos := [],
    cola_listos := [],
    cola_listos_suspendidos := [],
    proceso_ejecutando := none,
    tiempo_actual := 2 }

def s1v : Sim :=
  { procesos := [{ tamano := 60,
                   tiempo_arribo := 0,
                   tiempo_irrupcion := 2,
                   tiempo_restante := 0,
                   estado := EstadoProceso.TERMINADO,
                   tiempo_llegada_listo := some 0,
                   tiempo_finalizacion := some 2,
                   particion_asignada := none,
                   tiempo_espera_acumulado := 0,
                   ultimo_tiempo_espera_inicio := none }],
    particiones := [{ id_particion := 0,
                      direccion_inicio := 0,
                      tamano := 100,
                      proceso_asignado := none,
                      es_sistema_operativo := true },
                    { id_particion := 1,
                      direccion_inicio := 100,
                      tamano := 250,
                      proceso_asignado := none,
                      es_sistema_operativo := false },
                    { id_particion := 2,
                      direccion_inicio := 350,
                      tamano := 150,
                      proceso_asignado := none,
                      es_sistema_operativo := false },
                    { id_particion := 3,
                      direccion_inicio := 500,
                      tamano := 50,
                      proceso_asignado := none,
                      es_sistema_operativo := false }],
    cola_nuevos := [],
    cola_listos := [],
    cola_listos_suspendidos := [],
    proceso_ejecutando := none,
    tiempo_actual := 2 }

/-- C8: turnaround/wait consistency.  In any state reachable by the
simulation from validated input, every process that has reached the
Terminated state yields `calcular_tiempo_retorno = some ret` with
`ret = tiempo_finalizacion - tiempo_arribo ≥ tiempo_irrupcion`, and
`calcular_tiempo_espera = some esp` with `esp = ret - tiempo_irrupcion ≥ 0`. -/
theorem claim_C8 (entrada : List (Int × Int × Int)) (s : Sim)
    (hval : EntradaValida entrada) (halc : Simulador.Alcanzable entrada s) :
    ∀ (i : Nat) (p : Proceso), s.procesos[i]? = some p → p.estado = TERMINADO →
      ∃ ret esp, calcular_tiempo_retorno p = some ret ∧
        calcular_tiempo_espera p = some esp ∧
        p.tiempo_irrupcion ≤ ret ∧ esp = ret - p.tiempo_irrupcion ∧ 0 ≤ esp := by
  intro i p hp hterm
  have hinv := Simulador.invC8_alcanzable entrada hval s halc
  have hilen : i < s.procesos.length := by
    by_contra hc
    rw [List.getElem?_eq_none_iff.mpr (le_of_not_lt hc)] at hp
    cases hp
  have hest : estadoDe s i = TERMINADO := by
    unfold estadoDe estadoL
    rw [hp]
    exact hterm
  obtain ⟨f, hf, hfge⟩ := hinv.2.2.2.2.2.2 i hilen hest
  have hf2 : p.tiempo_finalizacion = some f := by
    unfold finalizacionDe finalizacionL at hf
    rw [hp] at hf
    exact hf
  have harr : arriboDe s i = p.tiempo_arribo := by
    unfold arriboDe arriboL
    rw [hp]
  have hirr : irrupcionDe s i = p.tiempo_irrupcion := by
    unfold irrupcionDe irrupcionL
    rw [hp]
  rw [harr, hirr] at hfge
  refine ⟨f - p.tiempo_arribo, f - p.tiempo_arribo - p.tiempo_irrupcion, ?_, ?_, ?_, ?_, ?_⟩
  · unfold calcular_tiempo_retorno
    rw [hf2]
  · unfold calcular_tiempo_espera calcular_tiempo_retorno
    rw [hf2]
  · omega
  · omega
  · omega


/-- Input for the C8 witness. -/
def entradaC8 : List (Int × Int × Int) := [(60, 0, 2)]

/-- State after the pre-loop arrival block on the C8 witness input. -/
def s0C8 : Sim := Simulador.arranque (Simulador.cargar entradaC8)

theorem intentarC8 :
    Simulador._intentar_asignar_memoria_desde_colas sAv =
      { asignados := [0], suspendidos := [], en_cola_por_grado := [],
        atendidos := [0], st := sBv } := by
  unfold Simulador._intentar_asignar_memoria_desde_colas
  rw [show { sAv with
      cola_nuevos := List.insertionSort (Simulador.claveLe sAv) sAv.cola_nuevos }
      = sAv from by decide]
  rw [Simulador.intentar_loop_exito sAv 0 [] (by decide) (by decide) (by decide) [] [] []]
  rw [show Planificador.agregar_listo
      { (GestorMemoria.asignar_proceso sAv 0).2 with cola_nuevos := ([] : List Nat) }
      0 sAv.tiempo_actual = sBv from by decide]
  rw [Simulador.intentar_loop_nil sBv (by decide) ([] ++ [0]) [] ([] ++ [0])]
  rfl

theorem s0C8_eq : s0C8 = s0v := by
  show Simulador.arranque (Simulador.cargar entradaC8) = s0v
  unfold Simulador.arranque
  rw [if_pos (by decide)]
  unfold Simulador.fase_arribos
  dsimp only
  rw [show (Simulador._procesar_arribos (Simulador.cargar entradaC8)).2 = sAv from by decide]
  rw [intentarC8]
  decide

theorem fase_termC8 : Simulador.fase_terminacion sCv = s1v := by
  unfold Simulador.fase_terminacion
  rw [show Planificador.finalizar_proceso_actual sCv sCv.tiempo_actual
      = (some 0, sDv) from by decide]
  dsimp only
  rw [show (GestorMemoria.liberar_particion sDv 0).2 = sEv from by decide]
  unfold Simulador._promover_suspendidos
  rw [Simulador.promover_loop_nil sEv (by decide) []]
  dsimp only
  rw [Simulador.intentar_nil sEv (by decide)]
  dsimp only
  rw [show ({ sEv with cola_nuevos := ([] : List Nat) }) = sEv from by decide]
  decide

theorem pasoC8 : Simulador.paso s0C8 = some ([s1v], s1v) := by
  rw [s0C8_eq]
  unfold Simulador.paso
  rw [if_neg (by decide)]
  rw [show Simulador._calcular_tiempo_siguiente_evento s0v = some 2 from by decide]
  dsimp only
  rw [show Simulador.avanzar s0v 2 = sCv from by decide]
  rw [show Simulador.hayFinalizacion s0v 2 = true from by decide]
  rw [show Simulador.hayArribosEn s0v 2 = false from by decide]
  rw [fase_termC8]
  decide

/-- The process record of the C8 witness after its run finishes. -/
def pC8 : Proceso :=
  { tamano := 60, tiempo_arribo := 0, tiempo_irrupcion := 2, tiempo_restante := 0,
    estado := TERMINADO, tiempo_llegada_listo := some 0, tiempo_finalizacion := some 2,
    particion_asignada := none, tiempo_espera_acumulado := 0,
    ultimo_tiempo_espera_inicio := none }

/-- Witness for C8: the single process of `entradaC8` terminates at time 2
with turnaround 2, equal to its burst, and wait 0. -/
theorem claim_C8_witness :
    EntradaValida entradaC8 ∧
      ∃ ret esp, calcular_tiempo_retorno pC8 = some ret ∧
        calcular_tiempo_espera pC8 = some esp ∧
        pC8.tiempo_irrupcion ≤ ret ∧ esp = ret - pC8.tiempo_irrupcion ∧ 0 ≤ esp :=
  ⟨by decide,
    claim_C8 entradaC8 s1v (by decide)
      (Simulador.Alcanzable.siguiente Simulador.Alcanzable.base pasoC8)
      0 pC8 (by decide) rfl⟩
